import Mathlib

/-!
# SVGPathParser: a shallow embedding of `src/SVGparser.c`

Conventions of the embedding.

* C `float`/`double` values are exact rationals (`ℚ`): every arithmetic
  operation is the exact one, conversions between `double` and `float` are the
  identity, and there is no negative zero, infinity or NaN. The one exception
  is `str2fDouble`, a second embedding of `str2f` that keeps the result of
  `pow` in the range of `double`.
* A C string (`char*` cursor) is the list of characters from the cursor up to
  the terminating NUL; reading `*s` at the end of the list gives NUL.
* The growable `elements` array of the parser is the list of its first `size`
  slots together with the number `capacity`; a slot holds either a float or,
  through the `command(p)` cast, a 32 bit command code.
* The `int` field `capacity` is an integer; the doubled capacity that
  `guarantee_capacity` computes in type `int` is wrapped to 32 bits in two's
  complement (`toInt32`).
* The linked list of finished subpaths (`plist`, `next`) is a Lean list whose
  head is the head of the linked list.
* A pointer walking through an `elements` array (`p->elements + i`) is the list
  of the slots from index `i` to `size`.
* Reading a slot with the wrong view (a float where a command code is expected
  or the reverse), or reading past `size`, is outside the embedding and is
  reported as `Fault.slot`; `exit(1)` in `moveto` is `Fault.unexpectedMoveTo`.
* Memory allocation always succeeds.
* Text written by `printf` in the two generators is returned as a list of
  characters; the diagnostic `printf` inside `quadto` is not recorded.
-/

namespace SVGparser

/-! ## Results of fallible code -/

/-- Ways in which a run leaves the embedding. -/
inductive Fault where
  | unexpectedMoveTo
  | slot
  | fuel
  deriving DecidableEq, Repr

deriving instance DecidableEq for Except

/-! ## Internal command codes -/

def LINETO : Nat := 2 <<< 8
def TQUADTO : Nat := LINETO + 1
def QUADTO : Nat := ((TQUADTO &&& 0xff) + 1) ||| (4 <<< 8)
def SCURVETO : Nat := QUADTO + 1
def CURVETO : Nat := ((SCURVETO &&& 0xff) + 1) ||| (6 <<< 8)
def ARCTO : Nat := ((CURVETO &&& 0xff) + 1) ||| (7 <<< 8)
def NCOMMANDS : Nat := (ARCTO &&& 0xff) + 1

def ITEM_SIZE : Nat := 64

/-- The rounding `roundf`: to the nearest integer, halves away from zero. -/
def roundf (x : ℚ) : ℤ :=
  if 0 ≤ x then ⌊x + 1 / 2⌋ else -⌊-x + 1 / 2⌋

/-- The source text is `#define dig3(n) (roundf((n)*1000.0f)/1000.0f)`. -/
def dig3 (n : ℚ) : ℚ := (roundf (n * 1000) : ℚ) / 1000

/-- The source text is `#define trnc(a) dig3(a)` (VERBOSE is not defined). -/
def trnc (a : ℚ) : ℚ := dig3 a

/-! ## Types -/

/-- One slot of an `elements` array. -/
inductive Slot where
  | num (v : ℚ)
  | cmd (c : Nat)
  deriving DecidableEq, Repr

/-- A finished subpath (`SVGpath` without its `next` link); `size` is the
length of `elements`. -/
structure SVGpath where
  elements : List Slot
  closed : Bool
  deriving DecidableEq, Repr

def SVGpath.size (sp : SVGpath) : Nat := sp.elements.length

/-- The six floats of a transformation matrix. -/
structure Matrix6 where
  t0 : ℚ
  t1 : ℚ
  t2 : ℚ
  t3 : ℚ
  t4 : ℚ
  t5 : ℚ
  deriving DecidableEq, Repr

/-- The parser object `SVGPathparser`; `size` is the length of `elements`. -/
structure SVGPathparser where
  matrix : Matrix6
  elements : List Slot
  capacity : Int
  angle : ℚ
  plist : List SVGpath
  deriving DecidableEq, Repr

def SVGPathparser.size (p : SVGPathparser) : Nat := p.elements.length

/-- The table `sz[58]`, indexed by `c - 65`. -/
def sz : List Int :=
  [7, 66, 6, 68, 69, 70, 71, 1, 73, 74,
   75, 2, 2, 78, 79, 80, 4, 82, 4, 2,
   85, 1, 87, 88, 89, 0, 91, 92, 93, 94,
   95, 96, 7, 98, 6, 100, 101, 102, 103, 1,
   105, 106, 107, 2, 2, 110, 111, 112, 4, 114,
   4, 2, 117, 1, 119, 120, 121, 0]

def commands : List Char := ['L', 'T', 'Q', 'S', 'C', 'A']
def relative : List Char := ['l', 't', 'q', 's', 'c', 'a']

/-! ## Generic functions -/

/-- The character under a cursor (`*s`), NUL at the end of the text. -/
def deref (s : List Char) : Char := s.headD (Char.ofNat 0)

def digit (c : Char) : Bool := decide ('0' ≤ c) && decide (c ≤ '9')

def LLONG_MAX : Nat := 2 ^ 63 - 1

def digitsValue (ds : List Char) : Nat :=
  ds.foldl (fun a c => 10 * a + (c.toNat - 48)) 0

/-- The C library test `isspace` in the C locale. -/
def isspace (c : Char) : Bool :=
  c = ' ' || c = '\t' || c = '\n' || c = '\x0b' || c = '\x0c' || c = '\r'

/-- The C library conversions `strtoll(s, &end, 10)` and `strtol(s, &end, 10)`
with the range `[lo, hi]` of the result type: the value and `end`. When no
digit is found the value is 0 and `end` is `s`; a value out of range is
replaced by the nearest bound. -/
def strtolBase10 (lo hi : Int) (s : List Char) : Int × List Char :=
  let s1 := s.dropWhile isspace
  let neg := decide (deref s1 = '-')
  let s2 := if deref s1 = '-' ∨ deref s1 = '+' then s1.tail else s1
  let ds := s2.takeWhile digit
  if ds = [] then (0, s)
  else
    let v : Int := if neg then -(digitsValue ds : Int) else (digitsValue ds : Int)
    (max lo (min hi v), s2.dropWhile digit)

def strtoll (s : List Char) : Int × List Char :=
  strtolBase10 (-(LLONG_MAX : Int) - 1) LLONG_MAX s

/-- The type `long` has 64 bits (LP64). -/
def strtol (s : List Char) : Int × List Char :=
  strtolBase10 (-(LLONG_MAX : Int) - 1) LLONG_MAX s

/-- The body of `str2f` after the optional sign has been read: `cur` is the
cursor behind the sign; `(cur, end)` pairs are compared through the number of
characters between them. -/
def str2fAfterSign (sign : ℚ) (cur : List Char) : ℚ :=
  -- integer part
  let ip := if digit (deref cur) then strtoll cur else (0, cur)
  let hasIntPart := decide (ip.2.length ≠ cur.length)
  let res : ℚ := if hasIntPart then (ip.1 : ℚ) else 0
  let cur := if hasIntPart then ip.2 else cur
  -- fractional part
  let cur1 := if deref cur = '.' then cur.tail else cur
  let fp := if deref cur = '.' ∧ digit (deref cur1) then strtoll cur1 else (0, cur1)
  let hasFracPart := decide (fp.2.length ≠ cur1.length)
  let res : ℚ :=
    if hasFracPart then res + (fp.1 : ℚ) / (10 : ℚ) ^ (cur1.length - fp.2.length) else res
  let cur := if hasFracPart then fp.2 else cur1
  if !hasIntPart && !hasFracPart then 0
  else
    -- optional exponent
    let res : ℚ :=
      if deref cur = 'e' ∨ deref cur = 'E' then
        let ep := strtol cur.tail
        if ep.2.length ≠ cur.tail.length then res * (10 : ℚ) ^ ep.1 else res
      else res
    res * sign

/-- The function `str2f`: the optional sign, then the rest of the body. -/
def str2f (s : List Char) : ℚ :=
  let sign : ℚ := if deref s = '+' then 1 else if deref s = '-' then -1 else 1
  let cur := if deref s = '+' ∨ deref s = '-' then s.tail else s
  str2fAfterSign sign cur

/-- Append a character to the item buffer `it` unless it is full
(`if (i < last) it[i++] = *s;`). -/
def putItem (last : Nat) (it : List Char) (c : Char) : List Char :=
  if it.length < last then it ++ [c] else it

/-- The loop `while (*s && digit(*s)) { if (i < last) it[i++] = *s; s++; }`. -/
def copyDigits (last : Nat) : List Char → List Char → List Char × List Char
  | [], it => ([], it)
  | c :: s, it =>
    if c ≠ Char.ofNat 0 ∧ digit c then copyDigits last s (putItem last it c) else (c :: s, it)

/-- The function `parseNumber(s, it, size)`: the cursor after the number and
the item copied into `it`. -/
def parseNumber (s : List Char) (size : Nat) : List Char × List Char :=
  let last := size - 1
  -- sign
  let r0 : List Char × List Char :=
    if deref s = '-' ∨ deref s = '+' then (s.tail, putItem last [] (deref s)) else (s, [])
  -- integer part
  let r1 := copyDigits last r0.1 r0.2
  -- decimal point and fraction part
  let r2 :=
    if deref r1.1 = '.' then copyDigits last r1.1.tail (putItem last r1.2 (deref r1.1)) else r1
  -- exponent
  if (deref r2.1 = 'e' ∨ deref r2.1 = 'E') ∧
      (deref r2.1.tail ≠ 'm' ∧ deref r2.1.tail ≠ 'x') then
    let r3 : List Char × List Char := (r2.1.tail, putItem last r2.2 (deref r2.1))
    let r4 : List Char × List Char :=
      if deref r3.1 = '-' ∨ deref r3.1 = '+' then (r3.1.tail, putItem last r3.2 (deref r3.1))
      else r3
    copyDigits last r4.1 r4.2
  else r2

/-! ### Matrices -/

def identityMatrix : Matrix6 := ⟨1, 0, 0, 1, 0, 0⟩

def setRotation (cs sn : ℚ) : Matrix6 := ⟨cs, sn, -sn, cs, 0, 0⟩

/-- The function `matrixMultiply(t, s)`: the new contents of `t`. -/
def matrixMultiply (t s : Matrix6) : Matrix6 :=
  let t0 := t.t0 * s.t0 + t.t1 * s.t2
  let t2 := t.t2 * s.t0 + t.t3 * s.t2
  let t4 := t.t4 * s.t0 + t.t5 * s.t2 + s.t4
  let t1 := t.t0 * s.t1 + t.t1 * s.t3
  let t3 := t.t2 * s.t1 + t.t3 * s.t3
  let t5 := t.t4 * s.t1 + t.t5 * s.t3 + s.t5
  ⟨t0, t1, t2, t3, t4, t5⟩

/-- The function `matrixPremultiply(t, s)`: the new contents of `t`. -/
def matrixPremultiply (t s : Matrix6) : Matrix6 := matrixMultiply s t

/-- The function `matrixInverse(inv, t)` for two different arrays: the new
contents of `inv` and of `t`. The determinant and the quotients are computed
in `double` in the source; here they are exact. -/
def matrixInverse (inv t : Matrix6) : Matrix6 × Matrix6 :=
  let det := t.t0 * t.t3 - t.t2 * t.t1
  if det > -(1 / 1000000) ∧ det < 1 / 1000000 then (inv, identityMatrix)
  else
    let invdet := 1 / det
    (⟨t.t3 * invdet, -t.t1 * invdet, -t.t2 * invdet, t.t0 * invdet,
      (t.t2 * t.t5 - t.t3 * t.t4) * invdet, (t.t1 * t.t4 - t.t0 * t.t5) * invdet⟩, t)

/-- The function `pointMatrixMultiply`: the pair `(*dx, *dy)`. -/
def pointMatrixMultiply (x y : ℚ) (t : Matrix6) : ℚ × ℚ :=
  (x * t.t0 + y * t.t2 + t.t4, x * t.t1 + y * t.t3 + t.t5)

/-! ## Parser functions -/

/-- The function `nsvg__resetPath`: `p->size = 0`. -/
def nsvg__resetPath (p : SVGPathparser) : SVGPathparser := { p with elements := [] }

/-- The function `space`: `strchr` also finds the terminating NUL of its
first argument. -/
def space (c : Char) : Bool :=
  c = ' ' || c = '\t' || c = '\n' || c = '\x0b' || c = '\x0c' || c = '\r' || c = Char.ofNat 0

def coordinate (s : List Char) : Bool :=
  let s1 := if deref s = '-' ∨ deref s = '+' then s.tail else s
  digit (deref s1) || decide (deref s1 = '.')

def numberOfArguments (cmd : Int) : Int :=
  let i := cmd - 65
  if i < 0 ∨ i > 57 then -1
  else
    let n := sz.getD i.toNat 0
    if n = cmd then -1 else n

/-- The value that a 32 bit `int` holds for the integer `x`: the integers
from `-2^31` to `2^31 - 1` are kept, the others wrap around in two's
complement. -/
def toInt32 (x : Int) : Int := (x + 2 ^ 31) % 2 ^ 32 - 2 ^ 31

/-- The function `guarantee_capacity(p, n)`: the parser with its new
capacity. The shift `p->capacity << 1` is computed in type `int`; the sum
`p->size + n` is the exact one (a size that fits its capacity is below
`2^31`, and `n` is at most 8: the sum leaves the range of `int` only for a
capacity above `2^31 - 9`, which the doubling from 32 never reaches). -/
def guarantee_capacity (p : SVGPathparser) (n : Nat) : SVGPathparser :=
  if (p.size : Int) + (n : Int) > p.capacity then
    { p with capacity := if p.capacity ≠ 0 then toInt32 (p.capacity <<< (1 : Int)) else 32 }
  else p

def moveto (p : SVGPathparser) (x y : ℚ) : Except Fault SVGPathparser :=
  if p.size > 0 then Except.error Fault.unexpectedMoveTo
  else
    let q := guarantee_capacity p 2
    Except.ok { q with elements := q.elements ++ [Slot.num x, Slot.num y] }

def lineto (p : SVGPathparser) (x y : ℚ) : SVGPathparser :=
  if p.size > 0 then
    let q := guarantee_capacity p 3
    { q with elements := q.elements ++ [Slot.cmd LINETO, Slot.num x, Slot.num y] }
  else p

def curveto (p : SVGPathparser) (cpx1 cpy1 cpx2 cpy2 x y : ℚ) : SVGPathparser :=
  if p.size > 0 then
    let q := guarantee_capacity p 7
    { q with elements := q.elements ++
        [Slot.cmd CURVETO, Slot.num cpx1, Slot.num cpy1, Slot.num cpx2, Slot.num cpy2,
         Slot.num x, Slot.num y] }
  else p

def scurveto (p : SVGPathparser) (cpx2 cpy2 x y : ℚ) : SVGPathparser :=
  if p.size > 0 then
    let q := guarantee_capacity p 5
    { q with elements := q.elements ++
        [Slot.cmd SCURVETO, Slot.num cpx2, Slot.num cpy2, Slot.num x, Slot.num y] }
  else p

def quadto (p : SVGPathparser) (cpx cpy x y : ℚ) : SVGPathparser :=
  if p.size > 0 then
    let q := guarantee_capacity p 5
    { q with elements := q.elements ++
        [Slot.cmd QUADTO, Slot.num cpx, Slot.num cpy, Slot.num x, Slot.num y] }
  else p

def tquadto (p : SVGPathparser) (x y : ℚ) : SVGPathparser :=
  if p.size > 0 then
    let q := guarantee_capacity p 3
    { q with elements := q.elements ++ [Slot.cmd TQUADTO, Slot.num x, Slot.num y] }
  else p

/-- The function `arcto(p, args, x, y)`; `args` holds the collected
arguments. -/
def arcto (p : SVGPathparser) (args : List ℚ) (x y : ℚ) : SVGPathparser :=
  if p.size > 0 then
    let q := guarantee_capacity p 8
    { q with elements := q.elements ++
        [Slot.cmd ARCTO, Slot.num (args.getD 0 0), Slot.num (args.getD 1 0),
         Slot.num (args.getD 2 0), Slot.num (args.getD 3 0), Slot.num (args.getD 4 0),
         Slot.num x, Slot.num y] }
  else p

/-- The function `nsvg__pathMoveTo`: the parser and the new `(*cpx, *cpy)`. -/
def nsvg__pathMoveTo (p : SVGPathparser) (cpx cpy : ℚ) (args : List ℚ) (rel : Bool) :
    Except Fault (SVGPathparser × ℚ × ℚ) :=
  let x := if rel then cpx + args.getD 0 0 else args.getD 0 0
  let y := if rel then cpy + args.getD 1 0 else args.getD 1 0
  match moveto p x y with
  | Except.error e => Except.error e
  | Except.ok q => Except.ok (q, x, y)

def nsvg__pathLineTo (p : SVGPathparser) (cpx cpy : ℚ) (args : List ℚ) (rel : Bool) :
    SVGPathparser × ℚ × ℚ :=
  let x := if rel then cpx + args.getD 0 0 else args.getD 0 0
  let y := if rel then cpy + args.getD 1 0 else args.getD 1 0
  (lineto p x y, x, y)

def nsvg__pathHLineTo (p : SVGPathparser) (cpx cpy : ℚ) (args : List ℚ) (rel : Bool) :
    SVGPathparser × ℚ × ℚ :=
  let x := if rel then cpx + args.getD 0 0 else args.getD 0 0
  (lineto p x cpy, x, cpy)

def nsvg__pathVLineTo (p : SVGPathparser) (cpx cpy : ℚ) (args : List ℚ) (rel : Bool) :
    SVGPathparser × ℚ × ℚ :=
  let y := if rel then cpy + args.getD 0 0 else args.getD 0 0
  (lineto p cpx y, cpx, y)

/-- The function `nsvg__pathCubicBezTo`: the parser and the new
`(*cpx, *cpy, *cpx2, *cpy2)`. -/
def nsvg__pathCubicBezTo (p : SVGPathparser) (cpx cpy : ℚ) (args : List ℚ) (rel : Bool) :
    SVGPathparser × ℚ × ℚ × ℚ × ℚ :=
  let cx1 := if rel then cpx + args.getD 0 0 else args.getD 0 0
  let cy1 := if rel then cpy + args.getD 1 0 else args.getD 1 0
  let cx2 := if rel then cpx + args.getD 2 0 else args.getD 2 0
  let cy2 := if rel then cpy + args.getD 3 0 else args.getD 3 0
  let x2 := if rel then cpx + args.getD 4 0 else args.getD 4 0
  let y2 := if rel then cpy + args.getD 5 0 else args.getD 5 0
  (curveto p cx1 cy1 cx2 cy2 x2 y2, x2, y2, cx2, cy2)

def nsvg__pathCubicBezShortTo (p : SVGPathparser) (cpx cpy : ℚ) (args : List ℚ) (rel : Bool) :
    SVGPathparser × ℚ × ℚ × ℚ × ℚ :=
  let cx2 := if rel then cpx + args.getD 0 0 else args.getD 0 0
  let cy2 := if rel then cpy + args.getD 1 0 else args.getD 1 0
  let x2 := if rel then cpx + args.getD 2 0 else args.getD 2 0
  let y2 := if rel then cpy + args.getD 3 0 else args.getD 3 0
  (scurveto p cx2 cy2 x2 y2, x2, y2, cx2, cy2)

def nsvg__pathQuadBezTo (p : SVGPathparser) (cpx cpy : ℚ) (args : List ℚ) (rel : Bool) :
    SVGPathparser × ℚ × ℚ × ℚ × ℚ :=
  let cx := if rel then cpx + args.getD 0 0 else args.getD 0 0
  let cy := if rel then cpy + args.getD 1 0 else args.getD 1 0
  let x2 := if rel then cpx + args.getD 2 0 else args.getD 2 0
  let y2 := if rel then cpy + args.getD 3 0 else args.getD 3 0
  (quadto p cx cy x2 y2, x2, y2, cx, cy)

def nsvg__pathQuadBezShortTo (p : SVGPathparser) (cpx cpy cpx2 cpy2 : ℚ) (args : List ℚ)
    (rel : Bool) : SVGPathparser × ℚ × ℚ × ℚ × ℚ :=
  let x1 := cpx
  let y1 := cpy
  let x2 := if rel then cpx + args.getD 0 0 else args.getD 0 0
  let y2 := if rel then cpy + args.getD 1 0 else args.getD 1 0
  let cx := 2 * x1 - cpx2
  let cy := 2 * y1 - cpy2
  (tquadto p x2 y2, x2, y2, cx, cy)

/-- The test `d < 1e-6f || rx < 1e-6f || ry < 1e-6f` of `nsvg__pathArcTo`,
where `d = sqrtf(dx*dx + dy*dy)`: the comparison of the square root is made
on the squares. -/
def arcDegenerate (rx ry dx dy : ℚ) : Bool :=
  decide (dx * dx + dy * dy < (1 / 1000000) ^ 2) || decide (rx < 1 / 1000000) ||
    decide (ry < 1 / 1000000)

def nsvg__pathArcTo (p : SVGPathparser) (cpx cpy : ℚ) (args : List ℚ) (rel : Bool) :
    SVGPathparser × ℚ × ℚ :=
  let rx := |args.getD 0 0|
  let ry := |args.getD 1 0|
  let x1 := cpx
  let y1 := cpy
  let x2 := if rel then cpx + args.getD 5 0 else args.getD 5 0
  let y2 := if rel then cpy + args.getD 6 0 else args.getD 6 0
  let dx := x1 - x2
  let dy := y1 - y2
  if arcDegenerate rx ry dx dy then (lineto p x2 y2, x2, y2)
  else (arcto p args x2 y2, x2, y2)

/-- Read a float slot. -/
def numAt (l : List Slot) (i : Nat) : Except Fault ℚ :=
  match l.get? i with
  | some (Slot.num v) => Except.ok v
  | _ => Except.error Fault.slot

/-- The loop `for (j = 1; j < nargs; j += 2)` of `nsvg__addPath` over the
slots after a command code: `k` counts the passes that are left, the result
is the transformed points and the slots after them. -/
def transformPairs (m : Matrix6) : Nat → List Slot → Except Fault (List Slot × List Slot)
  | 0, src => Except.ok ([], src)
  | k + 1, Slot.num x :: Slot.num y :: src =>
    match transformPairs m k src with
    | Except.error e => Except.error e
    | Except.ok (out, rest) =>
      Except.ok (Slot.num (pointMatrixMultiply x y m).1 ::
        Slot.num (pointMatrixMultiply x y m).2 :: out, rest)
  | _ + 1, _ => Except.error Fault.slot

/-- The loop `for (i = 2; i < p->size; )` of `nsvg__addPath`: `src` is
`p->elements + i`, the result is what is written to `path->elements + i`. -/
def transformLoop (m : Matrix6) (angle : ℚ) : Nat → List Slot → Except Fault (List Slot)
  | 0, _ => Except.error Fault.fuel
  | _ + 1, [] => Except.ok []
  | _ + 1, Slot.num _ :: _ => Except.error Fault.slot
  | fuel + 1, Slot.cmd c :: src =>
    let nargs := c >>> 8
    if nargs < 7 then
      -- the passes `j = 1, 3, ..` below `nargs` are `nargs / 2` in number
      match transformPairs m (nargs / 2) src with
      | Except.error e => Except.error e
      | Except.ok (out, rest) =>
        match transformLoop m angle fuel rest with
        | Except.error e => Except.error e
        | Except.ok tl => Except.ok (Slot.cmd c :: out ++ tl)
    else
      match src with
      | Slot.num rx :: Slot.num ry :: Slot.num rot :: Slot.num fa :: Slot.num fs ::
          Slot.num x :: Slot.num y :: rest =>
        match transformLoop m angle fuel rest with
        | Except.error e => Except.error e
        | Except.ok tl =>
          Except.ok (Slot.cmd c :: Slot.num rx :: Slot.num ry :: Slot.num (rot + angle) ::
            Slot.num fa :: Slot.num fs :: Slot.num (pointMatrixMultiply x y m).1 ::
            Slot.num (pointMatrixMultiply x y m).2 :: tl)
      | _ => Except.error Fault.slot

/-- The function `nsvg__addPath(p, closed)`. The bounding box it accumulates
in local variables is not used afterwards and is left out. -/
def nsvg__addPath (p : SVGPathparser) (closed : Bool) : Except Fault SVGPathparser :=
  if p.size < 4 then Except.ok p
  else
    match numAt p.elements 0, numAt p.elements 1 with
    | Except.ok x0, Except.ok y0 =>
      let q := if closed then lineto p x0 y0 else p
      match transformLoop q.matrix q.angle (q.size + 1) (q.elements.drop 2) with
      | Except.error e => Except.error e
      | Except.ok tl =>
        let path : SVGpath :=
          { elements := Slot.num (pointMatrixMultiply x0 y0 q.matrix).1 ::
              Slot.num (pointMatrixMultiply x0 y0 q.matrix).2 :: tl,
            closed := closed }
        Except.ok { q with plist := path :: q.plist }
    | _, _ => Except.error Fault.slot

/-- The loop `while (*s && (space(*s) || *s == ',')) s++;`. -/
def skipSeparators : List Char → List Char
  | [] => []
  | c :: s =>
    if c ≠ Char.ofNat 0 ∧ (space c ∨ c = ',') then skipSeparators s else c :: s

/-- The function `nsvg__getNextPathItemWhenArcFlag`: the new cursor and the
item. -/
def nsvg__getNextPathItemWhenArcFlag (s : List Char) : List Char × List Char :=
  let s1 := skipSeparators s
  if deref s1 = Char.ofNat 0 then (s1, [])
  else if deref s1 = '0' ∨ deref s1 = '1' then (s1.tail, [deref s1])
  else (s1, [])

/-- The function `nsvg__getNextPathItem`: the new cursor and the item. -/
def nsvg__getNextPathItem (s : List Char) : List Char × List Char :=
  let s1 := skipSeparators s
  if deref s1 = Char.ofNat 0 then (s1, [])
  else if deref s1 = '-' ∨ deref s1 = '+' ∨ deref s1 = '.' ∨ digit (deref s1) then
    parseNumber s1 ITEM_SIZE
  else (s1.tail, [deref s1])

/-- The local variables of `nsvg__parsePath` together with the parser object;
`args` holds `args[0 .. nargs)`, so `nargs` is its length. -/
structure PState where
  p : SVGPathparser
  cmd : Char
  args : List ℚ
  rargs : Int
  initPoint : Bool
  cpx : ℚ
  cpy : ℚ
  cpx2 : ℚ
  cpy2 : ℚ
  closedFlag : Bool
  deriving DecidableEq, Repr

def PState.nargs (st : PState) : Nat := st.args.length

/-- The `switch (cmd)` of `nsvg__parsePath` followed by `nargs = 0`. -/
def execCommand (st : PState) : Except Fault PState :=
  if st.cmd = 'm' ∨ st.cmd = 'M' then
    match nsvg__pathMoveTo st.p st.cpx st.cpy st.args (decide (st.cmd = 'm')) with
    | Except.error e => Except.error e
    | Except.ok (q, x, y) =>
      let cmd1 : Char := if st.cmd = 'm' then 'l' else 'L'
      Except.ok { st with p := q, cpx := x, cpy := y, cmd := cmd1,
                          rargs := numberOfArguments cmd1.toNat,
                          cpx2 := x, cpy2 := y, initPoint := true, args := [] }
  else if st.cmd = 'l' ∨ st.cmd = 'L' then
    let r := nsvg__pathLineTo st.p st.cpx st.cpy st.args (decide (st.cmd = 'l'))
    Except.ok { st with p := r.1, cpx := r.2.1, cpy := r.2.2, cpx2 := r.2.1, cpy2 := r.2.2,
                        args := [] }
  else if st.cmd = 'H' ∨ st.cmd = 'h' then
    let r := nsvg__pathHLineTo st.p st.cpx st.cpy st.args (decide (st.cmd = 'h'))
    Except.ok { st with p := r.1, cpx := r.2.1, cpy := r.2.2, cpx2 := r.2.1, cpy2 := r.2.2,
                        args := [] }
  else if st.cmd = 'V' ∨ st.cmd = 'v' then
    let r := nsvg__pathVLineTo st.p st.cpx st.cpy st.args (decide (st.cmd = 'v'))
    Except.ok { st with p := r.1, cpx := r.2.1, cpy := r.2.2, cpx2 := r.2.1, cpy2 := r.2.2,
                        args := [] }
  else if st.cmd = 'C' ∨ st.cmd = 'c' then
    let r := nsvg__pathCubicBezTo st.p st.cpx st.cpy st.args (decide (st.cmd = 'c'))
    Except.ok { st with p := r.1, cpx := r.2.1, cpy := r.2.2.1, cpx2 := r.2.2.2.1,
                        cpy2 := r.2.2.2.2, args := [] }
  else if st.cmd = 'S' ∨ st.cmd = 's' then
    let r := nsvg__pathCubicBezShortTo st.p st.cpx st.cpy st.args (decide (st.cmd = 's'))
    Except.ok { st with p := r.1, cpx := r.2.1, cpy := r.2.2.1, cpx2 := r.2.2.2.1,
                        cpy2 := r.2.2.2.2, args := [] }
  else if st.cmd = 'Q' ∨ st.cmd = 'q' then
    let r := nsvg__pathQuadBezTo st.p st.cpx st.cpy st.args (decide (st.cmd = 'q'))
    Except.ok { st with p := r.1, cpx := r.2.1, cpy := r.2.2.1, cpx2 := r.2.2.2.1,
                        cpy2 := r.2.2.2.2, args := [] }
  else if st.cmd = 'T' ∨ st.cmd = 't' then
    let r := nsvg__pathQuadBezShortTo st.p st.cpx st.cpy st.cpx2 st.cpy2 st.args
      (decide (st.cmd = 't'))
    Except.ok { st with p := r.1, cpx := r.2.1, cpy := r.2.2.1, cpx2 := r.2.2.2.1,
                        cpy2 := r.2.2.2.2, args := [] }
  else if st.cmd = 'A' ∨ st.cmd = 'a' then
    let r := nsvg__pathArcTo st.p st.cpx st.cpy st.args (decide (st.cmd = 'a'))
    Except.ok { st with p := r.1, cpx := r.2.1, cpy := r.2.2, cpx2 := r.2.1, cpy2 := r.2.2,
                        args := [] }
  else if st.nargs ≥ 2 then
    let x := st.args.getD (st.nargs - 2) 0
    let y := st.args.getD (st.nargs - 1) 0
    Except.ok { st with cpx := x, cpy := y, cpx2 := x, cpy2 := y, args := [] }
  else Except.ok { st with args := [] }

/-- The branch `if (cmd != 0 && coordinate(item))` of the loop body: store
the argument and run the command when enough arguments are there. -/
def processCoordinate (st : PState) (item : List Char) : Except Fault PState :=
  let st1 := if st.nargs < 10 then { st with args := st.args ++ [str2f item] } else st
  if (st1.nargs : Int) ≥ st1.rargs then execCommand st1 else Except.ok st1

/-- The `else` branch of the loop body: `item` starts with a command letter. -/
def processLetter (st : PState) (item : List Char) : Except Fault PState :=
  let cmd := deref item
  -- M/m: commit the path and start a new subpath
  let r1 : Except Fault PState :=
    if cmd = 'M' ∨ cmd = 'm' then
      match (if st.p.size > 0 then nsvg__addPath st.p st.closedFlag else Except.ok st.p) with
      | Except.error e => Except.error e
      | Except.ok q =>
        Except.ok { st with cmd := cmd, p := nsvg__resetPath q, closedFlag := false, args := [] }
    else if st.initPoint = false then Except.ok { st with cmd := Char.ofNat 0 }
    else Except.ok { st with cmd := cmd }
  match r1 with
  | Except.error e => Except.error e
  | Except.ok st1 =>
    -- Z/z: close, commit and reopen at the first point
    let r2 : Except Fault PState :=
      if st1.cmd = 'Z' ∨ st1.cmd = 'z' then
        let r3 : Except Fault PState :=
          if st1.p.size > 0 then
            match numAt st1.p.elements 0, numAt st1.p.elements 1 with
            | Except.ok x0, Except.ok y0 =>
              match nsvg__addPath st1.p true with
              | Except.error e => Except.error e
              | Except.ok q =>
                Except.ok { st1 with closedFlag := true, cpx := x0, cpy := y0, cpx2 := x0,
                                     cpy2 := y0, p := q }
            | _, _ => Except.error Fault.slot
          else Except.ok { st1 with closedFlag := true }
        match r3 with
        | Except.error e => Except.error e
        | Except.ok st2 =>
          match moveto (nsvg__resetPath st2.p) st2.cpx st2.cpy with
          | Except.error e => Except.error e
          | Except.ok q => Except.ok { st2 with p := q, closedFlag := false, args := [] }
      else Except.ok st1
    match r2 with
    | Except.error e => Except.error e
    | Except.ok st3 =>
      let rargs := numberOfArguments st3.cmd.toNat
      if rargs = -1 then Except.ok { st3 with cmd := Char.ofNat 0, rargs := 0 }
      else Except.ok { st3 with rargs := rargs }

/-- The body of the loop of `nsvg__parsePath` once the item is known. -/
def processItem (st : PState) (item : List Char) : Except Fault PState :=
  if st.cmd ≠ Char.ofNat 0 ∧ coordinate item then processCoordinate st item
  else processLetter st item

/-- The two scanner calls at the top of the loop body: the new cursor and the
item. -/
def nextItem (st : PState) (s : List Char) : List Char × List Char :=
  let r1 : List Char × List Char :=
    if (st.cmd = 'A' ∨ st.cmd = 'a') ∧ (st.nargs = 3 ∨ st.nargs = 4) then
      nsvg__getNextPathItemWhenArcFlag s
    else (s, [])
  if r1.2 = [] then nsvg__getNextPathItem r1.1 else r1

/-- The loop `while (*s)` of `nsvg__parsePath`. -/
def parseLoop : Nat → PState → List Char → Except Fault PState
  | 0, _, _ => Except.error Fault.fuel
  | fuel + 1, st, s =>
    if deref s = Char.ofNat 0 then Except.ok st
    else
      let r := nextItem st s
      if r.2 = [] then Except.ok st
      else
        match processItem st r.2 with
        | Except.error e => Except.error e
        | Except.ok st1 => parseLoop fuel st1 r.1

/-- The state after the initialisations at the top of `nsvg__parsePath`. -/
def initialState (p : SVGPathparser) : PState :=
  { p := nsvg__resetPath p, cmd := Char.ofNat 0, args := [], rargs := 0, initPoint := false,
    cpx := 0, cpy := 0, cpx2 := 0, cpy2 := 0, closedFlag := false }

/-- The function `nsvg__parsePath(p, s)` for a string `s` that is not NULL. -/
def nsvg__parsePath (p : SVGPathparser) (s : List Char) : Except Fault SVGPathparser :=
  match parseLoop (s.length + 1) (initialState p) s with
  | Except.error e => Except.error e
  | Except.ok st => if st.p.size ≠ 0 then nsvg__addPath st.p st.closedFlag else Except.ok st.p

/-- The parser made by `nsvg__createParser`, with the matrix and the angle that
`main` stores in it. -/
def createParser (m : Matrix6) (angle : ℚ) : SVGPathparser :=
  { matrix := m, elements := [], capacity := 0, angle := angle, plist := [] }

/-! ## The conversion `%g` of `printf`

The C library function is modelled on exact rationals: six significant digits,
style `e` when the decimal exponent is below -4 or at least 6 and style `f`
otherwise, trailing zeros and a trailing decimal point removed. Ties are
rounded to even. -/

def digitChar (d : Nat) : Char := Char.ofNat (48 + d)

/-- The last `w` decimal digits of `n`, most significant first. -/
def fixedDigits : Nat → Nat → List Char
  | 0, _ => []
  | w + 1, n => fixedDigits w (n / 10) ++ [digitChar (n % 10)]

/-- The number of decimal digits of `n` (0 for 0). -/
def ndigitsAux : Nat → Nat → Nat
  | 0, _ => 0
  | fuel + 1, n => if n = 0 then 0 else ndigitsAux fuel (n / 10) + 1

def ndigits (n : Nat) : Nat := ndigitsAux n n

/-- The decimal numeral of `n`. -/
def decDigits (n : Nat) : List Char :=
  if n = 0 then ['0'] else fixedDigits (ndigits n) n

def stripZeros (l : List Char) : List Char :=
  (l.reverse.dropWhile (fun c => c = '0')).reverse

/-- How often a positive `a < 1` is multiplied by ten until it reaches 1. -/
def negExpAux : Nat → ℚ → Nat
  | 0, _ => 0
  | fuel + 1, a => if 1 ≤ a then 0 else negExpAux fuel (a * 10) + 1

/-- The decimal exponent `X` of a positive rational: `10^X ≤ a < 10^(X+1)`. -/
def decExp (a : ℚ) : ℤ :=
  if 1 ≤ a then (ndigits ⌊a⌋.toNat : ℤ) - 1 else -(negExpAux a.den a : ℤ)

/-- Rounding of a rational that is not negative to the nearest natural
number, ties to even. -/
def roundEven (q : ℚ) : ℕ :=
  let f := ⌊q⌋.toNat
  if q - f < 1 / 2 then f
  else if 1 / 2 < q - f then f + 1
  else if f % 2 = 0 then f else f + 1

/-- The text `printf("%g", v)` writes. -/
def fmtG (v : ℚ) : List Char :=
  if v = 0 then ['0']
  else
    let a := |v|
    let sgn : List Char := if v < 0 then ['-'] else []
    let X0 := decExp a
    let m0 := roundEven (a * (10 : ℚ) ^ (5 - X0))
    let X := if m0 = 1000000 then X0 + 1 else X0
    let m := if m0 = 1000000 then 100000 else m0
    if X < -4 ∨ 6 ≤ X then
      let frac := stripZeros (fixedDigits 5 (m % 100000))
      let mant := fixedDigits 1 (m / 100000) ++ (if frac = [] then [] else '.' :: frac)
      let ex := X.natAbs
      let exd := if ex < 10 then '0' :: decDigits ex else decDigits ex
      sgn ++ mant ++ ['e', if X < 0 then '-' else '+'] ++ exd
    else
      let D := (5 - X).toNat
      let frac := stripZeros (fixedDigits D (m % 10 ^ D))
      sgn ++ decDigits (m / 10 ^ D) ++ (if frac = [] then [] else '.' :: frac)

/-! ## The two generators -/

/-- The text `printf("%g,%g ", x, y)` writes. -/
def fmtPair (x y : ℚ) : List Char := fmtG x ++ [','] ++ fmtG y ++ [' ']

/-- The loop `for (j = 1; j < nargs; j += 2) printf("%g,%g ", ..)` of
`generateAbsoluteSVG`: `k` counts the passes that are left; the result is the
text, the last pair read (if any) and the slots after the pairs. -/
def absPairs : Nat → List Slot → Except Fault (List Char × Option (ℚ × ℚ) × List Slot)
  | 0, src => Except.ok ([], none, src)
  | k + 1, Slot.num x :: Slot.num y :: src =>
    match absPairs k src with
    | Except.error e => Except.error e
    | Except.ok (out, last, rest) =>
      Except.ok (fmtPair (dig3 x) (dig3 y) ++ out, some (last.getD (x, y)), rest)
  | _ + 1, _ => Except.error Fault.slot

/-- The loop `for (i = 2; i < size; )` of `generateAbsoluteSVG`: `src` is
`p->elements + i`. -/
def absLoop : Nat → ℚ → ℚ → List Slot → Except Fault (List Char)
  | 0, _, _, _ => Except.error Fault.fuel
  | _ + 1, _, _, [] => Except.ok []
  | _ + 1, _, _, Slot.num _ :: _ => Except.error Fault.slot
  | fuel + 1, cpx, cpy, Slot.cmd c :: src =>
    if c = LINETO then
      match src with
      | Slot.num xv :: Slot.num yv :: rest =>
        let x := dig3 xv
        let y := dig3 yv
        if x = cpx then
          match absLoop fuel cpx y rest with
          | Except.error e => Except.error e
          | Except.ok tl => Except.ok (['V'] ++ fmtG y ++ [' '] ++ tl)
        else if y = cpy then
          match absLoop fuel x cpy rest with
          | Except.error e => Except.error e
          | Except.ok tl => Except.ok (['H'] ++ fmtG x ++ [' '] ++ tl)
        else
          match absLoop fuel x y rest with
          | Except.error e => Except.error e
          | Except.ok tl => Except.ok (['L'] ++ fmtG x ++ [','] ++ fmtG y ++ [' '] ++ tl)
      | _ => Except.error Fault.slot
    else
      match commands.get? (c &&& 0xff) with
      | none => Except.error Fault.slot
      | some letter =>
        let nargs := c >>> 8
        if nargs < 7 then
          match absPairs (nargs / 2) src with
          | Except.ok (out, some (x, y), rest) =>
            match absLoop fuel (dig3 x) (dig3 y) rest with
            | Except.error e => Except.error e
            | Except.ok tl => Except.ok ([letter] ++ out ++ tl)
          | Except.ok (_, none, _) => Except.error Fault.slot
          | Except.error e => Except.error e
        else
          match src with
          | Slot.num rx :: Slot.num ry :: Slot.num rot :: Slot.num fa :: Slot.num fs ::
              Slot.num x :: Slot.num y :: rest =>
            match absLoop fuel (dig3 x) (dig3 y) rest with
            | Except.error e => Except.error e
            | Except.ok tl =>
              Except.ok ([letter] ++ fmtG (dig3 rx) ++ [','] ++ fmtG (dig3 ry) ++ [' '] ++
                fmtG (dig3 rot) ++ [' '] ++ fmtG (dig3 fa) ++ [' '] ++ fmtG (dig3 fs) ++ [' '] ++
                fmtG (dig3 x) ++ [','] ++ fmtG (dig3 y) ++ [' '] ++ tl)
          | _ => Except.error Fault.slot

/-- One pass of the outer loop of `generateAbsoluteSVG`: the text for one
subpath. -/
def absSubpath (sp : SVGpath) : Except Fault (List Char) :=
  match sp.elements with
  | Slot.num x0 :: Slot.num y0 :: rest =>
    match absLoop (sp.size + 1) (dig3 x0) (dig3 y0) rest with
    | Except.error e => Except.error e
    | Except.ok tl => Except.ok (['M'] ++ fmtPair (dig3 x0) (dig3 y0) ++ tl)
  | _ => Except.error Fault.slot

/-- The function `generateAbsoluteSVG(path)`: the text it prints. -/
def generateAbsoluteSVG : List SVGpath → Except Fault (List Char)
  | [] => Except.ok []
  | sp :: next =>
    match absSubpath sp with
    | Except.error e => Except.error e
    | Except.ok t =>
      match generateAbsoluteSVG next with
      | Except.error e => Except.error e
      | Except.ok tl => Except.ok (t ++ tl)

/-- The loop `for (j = 1; j < nargs; j += 2) printf("%g,%g ", ..)` of
`generateRelativeSVG`. -/
def relPairs (cpx cpy : ℚ) :
    Nat → List Slot → Except Fault (List Char × Option (ℚ × ℚ) × List Slot)
  | 0, src => Except.ok ([], none, src)
  | k + 1, Slot.num x :: Slot.num y :: src =>
    match relPairs cpx cpy k src with
    | Except.error e => Except.error e
    | Except.ok (out, last, rest) =>
      Except.ok (fmtPair (dig3 (x - cpx)) (dig3 (y - cpy)) ++ out, some (last.getD (x, y)), rest)
  | _ + 1, _ => Except.error Fault.slot

/-- The loop `for (i = 2; i < size; )` of `generateRelativeSVG`. -/
def relLoop : Nat → ℚ → ℚ → List Slot → Except Fault (List Char)
  | 0, _, _, _ => Except.error Fault.fuel
  | _ + 1, _, _, [] => Except.ok []
  | _ + 1, _, _, Slot.num _ :: _ => Except.error Fault.slot
  | fuel + 1, cpx, cpy, Slot.cmd c :: src =>
    if c = LINETO then
      match src with
      | Slot.num x :: Slot.num y :: rest =>
        if x = cpx then
          if y ≠ cpy then
            match relLoop fuel cpx y rest with
            | Except.error e => Except.error e
            | Except.ok tl => Except.ok (['v'] ++ fmtG (trnc (y - cpy)) ++ [' '] ++ tl)
          else relLoop fuel cpx cpy rest
        else if y = cpy then
          if x ≠ cpx then
            match relLoop fuel x cpy rest with
            | Except.error e => Except.error e
            | Except.ok tl => Except.ok (['h'] ++ fmtG (trnc (x - cpx)) ++ [' '] ++ tl)
          else relLoop fuel cpx cpy rest
        else
          match relLoop fuel x y rest with
          | Except.error e => Except.error e
          | Except.ok tl =>
            Except.ok (['l'] ++ fmtG (trnc (x - cpx)) ++ [','] ++ fmtG (trnc (y - cpy)) ++
              [' '] ++ tl)
      | _ => Except.error Fault.slot
    else
      match relative.get? (c &&& 0xff) with
      | none => Except.error Fault.slot
      | some letter =>
        let nargs := c >>> 8
        if nargs < 7 then
          match relPairs cpx cpy (nargs / 2) src with
          | Except.ok (out, some (x, y), rest) =>
            match relLoop fuel (dig3 x) (dig3 y) rest with
            | Except.error e => Except.error e
            | Except.ok tl => Except.ok ([letter] ++ out ++ tl)
          | Except.ok (_, none, _) => Except.error Fault.slot
          | Except.error e => Except.error e
        else
          match src with
          | Slot.num rx :: Slot.num ry :: Slot.num rot :: Slot.num fa :: Slot.num fs ::
              Slot.num x :: Slot.num y :: rest =>
            match relLoop fuel (dig3 x) (dig3 y) rest with
            | Except.error e => Except.error e
            | Except.ok tl =>
              Except.ok ([letter] ++ fmtG (dig3 rx) ++ [','] ++ fmtG (dig3 ry) ++ [' '] ++
                fmtG (dig3 rot) ++ [' '] ++ fmtG (dig3 fa) ++ [' '] ++ fmtG (dig3 fs) ++ [' '] ++
                fmtG (dig3 (x - cpx)) ++ [','] ++ fmtG (dig3 (y - cpy)) ++ [' '] ++ tl)
          | _ => Except.error Fault.slot

/-- One pass of the outer loop of `generateRelativeSVG`. -/
def relSubpath (sp : SVGpath) : Except Fault (List Char) :=
  match sp.elements with
  | Slot.num x0 :: Slot.num y0 :: rest =>
    match relLoop (sp.size + 1) x0 y0 rest with
    | Except.error e => Except.error e
    | Except.ok tl => Except.ok (['M'] ++ fmtPair (dig3 x0) (dig3 y0) ++ tl)
  | _ => Except.error Fault.slot

/-- The function `generateRelativeSVG(path)`: the text it prints. -/
def generateRelativeSVG : List SVGpath → Except Fault (List Char)
  | [] => Except.ok []
  | sp :: next =>
    match relSubpath sp with
    | Except.error e => Except.error e
    | Except.ok t =>
      match generateRelativeSVG next with
      | Except.error e => Except.error e
      | Except.ok tl => Except.ok (t ++ tl)

/-! ## Evaluation on the examples of the specification -/

def parser0 : SVGPathparser := createParser identityMatrix 0

/-- Parse, then print with absolute coordinates. -/
def parseAbs (p : SVGPathparser) (s : List Char) : Except Fault (List Char) :=
  match nsvg__parsePath p s with
  | Except.error e => Except.error e
  | Except.ok q => generateAbsoluteSVG q.plist

/-- Parse, then print with relative coordinates. -/
def parseRel (p : SVGPathparser) (s : List Char) : Except Fault (List Char) :=
  match nsvg__parsePath p s with
  | Except.error e => Except.error e
  | Except.ok q => generateRelativeSVG q.plist

/-! ## The documented format of an `elements` array

The table in the comment above `struct SVGpath`: after the two coordinates of
the initial moveto, groups of one command code and its arguments. -/

/-- One group of an `elements` array. -/
inductive Command where
  | lineTo (x y : ℚ)
  | smoothQuadTo (x y : ℚ)
  | quadTo (x1 y1 x y : ℚ)
  | smoothCurveTo (x1 y1 x y : ℚ)
  | curveTo (x1 y1 x2 y2 x y : ℚ)
  | arcTo (rx ry angle fa fs x y : ℚ)
  deriving DecidableEq, Repr

/-- The slots of one group. -/
def Command.encode : Command → List Slot
  | Command.lineTo x y => [Slot.cmd LINETO, Slot.num x, Slot.num y]
  | Command.smoothQuadTo x y => [Slot.cmd TQUADTO, Slot.num x, Slot.num y]
  | Command.quadTo x1 y1 x y =>
    [Slot.cmd QUADTO, Slot.num x1, Slot.num y1, Slot.num x, Slot.num y]
  | Command.smoothCurveTo x1 y1 x y =>
    [Slot.cmd SCURVETO, Slot.num x1, Slot.num y1, Slot.num x, Slot.num y]
  | Command.curveTo x1 y1 x2 y2 x y =>
    [Slot.cmd CURVETO, Slot.num x1, Slot.num y1, Slot.num x2, Slot.num y2, Slot.num x,
     Slot.num y]
  | Command.arcTo rx ry angle fa fs x y =>
    [Slot.cmd ARCTO, Slot.num rx, Slot.num ry, Slot.num angle, Slot.num fa, Slot.num fs,
     Slot.num x, Slot.num y]

/-- The slots of a sequence of groups. -/
def encodeAll : List Command → List Slot
  | [] => []
  | c :: cs => c.encode ++ encodeAll cs

/-- A well formed array: the start point, then groups. -/
def encodePath (sx sy : ℚ) (cs : List Command) : List Slot :=
  Slot.num sx :: Slot.num sy :: encodeAll cs

/-- The command code of a slot, if it holds one. -/
def Slot.tag : Slot → Option Nat
  | Slot.num _ => none
  | Slot.cmd c => some c

/-- The transformation of a point as the specification words it:
`(x, y) ↦ (a·x + c·y + e, b·x + d·y + f)` for the matrix `(a, b, c, d, e, f)`. -/
def applyToPoint (m : Matrix6) (x y : ℚ) : ℚ × ℚ :=
  (m.t0 * x + m.t2 * y + m.t4, m.t1 * x + m.t3 * y + m.t5)

/-- The transformation of a group as the specification words it: every
coordinate pair goes through `applyToPoint`; the radii and flags of an arc are
copied, its rotation is increased by the angle of the parser. -/
def Command.transform (m : Matrix6) (angle : ℚ) : Command → Command
  | Command.lineTo x y => Command.lineTo (applyToPoint m x y).1 (applyToPoint m x y).2
  | Command.smoothQuadTo x y =>
    Command.smoothQuadTo (applyToPoint m x y).1 (applyToPoint m x y).2
  | Command.quadTo x1 y1 x y =>
    Command.quadTo (applyToPoint m x1 y1).1 (applyToPoint m x1 y1).2
      (applyToPoint m x y).1 (applyToPoint m x y).2
  | Command.smoothCurveTo x1 y1 x y =>
    Command.smoothCurveTo (applyToPoint m x1 y1).1 (applyToPoint m x1 y1).2
      (applyToPoint m x y).1 (applyToPoint m x y).2
  | Command.curveTo x1 y1 x2 y2 x y =>
    Command.curveTo (applyToPoint m x1 y1).1 (applyToPoint m x1 y1).2
      (applyToPoint m x2 y2).1 (applyToPoint m x2 y2).2
      (applyToPoint m x y).1 (applyToPoint m x y).2
  | Command.arcTo rx ry rot fa fs x y =>
    Command.arcTo rx ry (rot + angle) fa fs (applyToPoint m x y).1 (applyToPoint m x y).2

/-- The finished subpath that `nsvg__addPath` makes from a well formed
array. -/
def finishedPath (m : Matrix6) (angle : ℚ) (sx sy : ℚ) (cs : List Command) (closed : Bool) :
    SVGpath :=
  { elements := encodePath (applyToPoint m sx sy).1 (applyToPoint m sx sy).2
      ((if closed then cs ++ [Command.lineTo sx sy] else cs).map (Command.transform m angle)),
    closed := closed }

def Command.isArc : Command → Bool
  | Command.arcTo _ _ _ _ _ _ _ => true
  | _ => false

/-- The text of a number of thousandths below 1000 in absolute value: sign,
integer digits, and the fraction digits without trailing zeros. -/
def thousandthsText (k : ℤ) : List Char :=
  (if k < 0 then ['-'] else []) ++ decDigits (k.natAbs / 1000) ++
    (if stripZeros (fixedDigits 3 (k.natAbs % 1000)) = [] then []
     else '.' :: stripZeros (fixedDigits 3 (k.natAbs % 1000)))

/-- A canonical value: a number of thousandths below 1000 in absolute value;
`printf("%g", ..)` writes such a value exactly. -/
def Canon (v : ℚ) : Prop := dig3 v = v ∧ |v| < 1000

instance (v : ℚ) : Decidable (Canon v) := inferInstanceAs (Decidable (_ ∧ _))

/-- The numbers stored in a group. -/
def Command.values : Command → List ℚ
  | Command.lineTo x y => [x, y]
  | Command.smoothQuadTo x y => [x, y]
  | Command.quadTo x1 y1 x y => [x1, y1, x, y]
  | Command.smoothCurveTo x1 y1 x y => [x1, y1, x, y]
  | Command.curveTo x1 y1 x2 y2 x y => [x1, y1, x2, y2, x, y]
  | Command.arcTo rx ry angle fa fs x y => [rx, ry, angle, fa, fs, x, y]

/-- The end point of a group. -/
def Command.endPoint : Command → ℚ × ℚ
  | Command.lineTo x y => (x, y)
  | Command.smoothQuadTo x y => (x, y)
  | Command.quadTo _ _ x y => (x, y)
  | Command.smoothCurveTo _ _ x y => (x, y)
  | Command.curveTo _ _ _ _ x y => (x, y)
  | Command.arcTo _ _ _ _ _ x y => (x, y)

/-- The condition on an arc group that follows the point `(cx, cy)`: both
flags are 0 or 1 and `nsvg__pathArcTo` does not take it for a line. -/
def Command.arcOK (cx cy : ℚ) : Command → Prop
  | Command.arcTo rx ry _ fa fs x y =>
    (fa = 0 ∨ fa = 1) ∧ (fs = 0 ∨ fs = 1) ∧ arcDegenerate |rx| |ry| (cx - x) (cy - y) = false
  | _ => True

/-- The groups after the point `(cx, cy)` hold canonical values only and its
arcs satisfy `arcOK`. -/
def cmdsOK : ℚ → ℚ → List Command → Prop
  | _, _, [] => True
  | cx, cy, c :: cs =>
    (∀ v ∈ c.values, Canon v) ∧ c.arcOK cx cy ∧ cmdsOK c.endPoint.1 c.endPoint.2 cs

/-- A finished subpath that is well formed, with at least one group, and
holds canonical values only. -/
def SubpathOK (sp : SVGpath) : Prop :=
  ∃ sx sy cs, sp.elements = encodePath sx sy cs ∧ cs ≠ [] ∧ Canon sx ∧ Canon sy ∧
    cmdsOK sx sy cs

/-- The subpath with its closed flag cleared. -/
def SVGpath.unclosed (sp : SVGpath) : SVGpath := { sp with closed := false }

/-- The scanner is asked for an arc flag: the test at the top of the loop
body of `nsvg__parsePath`. -/
def flagMode (st : PState) : Prop :=
  (st.cmd = 'A' ∨ st.cmd = 'a') ∧ (st.nargs = 3 ∨ st.nargs = 4)

instance (st : PState) : Decidable (flagMode st) := inferInstanceAs (Decidable (_ ∧ _))

/-- The text of a run of numbers, each followed by its separator. -/
def numsText : List (ℚ × Char) → List Char
  | [] => []
  | t :: tl => fmtG t.1 ++ t.2 :: numsText tl

/-- In a run of numbers read by the command `cmd` after `n` arguments, the
numbers that the scanner reads in flag mode are 0 or 1. -/
def FlagsOK (cmd : Char) : Nat → List (ℚ × Char) → Prop
  | _, [] => True
  | n, t :: tl =>
    ((cmd = 'A' ∨ cmd = 'a') ∧ (n = 3 ∨ n = 4) → t.1 = 0 ∨ t.1 = 1) ∧ FlagsOK cmd (n + 1) tl

/-- The command letter that `generateAbsoluteSVG` writes for a group when its
running point is `(cx, cy)`. -/
def Command.letter (cx cy : ℚ) : Command → Char
  | Command.lineTo x y => if dig3 x = cx then 'V' else if dig3 y = cy then 'H' else 'L'
  | Command.smoothQuadTo _ _ => 'T'
  | Command.quadTo _ _ _ _ => 'Q'
  | Command.smoothCurveTo _ _ _ _ => 'S'
  | Command.curveTo _ _ _ _ _ _ => 'C'
  | Command.arcTo _ _ _ _ _ _ _ => 'A'

/-- The numbers that `generateAbsoluteSVG` writes for a group, each with the
separator written after it. -/
def Command.tokens (cx cy : ℚ) : Command → List (ℚ × Char)
  | Command.lineTo x y =>
    if dig3 x = cx then [(dig3 y, ' ')]
    else if dig3 y = cy then [(dig3 x, ' ')]
    else [(dig3 x, ','), (dig3 y, ' ')]
  | Command.smoothQuadTo x y => [(dig3 x, ','), (dig3 y, ' ')]
  | Command.quadTo x1 y1 x y => [(dig3 x1, ','), (dig3 y1, ' '), (dig3 x, ','), (dig3 y, ' ')]
  | Command.smoothCurveTo x1 y1 x y =>
    [(dig3 x1, ','), (dig3 y1, ' '), (dig3 x, ','), (dig3 y, ' ')]
  | Command.curveTo x1 y1 x2 y2 x y =>
    [(dig3 x1, ','), (dig3 y1, ' '), (dig3 x2, ','), (dig3 y2, ' '), (dig3 x, ','),
     (dig3 y, ' ')]
  | Command.arcTo rx ry angle fa fs x y =>
    [(dig3 rx, ','), (dig3 ry, ' '), (dig3 angle, ' '), (dig3 fa, ' '), (dig3 fs, ' '),
     (dig3 x, ','), (dig3 y, ' ')]

/-- The text that `generateAbsoluteSVG` writes for a group. -/
def Command.text (cx cy : ℚ) (c : Command) : List Char :=
  c.letter cx cy :: numsText (c.tokens cx cy)

/-- The running point of `generateAbsoluteSVG` after a group. -/
def Command.nextPoint (cx cy : ℚ) : Command → ℚ × ℚ
  | Command.lineTo x y =>
    if dig3 x = cx then (cx, dig3 y) else if dig3 y = cy then (dig3 x, cy) else (dig3 x, dig3 y)
  | Command.smoothQuadTo x y => (dig3 x, dig3 y)
  | Command.quadTo _ _ x y => (dig3 x, dig3 y)
  | Command.smoothCurveTo _ _ x y => (dig3 x, dig3 y)
  | Command.curveTo _ _ _ _ x y => (dig3 x, dig3 y)
  | Command.arcTo _ _ _ _ _ x y => (dig3 x, dig3 y)

/-- The text that `generateAbsoluteSVG` writes for a sequence of groups. -/
def cmdsText : ℚ → ℚ → List Command → List Char
  | _, _, [] => []
  | cx, cy, c :: cs =>
    c.text cx cy ++ cmdsText (c.nextPoint cx cy).1 (c.nextPoint cx cy).2 cs

/-- A state of the parser between two commands of an open subpath: no
argument is collected, the raw array is `elems`, the current point is
`(cx, cy)`, the finished subpaths are `pl`, and the parser works with the
identity matrix and angle 0. -/
def Ready (st : PState) (elems : List Slot) (cx cy : ℚ) (pl : List SVGpath) : Prop :=
  st.args = [] ∧ st.initPoint = true ∧ st.p.elements = elems ∧ st.cpx = cx ∧ st.cpy = cy ∧
    st.p.plist = pl ∧ st.p.matrix = identityMatrix ∧ st.p.angle = 0 ∧ st.closedFlag = false

/-- The state `st1` is the state `st` after a command has appended `slots`
to the raw array and moved the current point to `(x, y)`. -/
def Appended (st st1 : PState) (slots : List Slot) (x y : ℚ) : Prop :=
  st1.args = [] ∧ st1.initPoint = st.initPoint ∧
    st1.p.elements = st.p.elements ++ slots ∧ st1.cpx = x ∧ st1.cpy = y ∧
    st1.p.plist = st.p.plist ∧ st1.p.matrix = st.p.matrix ∧ st1.p.angle = st.p.angle ∧
    st1.closedFlag = st.closedFlag

/-- A state of the parser between two subpaths: no argument is collected,
the parser works with the identity matrix and angle 0, the closed flag is
clear, and `pl` is the list of finished subpaths once the raw array (empty,
or a well formed open subpath with at least one group) is committed. -/
def Idle (st : PState) (pl : List SVGpath) : Prop :=
  st.args = [] ∧ st.p.matrix = identityMatrix ∧ st.p.angle = 0 ∧ st.closedFlag = false ∧
    ((st.p.elements = [] ∧ st.p.plist = pl) ∨
      ∃ (sx sy : ℚ) (cs : List Command), cs ≠ [] ∧ st.p.elements = encodePath sx sy cs ∧
        SVGpath.mk (encodePath sx sy cs) false :: st.p.plist = pl)

/-- The text that `generateAbsoluteSVG` writes for the well formed subpath
with start point `(sx, sy)` and groups `cs`. -/
def subpathText (sx sy : ℚ) (cs : List Command) : List Char :=
  'M' :: (fmtPair (dig3 sx) (dig3 sy) ++ cmdsText (dig3 sx) (dig3 sy) cs)

instance (cx cy : ℚ) : (c : Command) → Decidable (c.arcOK cx cy)
  | Command.lineTo _ _ => isTrue trivial
  | Command.smoothQuadTo _ _ => isTrue trivial
  | Command.quadTo _ _ _ _ => isTrue trivial
  | Command.smoothCurveTo _ _ _ _ => isTrue trivial
  | Command.curveTo _ _ _ _ _ _ => isTrue trivial
  | Command.arcTo _ _ _ _ _ _ _ => inferInstanceAs (Decidable (_ ∧ _ ∧ _))

/-- The predicate `cmdsOK` as a test. -/
def cmdsOKDec : (cx cy : ℚ) → (cs : List Command) → Decidable (cmdsOK cx cy cs)
  | _, _, [] => isTrue trivial
  | _, _, c :: cs =>
    have := cmdsOKDec c.endPoint.1 c.endPoint.2 cs
    inferInstanceAs (Decidable (_ ∧ _ ∧ _))

instance (cx cy : ℚ) (cs : List Command) : Decidable (cmdsOK cx cy cs) := cmdsOKDec cx cy cs

/-- A path with a closed subpath and an open one, with every kind of group. -/
def exampleData : List Char :=
  "M0,0 L10,0 Q15,5 10,10 A5,5 0 1 0 0,0 Z M20,20 C21,21 22,20 23,21 S24,22 25,21 T30,30".toList

/-- The Path that `nsvg__parsePath` makes of `exampleData`. -/
def examplePath : List SVGpath :=
  [SVGpath.mk (encodePath 20 20 [Command.curveTo 21 21 22 20 23 21,
      Command.smoothCurveTo 24 22 25 21, Command.smoothQuadTo 30 30]) false,
    SVGpath.mk (encodePath 0 0 [Command.lineTo 10 0, Command.quadTo 15 5 10 10,
      Command.arcTo 5 5 0 1 0 0 0, Command.lineTo 0 0]) true]

/-- A state of the parser in which no moveto has been executed yet: the raw
array is empty, the finished subpaths are `pl`, and either no command is
active or `M`/`m` is active with fewer than two arguments collected. -/
def Fresh (st : PState) (pl : List SVGpath) : Prop :=
  st.initPoint = false ∧ st.p.elements = [] ∧ st.p.plist = pl ∧
    (st.cmd = Char.ofNat 0 ∨
      ((st.cmd = 'M' ∨ st.cmd = 'm') ∧ st.rargs = 2 ∧ st.args.length < 2))

/-- The group with every value rounded by `dig3`. -/
def Command.round : Command → Command
  | Command.lineTo x y => Command.lineTo (dig3 x) (dig3 y)
  | Command.smoothQuadTo x y => Command.smoothQuadTo (dig3 x) (dig3 y)
  | Command.quadTo x1 y1 x y => Command.quadTo (dig3 x1) (dig3 y1) (dig3 x) (dig3 y)
  | Command.smoothCurveTo x1 y1 x y =>
    Command.smoothCurveTo (dig3 x1) (dig3 y1) (dig3 x) (dig3 y)
  | Command.curveTo x1 y1 x2 y2 x y =>
    Command.curveTo (dig3 x1) (dig3 y1) (dig3 x2) (dig3 y2) (dig3 x) (dig3 y)
  | Command.arcTo rx ry angle fa fs x y =>
    Command.arcTo (dig3 rx) (dig3 ry) (dig3 angle) (dig3 fa) (dig3 fs) (dig3 x) (dig3 y)

/-- The slot with its value rounded by `dig3`; a command code is kept. -/
def Slot.round : Slot → Slot
  | Slot.num v => Slot.num (dig3 v)
  | Slot.cmd c => Slot.cmd c

/-- The subpath with every value rounded by `dig3`. -/
def SVGpath.round (sp : SVGpath) : SVGpath := { sp with elements := sp.elements.map Slot.round }

/-- A finished subpath that is well formed, with at least one group, and
whose rounded values are below 1000 in absolute value, with arcs that satisfy
`arcOK` on the rounded values. -/
def RoundedOK (sp : SVGpath) : Prop :=
  ∃ sx sy cs, sp.elements = encodePath sx sy cs ∧ cs ≠ [] ∧ Canon (dig3 sx) ∧ Canon (dig3 sy) ∧
    cmdsOK (dig3 sx) (dig3 sy) (cs.map Command.round)

/-- The raw array fits its allocation, and the allocation is empty or holds
at least 32 slots. -/
def CapOK (p : SVGPathparser) : Prop :=
  (p.size : Int) ≤ p.capacity ∧ (p.capacity = 0 ∨ 32 ≤ p.capacity)

/-- The text holds neither `Z` nor `z`. -/
def NoZ (l : List Char) : Prop := ∀ c ∈ l, c ≠ 'Z' ∧ c ≠ 'z'

/-! ### The stages of `str2f`

The body of `str2f` behind the sign, cut into its three parts; `str2fAfterSign`
is their composition (`str2fAfterSign_stages`). -/

/-- The raw array is empty, or holds a start point followed by whole groups. -/
def RawOK (l : List Slot) : Prop :=
  l = [] ∨ ∃ (sx sy : ℚ) (cs : List Command), l = encodePath sx sy cs

/-- A finished subpath holds a start point followed by at least one whole
group. -/
def SubOK (sp : SVGpath) : Prop :=
  ∃ (sx sy : ℚ) (cs : List Command), cs ≠ [] ∧ sp.elements = encodePath sx sy cs

/-- Every subpath of the list `pl` was in the list of the parser `p0` or is
well formed. -/
def PlistOK (p0 : SVGPathparser) (pl : List SVGpath) : Prop :=
  ∀ sp ∈ pl, sp ∈ p0.plist ∨ SubOK sp

/-- The invariant of the loop of `nsvg__parsePath` started on the parser
`p0`: the raw array is well formed, it is empty while the command is `M` or
`m`, and the subpaths finished so far are well formed. -/
def LoopInv (p0 : SVGPathparser) (st : PState) : Prop :=
  RawOK st.p.elements ∧ ((st.cmd = 'M' ∨ st.cmd = 'm') → st.p.elements = []) ∧
    PlistOK p0 st.p.plist

/-- The states and cursors at the top of the loop of `nsvg__parsePath(p, s)`:
the start, and each pass of the body from a state where the loop goes on. -/
inductive Reachable (p : SVGPathparser) (s : List Char) : PState → List Char → Prop where
  | start : Reachable p s (initialState p) s
  | step (st st1 : PState) (cur : List Char) :
    Reachable p s st cur → deref cur ≠ Char.ofNat 0 → (nextItem st cur).2 ≠ [] →
    processItem st (nextItem st cur).2 = Except.ok st1 →
    Reachable p s st1 (nextItem st cur).1

/-- The six command codes. -/
def tags : List Nat := [LINETO, TQUADTO, QUADTO, SCURVETO, CURVETO, ARCTO]

/-- The slots of one group given by its code and its values. -/
def groupSlots (g : Nat × List ℚ) : List Slot := Slot.cmd g.1 :: g.2.map Slot.num

/-- The structure of a subpath in the words of the specification: a start
point of two untagged values, then at least one group, each group one of the
six codes followed by exactly `code >> 8` values; the lengths of the groups
plus 2 sum to the size. -/
def WellFormed (sp : SVGpath) : Prop :=
  ∃ (x y : ℚ) (gs : List (Nat × List ℚ)), gs ≠ [] ∧
    (∀ g ∈ gs, g.1 ∈ tags ∧ g.2.length = g.1 >>> 8) ∧
    sp.elements = Slot.num x :: Slot.num y :: (gs.map groupSlots).flatten ∧
    sp.size = 2 + (gs.map (fun g => 1 + (g.1 >>> 8))).sum

/-! ### The range of `double` in `str2f`

The exponent of a literal is read by `strtol`, which answers the nearest bound
of `long` for a run of digits out of range, and is handed to `pow`, whose
result leaves the finite doubles far below that bound. To tell what `str2f`
returns for every exponent, `str2fDouble` embeds `str2f` with the result of
`pow(10.0, e)` kept in its range: `+inf` above the largest power of ten that
is a finite double, 0 below the smallest one that is not rounded to 0. All
other operations are the exact ones, as everywhere in this embedding, and
`str2fDouble` agrees with `str2f` when the exponent is in that range. -/

theorem LINETO_eq : LINETO = 512 := by decide
theorem TQUADTO_eq : TQUADTO = 513 := by decide
theorem QUADTO_eq : QUADTO = 1026 := by decide
theorem SCURVETO_eq : SCURVETO = 1027 := by decide
theorem CURVETO_eq : CURVETO = 1540 := by decide
theorem ARCTO_eq : ARCTO = 1797 := by decide

theorem pointMatrixMultiply_eq (m : Matrix6) (x y : ℚ) :
    pointMatrixMultiply x y m = applyToPoint m x y := by
  simp only [pointMatrixMultiply, applyToPoint, Prod.mk.injEq]
  constructor <;> ring

theorem encode_length_pos (c : Command) : 3 ≤ c.encode.length := by
  cases c <;> simp [Command.encode]

theorem encodeAll_append (a b : List Command) :
    encodeAll (a ++ b) = encodeAll a ++ encodeAll b := by
  induction a with
  | nil => rfl
  | cons c cs ih => simp [encodeAll, ih]

theorem transformLoop_encode_step (m : Matrix6) (angle : ℚ) (fuel : Nat) (c : Command)
    (rest : List Slot) :
    transformLoop m angle (fuel + 1) (c.encode ++ rest) =
      match transformLoop m angle fuel rest with
      | Except.error e => Except.error e
      | Except.ok tl => Except.ok ((c.transform m angle).encode ++ tl) := by
  cases c <;>
    simp [Command.encode, Command.transform, transformLoop, transformPairs, LINETO_eq,
      TQUADTO_eq, QUADTO_eq, SCURVETO_eq, CURVETO_eq, ARCTO_eq, pointMatrixMultiply_eq]

theorem transformLoop_encodeAll (m : Matrix6) (angle : ℚ) (cs : List Command) :
    ∀ fuel, (encodeAll cs).length < fuel →
      transformLoop m angle fuel (encodeAll cs) =
        Except.ok (encodeAll (cs.map (Command.transform m angle))) := by
  induction cs with
  | nil =>
    intro fuel h
    cases fuel with
    | zero => simp [encodeAll] at h
    | succ n => simp [encodeAll, transformLoop]
  | cons c cs ih =>
    intro fuel h
    cases fuel with
    | zero => simp at h
    | succ n =>
      have hlen := encode_length_pos c
      simp only [encodeAll, List.length_append] at h
      have h2 : (encodeAll cs).length < n := by omega
      simp only [encodeAll, List.map_cons, transformLoop_encode_step, ih n h2]

theorem lineto_elements (p : SVGPathparser) (x y : ℚ) (h : 0 < p.size) :
    (lineto p x y).elements = p.elements ++ [Slot.cmd LINETO, Slot.num x, Slot.num y] := by
  simp only [lineto, h, gt_iff_lt, if_true, guarantee_capacity]
  split <;> rfl

theorem lineto_matrix (p : SVGPathparser) (x y : ℚ) : (lineto p x y).matrix = p.matrix := by
  simp only [lineto, guarantee_capacity]
  split <;> [split; skip] <;> rfl

theorem lineto_angle (p : SVGPathparser) (x y : ℚ) : (lineto p x y).angle = p.angle := by
  simp only [lineto, guarantee_capacity]
  split <;> [split; skip] <;> rfl

theorem lineto_plist (p : SVGPathparser) (x y : ℚ) : (lineto p x y).plist = p.plist := by
  simp only [lineto, guarantee_capacity]
  split <;> [split; skip] <;> rfl

theorem encodeAll_length_pos {cs : List Command} (h : cs ≠ []) : 3 ≤ (encodeAll cs).length := by
  cases cs with
  | nil => exact absurd rfl h
  | cons c cs =>
    have := encode_length_pos c
    simp only [encodeAll, List.length_append]
    omega

theorem addPath_encodePath (p : SVGPathparser) (sx sy : ℚ) (cs : List Command) (closed : Bool)
    (h : p.elements = encodePath sx sy cs) (hne : cs ≠ []) :
    nsvg__addPath p closed =
      Except.ok { (if closed then lineto p sx sy else p) with
        plist := finishedPath p.matrix p.angle sx sy cs closed :: p.plist } := by
  have hlen := encodeAll_length_pos hne
  have hsz : p.size = (encodeAll cs).length + 2 := by
    simp [SVGPathparser.size, h, encodePath]
  have hpos : 0 < p.size := by omega
  have h0 : numAt p.elements 0 = Except.ok sx := by simp [numAt, h, encodePath]
  have h1 : numAt p.elements 1 = Except.ok sy := by simp [numAt, h, encodePath]
  unfold nsvg__addPath
  rw [if_neg (by omega)]
  simp only [h0, h1]
  cases closed with
  | false =>
    have hd : p.elements.drop 2 = encodeAll cs := by simp [h, encodePath]
    simp only [Bool.false_eq_true, if_false, hd]
    rw [transformLoop_encodeAll _ _ _ _ (by omega)]
    simp [finishedPath, encodePath, pointMatrixMultiply_eq]
  | true =>
    have hd : (lineto p sx sy).elements.drop 2 = encodeAll (cs ++ [Command.lineTo sx sy]) := by
      rw [lineto_elements _ _ _ hpos, h]
      simp [encodePath, encodeAll_append, encodeAll, Command.encode]
    have hs2 : (lineto p sx sy).size = (encodeAll (cs ++ [Command.lineTo sx sy])).length + 2 := by
      simp only [SVGPathparser.size, lineto_elements _ _ _ hpos, h]
      simp [encodePath, encodeAll_append, encodeAll, Command.encode]
    simp only [if_true, hd, lineto_matrix, lineto_angle, lineto_plist]
    rw [transformLoop_encodeAll _ _ _ _ (by omega)]
    simp [finishedPath, encodePath, pointMatrixMultiply_eq]


theorem encode_transform_tag (m : Matrix6) (angle : ℚ) (c : Command) :
    (c.transform m angle).encode.map Slot.tag = c.encode.map Slot.tag := by
  cases c <;> rfl

theorem encodeAll_transform_tag (m : Matrix6) (angle : ℚ) (cs : List Command) :
    (encodeAll (cs.map (Command.transform m angle))).map Slot.tag =
      (encodeAll cs).map Slot.tag := by
  induction cs with
  | nil => rfl
  | cons c cs ih => simp [encodeAll, ih, encode_transform_tag]

theorem applyToPoint_identity (x y : ℚ) : applyToPoint identityMatrix x y = (x, y) := by
  simp [applyToPoint, identityMatrix]

theorem transform_identity (c : Command) : c.transform identityMatrix 0 = c := by
  cases c <;> simp [Command.transform, applyToPoint_identity]

theorem transform_identity_of_not_arc (angle : ℚ) (c : Command) (h : c.isArc = false) :
    c.transform identityMatrix angle = c := by
  cases c <;> simp_all [Command.transform, applyToPoint_identity, Command.isArc]

theorem map_transform_identity (cs : List Command) :
    cs.map (Command.transform identityMatrix 0) = cs := by
  induction cs with
  | nil => rfl
  | cons c cs ih => simp [transform_identity, ih]

/-- C7 (finalizer transform): for a well formed raw array with at least one
group, `nsvg__addPath` (not closed) puts at the head of `plist` a subpath of
the same size, with the same command codes at the same positions, whose start
point and groups are the images under the matrix `(a, b, c, d, e, f)`:
every coordinate pair `(x, y)` becomes `(a*x + c*y + e, b*x + d*y + f)`; the
raw array itself is left as it is. With the identity matrix every group that
is not an arc is unchanged, and with angle 0 the whole array is. -/
theorem addPath_transforms_every_pair (p : SVGPathparser) (sx sy : ℚ) (cs : List Command)
    (h : p.elements = encodePath sx sy cs) (hne : cs ≠ []) :
    ∃ out : List Slot,
      nsvg__addPath p false =
        Except.ok { p with plist := { elements := out, closed := false } :: p.plist } ∧
      out = encodePath (p.matrix.t0 * sx + p.matrix.t2 * sy + p.matrix.t4)
        (p.matrix.t1 * sx + p.matrix.t3 * sy + p.matrix.t5)
        (cs.map (Command.transform p.matrix p.angle)) ∧
      out.length = p.size ∧
      out.map Slot.tag = p.elements.map Slot.tag ∧
      (p.matrix = identityMatrix →
        (∀ c ∈ cs, c.isArc = false → c.transform p.matrix p.angle = c) ∧
        (p.angle = 0 → out = p.elements)) := by
  refine ⟨_, ?_, rfl, ?_, ?_, ?_⟩
  · rw [addPath_encodePath p sx sy cs false h hne]
    simp [finishedPath, applyToPoint]
  · have := congrArg List.length (encodeAll_transform_tag p.matrix p.angle cs)
    simp only [List.length_map] at this
    simp [encodePath, SVGPathparser.size, h, this]
  · simp [encodePath, h, encodeAll_transform_tag, Slot.tag]
  · intro hm
    refine ⟨fun c _ hc => ?_, fun ha => ?_⟩
    · rw [hm]; exact transform_identity_of_not_arc _ c hc
    · rw [hm, ha, map_transform_identity, h]
      simp [identityMatrix]

theorem addPath_transforms_every_pair_witness :
    ∃ out : List Slot,
      nsvg__addPath
          { matrix := ⟨2, 0, 0, 3, 1, 1⟩, elements := encodePath 1 1 [Command.lineTo 2 5],
            capacity := 32, angle := 0, plist := [] } false =
        Except.ok { matrix := ⟨2, 0, 0, 3, 1, 1⟩, elements := encodePath 1 1 [Command.lineTo 2 5],
                    capacity := 32, angle := 0,
                    plist := [{ elements := out, closed := false }] } ∧
      out = [Slot.num 3, Slot.num 4, Slot.cmd LINETO, Slot.num 5, Slot.num 16] := by
  obtain ⟨out, h1, h2, _⟩ := addPath_transforms_every_pair
    { matrix := ⟨2, 0, 0, 3, 1, 1⟩, elements := encodePath 1 1 [Command.lineTo 2 5],
      capacity := 32, angle := 0, plist := [] } 1 1 [Command.lineTo 2 5] rfl (by decide)
  refine ⟨out, h1, ?_⟩
  rw [h2]
  decide!

/-- C8 (finalizer on arcs): for an arc group `(rx, ry, rot, fa, fs, x, y)` of
a well formed raw array, the subpath made by `nsvg__addPath` holds at the same
position an arc group with `rx`, `ry`, `fa`, `fs` copied, rotation
`rot + p.angle` and the end point transformed by the matrix. For example an
arc with `rx = 5, ry = 3, rot = 0` finished with the matrix of a quarter turn
and angle 90 has `rot = 90, rx = 5, ry = 3`. -/
theorem addPath_arc (p : SVGPathparser) (sx sy : ℚ) (pre post : List Command)
    (rx ry rot fa fs x y : ℚ) (closed : Bool)
    (h : p.elements = encodePath sx sy (pre ++ Command.arcTo rx ry rot fa fs x y :: post)) :
    (∃ q outPre outPost,
      nsvg__addPath p closed = Except.ok q ∧
      q.plist = { elements := outPre ++
                    [Slot.cmd ARCTO, Slot.num rx, Slot.num ry, Slot.num (rot + p.angle),
                     Slot.num fa, Slot.num fs,
                     Slot.num (p.matrix.t0 * x + p.matrix.t2 * y + p.matrix.t4),
                     Slot.num (p.matrix.t1 * x + p.matrix.t3 * y + p.matrix.t5)] ++ outPost,
                  closed := closed } :: p.plist ∧
      outPre.length = 2 + (encodeAll pre).length) ∧
    (nsvg__addPath
        { matrix := setRotation 0 1, angle := 90, capacity := 32, plist := [],
          elements := encodePath 0 0 [Command.arcTo 5 3 0 0 1 10 10] } false).map
        (fun q => q.plist) =
      Except.ok [{ elements := encodePath 0 0 [Command.arcTo 5 3 90 0 1 (-10) 10],
                   closed := false }] := by
  constructor
  · have hne : pre ++ Command.arcTo rx ry rot fa fs x y :: post ≠ [] := by simp
    refine ⟨_, Slot.num (applyToPoint p.matrix sx sy).1 :: Slot.num (applyToPoint p.matrix sx sy).2 ::
        encodeAll (pre.map (Command.transform p.matrix p.angle)),
      encodeAll (((if closed then post ++ [Command.lineTo sx sy] else post)).map
        (Command.transform p.matrix p.angle)),
      addPath_encodePath p sx sy _ closed h hne, ?_, ?_⟩
    · cases closed <;>
        simp [finishedPath, encodePath, encodeAll_append, encodeAll, Command.encode,
          Command.transform, applyToPoint]
    · have := congrArg List.length (encodeAll_transform_tag p.matrix p.angle pre)
      simp only [List.length_map] at this
      simp [this]; omega
  · decide!

theorem addPath_arc_witness :
    ∃ q outPre outPost,
      nsvg__addPath
        { matrix := setRotation 0 1, angle := 90, capacity := 32, plist := [],
          elements := encodePath 0 0 ([Command.lineTo 1 1] ++ Command.arcTo 5 3 0 0 1 10 10 :: []) }
        true = Except.ok q ∧
      q.plist = { elements := outPre ++
                    [Slot.cmd ARCTO, Slot.num 5, Slot.num 3, Slot.num (0 + 90),
                     Slot.num 0, Slot.num 1,
                     Slot.num (0 * 10 + (-1) * 10 + 0),
                     Slot.num (1 * 10 + 0 * 10 + 0)] ++ outPost,
                  closed := true } :: [] ∧
      outPre.length = 2 + (encodeAll [Command.lineTo 1 1]).length :=
  (addPath_arc
    { matrix := setRotation 0 1, angle := 90, capacity := 32, plist := [],
      elements := encodePath 0 0 ([Command.lineTo 1 1] ++ Command.arcTo 5 3 0 0 1 10 10 :: []) }
    0 0 [Command.lineTo 1 1] [] 5 3 0 0 1 10 10 true rfl).1

/-- C4 (H/V normalisation): with an open subpath and current point
`(cpx, cpy)`, running `H a` appends `LINETO a cpy`, `h a` appends
`LINETO (cpx+a) cpy`, `V a` appends `LINETO cpx a` and `v a` appends
`LINETO cpx (cpy+a)`: one command code whose argument count is 2 followed by
two coordinates, and the current point and the last control point become the
appended point. -/
theorem hv_lineto_normalised (st : PState) (a : ℚ) (hs : 0 < st.p.size) (ha : st.args = [a]) :
    (st.cmd = 'H' → ∃ st1, execCommand st = Except.ok st1 ∧
        st1.p.elements = st.p.elements ++ [Slot.cmd LINETO, Slot.num a, Slot.num st.cpy] ∧
        (st1.cpx, st1.cpy) = (a, st.cpy) ∧ (st1.cpx2, st1.cpy2) = (a, st.cpy)) ∧
    (st.cmd = 'h' → ∃ st1, execCommand st = Except.ok st1 ∧
        st1.p.elements = st.p.elements ++
          [Slot.cmd LINETO, Slot.num (st.cpx + a), Slot.num st.cpy] ∧
        (st1.cpx, st1.cpy) = (st.cpx + a, st.cpy) ∧
        (st1.cpx2, st1.cpy2) = (st.cpx + a, st.cpy)) ∧
    (st.cmd = 'V' → ∃ st1, execCommand st = Except.ok st1 ∧
        st1.p.elements = st.p.elements ++ [Slot.cmd LINETO, Slot.num st.cpx, Slot.num a] ∧
        (st1.cpx, st1.cpy) = (st.cpx, a) ∧ (st1.cpx2, st1.cpy2) = (st.cpx, a)) ∧
    (st.cmd = 'v' → ∃ st1, execCommand st = Except.ok st1 ∧
        st1.p.elements = st.p.elements ++
          [Slot.cmd LINETO, Slot.num st.cpx, Slot.num (st.cpy + a)] ∧
        (st1.cpx, st1.cpy) = (st.cpx, st.cpy + a) ∧
        (st1.cpx2, st1.cpy2) = (st.cpx, st.cpy + a)) ∧
    LINETO >>> 8 = 2 := by
  refine ⟨fun h => ?_, fun h => ?_, fun h => ?_, fun h => ?_, by decide⟩ <;>
    refine ⟨_, by simp [execCommand, h]; rfl, ?_, ?_, ?_⟩ <;>
    simp [nsvg__pathHLineTo, nsvg__pathVLineTo, lineto_elements _ _ _ hs, ha]

theorem hv_lineto_normalised_witness :
    ∃ st1, execCommand
        { p := { parser0 with elements := [Slot.num 1, Slot.num 2] }, cmd := 'h', args := [5],
          rargs := 1, initPoint := true, cpx := 1, cpy := 2, cpx2 := 1, cpy2 := 2,
          closedFlag := false } = Except.ok st1 ∧
      st1.p.elements = [Slot.num 1, Slot.num 2] ++ [Slot.cmd LINETO, Slot.num (1 + 5), Slot.num 2] ∧
      (st1.cpx, st1.cpy) = (1 + 5, 2) ∧ (st1.cpx2, st1.cpy2) = (1 + 5, 2) :=
  (hv_lineto_normalised
    { p := { parser0 with elements := [Slot.num 1, Slot.num 2] }, cmd := 'h', args := [5],
      rargs := 1, initPoint := true, cpx := 1, cpy := 2, cpx2 := 1, cpy2 := 2,
      closedFlag := false } 5 (by decide) rfl).2.1 rfl

theorem scurveto_elements (p : SVGPathparser) (a b c d : ℚ) (h : 0 < p.size) :
    (scurveto p a b c d).elements =
      p.elements ++ [Slot.cmd SCURVETO, Slot.num a, Slot.num b, Slot.num c, Slot.num d] := by
  simp only [scurveto, h, gt_iff_lt, if_true, guarantee_capacity]
  split <;> rfl

theorem tquadto_elements (p : SVGPathparser) (x y : ℚ) (h : 0 < p.size) :
    (tquadto p x y).elements = p.elements ++ [Slot.cmd TQUADTO, Slot.num x, Slot.num y] := by
  simp only [tquadto, h, gt_iff_lt, if_true, guarantee_capacity]
  split <;> rfl

theorem absLoop_scurveto (fuel : Nat) (cpx cpy a b c d : ℚ) (rest : List Slot) :
    absLoop (fuel + 1) cpx cpy
        (Slot.cmd SCURVETO :: Slot.num a :: Slot.num b :: Slot.num c :: Slot.num d :: rest) =
      match absLoop fuel (dig3 c) (dig3 d) rest with
      | Except.error e => Except.error e
      | Except.ok tl =>
        Except.ok (['S'] ++ fmtPair (dig3 a) (dig3 b) ++ fmtPair (dig3 c) (dig3 d) ++ tl) := by
  have h : (1027 &&& 255 : Nat) = 3 := by decide
  simp [absLoop, absPairs, SCURVETO_eq, LINETO_eq, commands, h]

theorem absLoop_tquadto (fuel : Nat) (cpx cpy x y : ℚ) (rest : List Slot) :
    absLoop (fuel + 1) cpx cpy (Slot.cmd TQUADTO :: Slot.num x :: Slot.num y :: rest) =
      match absLoop fuel (dig3 x) (dig3 y) rest with
      | Except.error e => Except.error e
      | Except.ok tl => Except.ok (['T'] ++ fmtPair (dig3 x) (dig3 y) ++ tl) := by
  have h : (513 &&& 255 : Nat) = 1 := by decide
  simp [absLoop, absPairs, TQUADTO_eq, LINETO_eq, commands, h]

/-- C5 (smooth commands keep their letter and their explicit points): running
`S`/`s` with an open subpath stores one `SCURVETO` group with its explicit
control point and end point (made absolute), running `T`/`t` stores one
`TQUADTO` group with its end point only; `generateAbsoluteSVG` writes such a
group as `S` followed by the two stored pairs and as `T` followed by the one
stored pair. The text `M0,0 C1,1 2,0 3,1 S4,2 5,1` is written back as
`M0,0 C1,1 2,0 3,1 S4,2 5,1 `. -/
theorem smooth_commands_keep_letter (st : PState) (hs : 0 < st.p.size) :
    (∀ a b c d, st.args = [a, b, c, d] →
      (st.cmd = 'S' → ∃ st1, execCommand st = Except.ok st1 ∧
        st1.p.elements = st.p.elements ++
          [Slot.cmd SCURVETO, Slot.num a, Slot.num b, Slot.num c, Slot.num d]) ∧
      (st.cmd = 's' → ∃ st1, execCommand st = Except.ok st1 ∧
        st1.p.elements = st.p.elements ++
          [Slot.cmd SCURVETO, Slot.num (st.cpx + a), Slot.num (st.cpy + b),
           Slot.num (st.cpx + c), Slot.num (st.cpy + d)])) ∧
    (∀ x y, st.args = [x, y] →
      (st.cmd = 'T' → ∃ st1, execCommand st = Except.ok st1 ∧
        st1.p.elements = st.p.elements ++ [Slot.cmd TQUADTO, Slot.num x, Slot.num y]) ∧
      (st.cmd = 't' → ∃ st1, execCommand st = Except.ok st1 ∧
        st1.p.elements = st.p.elements ++
          [Slot.cmd TQUADTO, Slot.num (st.cpx + x), Slot.num (st.cpy + y)])) ∧
    (∀ fuel cpx cpy a b c d rest,
      absLoop (fuel + 1) cpx cpy
          (Slot.cmd SCURVETO :: Slot.num a :: Slot.num b :: Slot.num c :: Slot.num d :: rest) =
        match absLoop fuel (dig3 c) (dig3 d) rest with
        | Except.error e => Except.error e
        | Except.ok tl =>
          Except.ok (['S'] ++ fmtG (dig3 a) ++ [','] ++ fmtG (dig3 b) ++ [' '] ++
            fmtG (dig3 c) ++ [','] ++ fmtG (dig3 d) ++ [' '] ++ tl)) ∧
    (∀ fuel cpx cpy x y rest,
      absLoop (fuel + 1) cpx cpy (Slot.cmd TQUADTO :: Slot.num x :: Slot.num y :: rest) =
        match absLoop fuel (dig3 x) (dig3 y) rest with
        | Except.error e => Except.error e
        | Except.ok tl =>
          Except.ok (['T'] ++ fmtG (dig3 x) ++ [','] ++ fmtG (dig3 y) ++ [' '] ++ tl)) ∧
    parseAbs parser0 "M0,0 C1,1 2,0 3,1 S4,2 5,1".toList =
      Except.ok "M0,0 C1,1 2,0 3,1 S4,2 5,1 ".toList := by
  refine ⟨fun a b c d ha => ⟨fun h => ?_, fun h => ?_⟩,
    fun x y ha => ⟨fun h => ?_, fun h => ?_⟩, ?_, ?_, by decide!⟩
  · exact ⟨_, by simp [execCommand, h]; rfl, by
      simp [nsvg__pathCubicBezShortTo, scurveto_elements _ _ _ _ _ hs, ha]⟩
  · exact ⟨_, by simp [execCommand, h]; rfl, by
      simp [nsvg__pathCubicBezShortTo, scurveto_elements _ _ _ _ _ hs, ha]⟩
  · exact ⟨_, by simp [execCommand, h]; rfl, by
      simp [nsvg__pathQuadBezShortTo, tquadto_elements _ _ _ hs, ha]⟩
  · exact ⟨_, by simp [execCommand, h]; rfl, by
      simp [nsvg__pathQuadBezShortTo, tquadto_elements _ _ _ hs, ha]⟩
  · intro fuel cpx cpy a b c d rest
    rw [absLoop_scurveto]
    cases absLoop fuel (dig3 c) (dig3 d) rest <;> simp [fmtPair]
  · intro fuel cpx cpy x y rest
    rw [absLoop_tquadto]
    cases absLoop fuel (dig3 x) (dig3 y) rest <;> simp [fmtPair]

theorem smooth_commands_keep_letter_witness :
    ∃ st1, execCommand
        { p := { parser0 with elements := [Slot.num 1, Slot.num 2] }, cmd := 's',
          args := [1, 1, 3, 4], rargs := 4, initPoint := true, cpx := 1, cpy := 2, cpx2 := 1,
          cpy2 := 2, closedFlag := false } = Except.ok st1 ∧
      st1.p.elements = [Slot.num 1, Slot.num 2] ++
        [Slot.cmd SCURVETO, Slot.num (1 + 1), Slot.num (2 + 1), Slot.num (1 + 3),
         Slot.num (2 + 4)] :=
  ((smooth_commands_keep_letter
    { p := { parser0 with elements := [Slot.num 1, Slot.num 2] }, cmd := 's',
      args := [1, 1, 3, 4], rargs := 4, initPoint := true, cpx := 1, cpy := 2, cpx2 := 1,
      cpy2 := 2, closedFlag := false } (by decide)).1 1 1 3 4 rfl).2 rfl

theorem arcto_elements (p : SVGPathparser) (args : List ℚ) (x y : ℚ) (h : 0 < p.size) :
    (arcto p args x y).elements = p.elements ++
      [Slot.cmd ARCTO, Slot.num (args.getD 0 0), Slot.num (args.getD 1 0),
       Slot.num (args.getD 2 0), Slot.num (args.getD 3 0), Slot.num (args.getD 4 0),
       Slot.num x, Slot.num y] := by
  simp only [arcto, h, gt_iff_lt, if_true, guarantee_capacity]
  split <;> rfl

/-- The comparison on squares in `arcDegenerate` is the comparison of the
distance itself. -/
theorem arcDegenerate_iff (rx ry dx dy : ℚ) :
    arcDegenerate |rx| |ry| dx dy = true ↔
      (|rx| < 1 / 1000000 ∨ |ry| < 1 / 1000000 ∨
        Real.sqrt (((dx * dx + dy * dy : ℚ)) : ℝ) < 1 / 1000000) := by
  have hsq : Real.sqrt (((dx * dx + dy * dy : ℚ)) : ℝ) < 1 / 1000000 ↔
      dx * dx + dy * dy < (1 / 1000000 : ℚ) ^ 2 := by
    rw [Real.sqrt_lt' (by norm_num)]
    have : ((1 / 1000000 : ℝ)) ^ 2 = (((1 / 1000000 : ℚ) ^ 2 : ℚ) : ℝ) := by push_cast; ring
    rw [this, Rat.cast_lt]
  simp only [arcDegenerate, Bool.or_eq_true, decide_eq_true_eq, hsq]
  tauto

/-- C6 (degenerate arc): an `A`/`a` command run with arguments
`(rx, ry, rot, fa, fs, x, y)` on an open subpath appends exactly one `LINETO`
group to the end point when `|rx| < 1e-6` or `|ry| < 1e-6` or the distance from
the current point to the end point is below `1e-6`, and exactly one `ARCTO`
group otherwise; the new current point is the end point in both cases. The
text `M0,0 A5,5 0 0 0 0,0` gives the start point `(0,0)` and `LINETO 0 0`, and
is written back as `M0,0 V0 `. -/
theorem arc_degenerates_to_line (p : SVGPathparser) (cpx cpy rx ry rot fa fs x y : ℚ)
    (rel : Bool) (hs : 0 < p.size) :
    ((|rx| < 1 / 1000000 ∨ |ry| < 1 / 1000000 ∨
        Real.sqrt ((((cpx - (if rel then cpx + x else x)) * (cpx - (if rel then cpx + x else x)) +
          (cpy - (if rel then cpy + y else y)) * (cpy - (if rel then cpy + y else y)) : ℚ)) : ℝ)
          < 1 / 1000000) →
      ∃ q, nsvg__pathArcTo p cpx cpy [rx, ry, rot, fa, fs, x, y] rel =
          (q, if rel then cpx + x else x, if rel then cpy + y else y) ∧
        q.elements = p.elements ++
          [Slot.cmd LINETO, Slot.num (if rel then cpx + x else x),
           Slot.num (if rel then cpy + y else y)]) ∧
    (¬ (|rx| < 1 / 1000000 ∨ |ry| < 1 / 1000000 ∨
        Real.sqrt ((((cpx - (if rel then cpx + x else x)) * (cpx - (if rel then cpx + x else x)) +
          (cpy - (if rel then cpy + y else y)) * (cpy - (if rel then cpy + y else y)) : ℚ)) : ℝ)
          < 1 / 1000000) →
      ∃ q, nsvg__pathArcTo p cpx cpy [rx, ry, rot, fa, fs, x, y] rel =
          (q, if rel then cpx + x else x, if rel then cpy + y else y) ∧
        q.elements = p.elements ++
          [Slot.cmd ARCTO, Slot.num rx, Slot.num ry, Slot.num rot, Slot.num fa, Slot.num fs,
           Slot.num (if rel then cpx + x else x), Slot.num (if rel then cpy + y else y)]) ∧
    (nsvg__parsePath parser0 "M0,0 A5,5 0 0 0 0,0".toList).map (fun q => q.plist) =
      Except.ok [{ elements := [Slot.num 0, Slot.num 0, Slot.cmd LINETO, Slot.num 0, Slot.num 0],
                   closed := false }] ∧
    parseAbs parser0 "M0,0 A5,5 0 0 0 0,0".toList = Except.ok "M0,0 V0 ".toList := by
  refine ⟨fun h => ?_, fun h => ?_, by decide!, by decide!⟩
  · rw [← arcDegenerate_iff] at h
    refine ⟨_, ?_, lineto_elements _ _ _ hs⟩
    simp only [nsvg__pathArcTo, List.getD_cons_zero, List.getD_cons_succ, h, if_true]
  · rw [← arcDegenerate_iff] at h
    refine ⟨arcto p [rx, ry, rot, fa, fs, x, y] (if rel then cpx + x else x)
      (if rel then cpy + y else y), ?_, ?_⟩
    · simp only [nsvg__pathArcTo, List.getD_cons_zero, List.getD_cons_succ, h]
      rfl
    · rw [arcto_elements _ _ _ _ hs]; rfl

theorem arc_degenerates_to_line_witness :
    ∃ q, nsvg__pathArcTo { parser0 with elements := [Slot.num 0, Slot.num 0] } 0 0
          [0, 5, 0, 0, 1, 3, 4] true =
          (q, if true then 0 + 3 else 3, if true then 0 + 4 else 4) ∧
        q.elements = [Slot.num 0, Slot.num 0] ++
          [Slot.cmd LINETO, Slot.num (if true then 0 + 3 else 3),
           Slot.num (if true then 0 + 4 else 4)] :=
  (arc_degenerates_to_line { parser0 with elements := [Slot.num 0, Slot.num 0] } 0 0
    0 5 0 0 1 3 4 true (by decide)).1 (Or.inl (by norm_num))

/-- C9 (axis optimisation of the absolute generator): for a `LINETO x y`
group, with `X = dig3 x`, `Y = dig3 y` and the running point `(cpx, cpy)` of
the generator, the text is `V Y` when `X = cpx` (also when `Y = cpy` holds as
well), otherwise `H X` when `Y = cpy`, otherwise `L X,Y`; only rounded values
are compared, the running point starts as the rounded start point and becomes
`(cpx, Y)`, `(X, cpy)` or `(X, Y)`. For `M0,0 L0,10` the absolute text is
`M0,0 V10 ` and the relative text is `M0,0 v10 `. -/
theorem absolute_axis_optimisation :
    (∀ (fuel : Nat) (cpx cpy x y : ℚ) (rest : List Slot),
      absLoop (fuel + 1) cpx cpy (Slot.cmd LINETO :: Slot.num x :: Slot.num y :: rest) =
        if dig3 x = cpx then
          match absLoop fuel cpx (dig3 y) rest with
          | Except.error e => Except.error e
          | Except.ok tl => Except.ok (['V'] ++ fmtG (dig3 y) ++ [' '] ++ tl)
        else if dig3 y = cpy then
          match absLoop fuel (dig3 x) cpy rest with
          | Except.error e => Except.error e
          | Except.ok tl => Except.ok (['H'] ++ fmtG (dig3 x) ++ [' '] ++ tl)
        else
          match absLoop fuel (dig3 x) (dig3 y) rest with
          | Except.error e => Except.error e
          | Except.ok tl =>
            Except.ok (['L'] ++ fmtG (dig3 x) ++ [','] ++ fmtG (dig3 y) ++ [' '] ++ tl)) ∧
    (∀ (x0 y0 : ℚ) (rest : List Slot) (closed : Bool),
      absSubpath { elements := Slot.num x0 :: Slot.num y0 :: rest, closed := closed } =
        match absLoop (rest.length + 3) (dig3 x0) (dig3 y0) rest with
        | Except.error e => Except.error e
        | Except.ok tl =>
          Except.ok (['M'] ++ fmtG (dig3 x0) ++ [','] ++ fmtG (dig3 y0) ++ [' '] ++ tl)) ∧
    parseAbs parser0 "M0,0 L0,10".toList = Except.ok "M0,0 V10 ".toList ∧
    parseRel parser0 "M0,0 L0,10".toList = Except.ok "M0,0 v10 ".toList := by
  refine ⟨fun fuel cpx cpy x y rest => ?_, fun x0 y0 rest closed => ?_, by decide!, by decide!⟩
  · simp only [absLoop, if_true]
  · simp only [absSubpath, SVGpath.size, List.length_cons, fmtPair]
    cases absLoop (rest.length + 1 + 1 + 1) (dig3 x0) (dig3 y0) rest <;> simp

theorem moveto_empty (p : SVGPathparser) (x y : ℚ) (h : p.elements = []) :
    ∃ q, moveto p x y = Except.ok q ∧ q.elements = [Slot.num x, Slot.num y] ∧
      q.plist = p.plist ∧ q.matrix = p.matrix ∧ q.angle = p.angle := by
  unfold moveto
  simp only [SVGPathparser.size, h, List.length_nil, gt_iff_lt, lt_self_iff_false, if_false,
    guarantee_capacity]
  split <;> exact ⟨_, rfl, by simp [h], rfl, rfl, rfl⟩

/-- C2 (implicit lineto after moveto): after `M` (resp. `m`) has run with its
two arguments the active command is `L` (resp. `l`) with required count 2 and
no collected argument, and the raw array holds the start point; in that state
every further pair of coordinate items appends one `LINETO` group, at the
point itself for `L` and at the current point plus the offset for `l`, and
leaves the state ready for the next pair. The text `M0,0 5,5 10,10` gives
one subpath: start `(0,0)`, `LINETO 5 5`, `LINETO 10 10`. -/
theorem implicit_lineto_after_moveto (st : PState) (i1 i2 : List Char)
    (h1 : coordinate i1 = true) (h2 : coordinate i2 = true) (ha : st.args = [])
    (hr : st.rargs = 2) :
    (st.cmd = 'M' → st.p.elements = [] →
      ∃ s1 s2, processItem st i1 = Except.ok s1 ∧ processItem s1 i2 = Except.ok s2 ∧
        s2.cmd = 'L' ∧ s2.rargs = 2 ∧ s2.args = [] ∧
        s2.p.elements = [Slot.num (str2f i1), Slot.num (str2f i2)] ∧
        (s2.cpx, s2.cpy) = (str2f i1, str2f i2)) ∧
    (st.cmd = 'm' → st.p.elements = [] →
      ∃ s1 s2, processItem st i1 = Except.ok s1 ∧ processItem s1 i2 = Except.ok s2 ∧
        s2.cmd = 'l' ∧ s2.rargs = 2 ∧ s2.args = [] ∧
        s2.p.elements = [Slot.num (st.cpx + str2f i1), Slot.num (st.cpy + str2f i2)] ∧
        (s2.cpx, s2.cpy) = (st.cpx + str2f i1, st.cpy + str2f i2)) ∧
    (st.cmd = 'L' → 0 < st.p.size →
      ∃ s1 s2, processItem st i1 = Except.ok s1 ∧ processItem s1 i2 = Except.ok s2 ∧
        s2.cmd = 'L' ∧ s2.rargs = 2 ∧ s2.args = [] ∧
        s2.p.elements = st.p.elements ++
          [Slot.cmd LINETO, Slot.num (str2f i1), Slot.num (str2f i2)] ∧
        (s2.cpx, s2.cpy) = (str2f i1, str2f i2)) ∧
    (st.cmd = 'l' → 0 < st.p.size →
      ∃ s1 s2, processItem st i1 = Except.ok s1 ∧ processItem s1 i2 = Except.ok s2 ∧
        s2.cmd = 'l' ∧ s2.rargs = 2 ∧ s2.args = [] ∧
        s2.p.elements = st.p.elements ++
          [Slot.cmd LINETO, Slot.num (st.cpx + str2f i1), Slot.num (st.cpy + str2f i2)] ∧
        (s2.cpx, s2.cpy) = (st.cpx + str2f i1, st.cpy + str2f i2)) ∧
    (nsvg__parsePath parser0 "M0,0 5,5 10,10".toList).map (fun q => q.plist) =
      Except.ok [{ elements := encodePath 0 0 [Command.lineTo 5 5, Command.lineTo 10 10],
                   closed := false }] := by
  have e1 : ∀ c : Char, st.cmd = c → c ≠ Char.ofNat 0 →
      processItem st i1 = Except.ok { st with args := [str2f i1] } := by
    intro c hc hc0
    simp [processItem, processCoordinate, PState.nargs, hc, hc0, h1, ha, hr]
  have e2 : ∀ c : Char, st.cmd = c → c ≠ Char.ofNat 0 →
      processItem { st with args := [str2f i1] } i2 =
        execCommand { st with args := [str2f i1, str2f i2] } := by
    intro c hc hc0
    simp [processItem, processCoordinate, PState.nargs, hc, hc0, h2, hr]
  refine ⟨fun h he => ?_, fun h he => ?_, fun h hs => ?_, fun h hs => ?_, by decide!⟩
  · obtain ⟨q, hq, hqe, -⟩ := moveto_empty st.p (str2f i1) (str2f i2) he
    refine ⟨_, _, e1 _ h (by decide), (by
      rw [e2 _ h (by decide)]
      simp [execCommand, nsvg__pathMoveTo, h, hq]
      rfl), ?_, ?_, ?_, ?_, ?_⟩
    exacts [rfl, by simp only []; decide, rfl, hqe, rfl]
  · obtain ⟨q, hq, hqe, -⟩ := moveto_empty st.p (st.cpx + str2f i1) (st.cpy + str2f i2) he
    refine ⟨_, _, e1 _ h (by decide), (by
      rw [e2 _ h (by decide)]
      simp [execCommand, nsvg__pathMoveTo, h, hq]
      rfl), ?_, ?_, ?_, ?_, ?_⟩
    exacts [rfl, by simp only []; decide, rfl, hqe, rfl]
  · refine ⟨_, _, e1 _ h (by decide), (by
      rw [e2 _ h (by decide)]
      simp [execCommand, nsvg__pathLineTo, h]
      rfl), ?_, ?_, ?_, ?_, ?_⟩
    exacts [rfl, hr, rfl, lineto_elements _ _ _ hs, rfl]
  · refine ⟨_, _, e1 _ h (by decide), (by
      rw [e2 _ h (by decide)]
      simp [execCommand, nsvg__pathLineTo, h]
      rfl), ?_, ?_, ?_, ?_, ?_⟩
    exacts [rfl, hr, rfl, lineto_elements _ _ _ hs, rfl]

theorem implicit_lineto_after_moveto_witness :
    ∃ s1 s2, processItem
        { initialState parser0 with cmd := 'm', rargs := 2, cpx := 1, cpy := 2 } "3".toList =
          Except.ok s1 ∧ processItem s1 "-4.5".toList = Except.ok s2 ∧
        s2.cmd = 'l' ∧ s2.rargs = 2 ∧ s2.args = [] ∧
        s2.p.elements = [Slot.num (1 + str2f "3".toList), Slot.num (2 + str2f "-4.5".toList)] ∧
        (s2.cpx, s2.cpy) = (1 + str2f "3".toList, 2 + str2f "-4.5".toList) :=
  (implicit_lineto_after_moveto
    { initialState parser0 with cmd := 'm', rargs := 2, cpx := 1, cpy := 2 }
    "3".toList "-4.5".toList (by decide) (by decide) rfl rfl).2.1 rfl rfl

theorem processLetter_Z (st : PState) (sx sy : ℚ) (cs : List Command) (z : Char)
    (hz : z = 'Z' ∨ z = 'z') (hi : st.initPoint = true)
    (he : st.p.elements = encodePath sx sy cs) (hne : cs ≠ []) :
    ∃ q, moveto (nsvg__resetPath { (lineto st.p sx sy) with
            plist := finishedPath st.p.matrix st.p.angle sx sy cs true :: st.p.plist }) sx sy =
          Except.ok q ∧
      processItem st [z] =
        Except.ok { st with cmd := z, p := q, closedFlag := false, cpx := sx, cpy := sy,
                            cpx2 := sx, cpy2 := sy, args := [], rargs := 0 } := by
  obtain ⟨q, hq, hq2⟩ := moveto_empty (nsvg__resetPath { (lineto st.p sx sy) with
      plist := finishedPath st.p.matrix st.p.angle sx sy cs true :: st.p.plist }) sx sy rfl
  refine ⟨q, hq, ?_⟩
  have hlen := encodeAll_length_pos hne
  have hsz : 0 < st.p.size := by simp [SVGPathparser.size, he, encodePath]
  have h0 : numAt st.p.elements 0 = Except.ok sx := by simp [numAt, he, encodePath]
  have h1 : numAt st.p.elements 1 = Except.ok sy := by simp [numAt, he, encodePath]
  have hadd := addPath_encodePath st.p sx sy cs true he hne
  simp only [if_true] at hadd
  rcases hz with rfl | rfl
  · have hn : numberOfArguments 90 = 0 := by decide
    have hc : coordinate ['Z'] = false := by decide
    simp [processItem, hc, processLetter, deref, hi, hsz, h0, h1, hadd, hq, hn]
  · have hn : numberOfArguments 122 = 0 := by decide
    have hc : coordinate ['z'] = false := by decide
    simp [processItem, hc, processLetter, deref, hi, hsz, h0, h1, hadd, hq, hn]

/-- C3 (close and reopen): when `Z`/`z` is read while the raw array holds a
start point `s` followed by at least one group, the subpath put at the head of
`plist` is closed, starts at the image of `s` under the matrix and ends with a
`LINETO` group to that same point (to `s` itself under the identity matrix);
afterwards the raw array holds exactly the point `s` (size 2, no command
code) and the current point and the last control point are `s`. The text
`M0,0 L10,0 L10,10 Z L0,20` gives two subpaths, a closed one
`(0,0), LINETO 10 0, LINETO 10 10, LINETO 0 0` and an open one
`(0,0), LINETO 0 20`; the later subpath is the head of `plist`. -/
theorem close_and_reopen (st : PState) (sx sy : ℚ) (cs : List Command) (z : Char)
    (hz : z = 'Z' ∨ z = 'z') (hi : st.initPoint = true)
    (he : st.p.elements = encodePath sx sy cs) (hne : cs ≠ []) :
    (∃ st1 body, processItem st [z] = Except.ok st1 ∧
      st1.p.plist =
        { elements := Slot.num (applyToPoint st.p.matrix sx sy).1 ::
            Slot.num (applyToPoint st.p.matrix sx sy).2 :: body ++
            [Slot.cmd LINETO, Slot.num (applyToPoint st.p.matrix sx sy).1,
             Slot.num (applyToPoint st.p.matrix sx sy).2],
          closed := true } :: st.p.plist ∧
      body = encodeAll (cs.map (Command.transform st.p.matrix st.p.angle)) ∧
      st1.p.elements = [Slot.num sx, Slot.num sy] ∧ st1.p.size = 2 ∧
      (st1.cpx, st1.cpy) = (sx, sy) ∧ (st1.cpx2, st1.cpy2) = (sx, sy) ∧
      (st.p.matrix = identityMatrix → applyToPoint st.p.matrix sx sy = (sx, sy))) ∧
    (nsvg__parsePath parser0 "M0,0 L10,0 L10,10 Z L0,20".toList).map (fun q => q.plist) =
      Except.ok
        [{ elements := encodePath 0 0 [Command.lineTo 0 20], closed := false },
         { elements := encodePath 0 0
             [Command.lineTo 10 0, Command.lineTo 10 10, Command.lineTo 0 0],
           closed := true }] := by
  refine ⟨?_, by decide!⟩
  obtain ⟨q, hq, hp⟩ := processLetter_Z st sx sy cs z hz hi he hne
  obtain ⟨q2, hq2, hqe, hqp, -⟩ := moveto_empty (nsvg__resetPath { (lineto st.p sx sy) with
      plist := finishedPath st.p.matrix st.p.angle sx sy cs true :: st.p.plist }) sx sy rfl
  have hqq : q2 = q := by rw [hq] at hq2; injection hq2 with h; exact h.symm
  subst hqq
  refine ⟨_, _, hp, ?_, rfl, hqe, by simp [SVGPathparser.size, hqe], rfl, rfl, ?_⟩
  · simp only [hqp, nsvg__resetPath]
    simp [finishedPath, encodePath, encodeAll_append, encodeAll, Command.encode,
      Command.transform]
  · intro hm
    rw [hm, applyToPoint_identity]

theorem close_and_reopen_witness :
    ∃ st1 body, processItem
        { initialState parser0 with
            p := { matrix := ⟨1, 0, 0, 1, 5, 5⟩, elements := encodePath 1 2 [Command.lineTo 3 4],
                   capacity := 32, angle := 0, plist := [] },
            initPoint := true, cmd := 'L', rargs := 2, cpx := 3, cpy := 4 } ['z'] =
          Except.ok st1 ∧
      st1.p.plist =
        { elements := Slot.num (applyToPoint ⟨1, 0, 0, 1, 5, 5⟩ 1 2).1 ::
            Slot.num (applyToPoint ⟨1, 0, 0, 1, 5, 5⟩ 1 2).2 :: body ++
            [Slot.cmd LINETO, Slot.num (applyToPoint ⟨1, 0, 0, 1, 5, 5⟩ 1 2).1,
             Slot.num (applyToPoint ⟨1, 0, 0, 1, 5, 5⟩ 1 2).2],
          closed := true } :: [] ∧
      body = encodeAll ([Command.lineTo 3 4].map (Command.transform ⟨1, 0, 0, 1, 5, 5⟩ 0)) ∧
      st1.p.elements = [Slot.num 1, Slot.num 2] ∧ st1.p.size = 2 ∧
      (st1.cpx, st1.cpy) = (1, 2) ∧ (st1.cpx2, st1.cpy2) = (1, 2) ∧
      ((⟨1, 0, 0, 1, 5, 5⟩ : Matrix6) = identityMatrix →
        applyToPoint ⟨1, 0, 0, 1, 5, 5⟩ 1 2 = (1, 2)) :=
  (close_and_reopen
    { initialState parser0 with
        p := { matrix := ⟨1, 0, 0, 1, 5, 5⟩, elements := encodePath 1 2 [Command.lineTo 3 4],
               capacity := 32, angle := 0, plist := [] },
        initPoint := true, cmd := 'L', rargs := 2, cpx := 3, cpy := 4 }
    1 2 [Command.lineTo 3 4] 'z' (Or.inr rfl) rfl rfl (by decide)).1

/-! ### Decimal digits -/

theorem digitChar_digit {d : Nat} (h : d < 10) : digit (digitChar d) = true := by
  interval_cases d <;> decide

theorem digitChar_val {d : Nat} (h : d < 10) : (digitChar d).toNat - 48 = d := by
  interval_cases d <;> decide

theorem digitChar_ne_zero {d : Nat} (h : d < 10) : digitChar d ≠ Char.ofNat 0 := by
  interval_cases d <;> decide

theorem digitChar_eq_zero_iff {d : Nat} (h : d < 10) : digitChar d = '0' ↔ d = 0 := by
  interval_cases d <;> decide

theorem digitsValue_append_single (l : List Char) (c : Char) :
    digitsValue (l ++ [c]) = 10 * digitsValue l + (c.toNat - 48) := by
  simp [digitsValue, List.foldl_append]

theorem fixedDigits_length (w n : Nat) : (fixedDigits w n).length = w := by
  induction w generalizing n with
  | zero => rfl
  | succ w ih => simp [fixedDigits, ih]

theorem fixedDigits_digit (w n : Nat) : ∀ c ∈ fixedDigits w n, digit c = true := by
  induction w generalizing n with
  | zero => simp [fixedDigits]
  | succ w ih =>
    intro c hc
    simp only [fixedDigits, List.mem_append, List.mem_singleton] at hc
    rcases hc with hc | rfl
    · exact ih _ c hc
    · exact digitChar_digit (Nat.mod_lt _ (by norm_num))

theorem digitsValue_fixedDigits (w n : Nat) : digitsValue (fixedDigits w n) = n % 10 ^ w := by
  induction w generalizing n with
  | zero => simp [fixedDigits, digitsValue, Nat.mod_one]
  | succ w ih =>
    rw [fixedDigits, digitsValue_append_single, ih, digitChar_val (Nat.mod_lt _ (by norm_num))]
    have h2 : n % (10 ^ w * 10) = n % 10 + 10 * (n / 10 % 10 ^ w) := by
      rw [mul_comm, Nat.mod_mul]
    rw [pow_succ, h2]
    omega

theorem ndigitsAux_spec : ∀ fuel n : Nat, 0 < n → n ≤ fuel →
    1 ≤ ndigitsAux fuel n ∧ 10 ^ (ndigitsAux fuel n - 1) ≤ n ∧ n < 10 ^ ndigitsAux fuel n := by
  intro fuel
  induction fuel with
  | zero => intro n h1 h2; omega
  | succ f ih =>
    intro n h1 h2
    have hn : n ≠ 0 := by omega
    simp only [ndigitsAux, hn, if_false]
    by_cases h10 : n / 10 = 0
    · have hlt : n < 10 := by omega
      cases f with
      | zero => simp [ndigitsAux]; omega
      | succ g => simp [ndigitsAux, h10]; omega
    · have hpos : 0 < n / 10 := Nat.pos_of_ne_zero h10
      obtain ⟨a1, a2, a3⟩ := ih (n / 10) hpos (by omega)
      refine ⟨by omega, ?_, ?_⟩
      · have : ndigitsAux f (n / 10) + 1 - 1 = (ndigitsAux f (n / 10) - 1) + 1 := by omega
        rw [this, pow_succ]
        omega
      · rw [pow_succ]
        omega

theorem ndigits_spec {n : Nat} (h : 0 < n) :
    1 ≤ ndigits n ∧ 10 ^ (ndigits n - 1) ≤ n ∧ n < 10 ^ ndigits n :=
  ndigitsAux_spec n n h le_rfl

theorem digitsValue_decDigits (n : Nat) : digitsValue (decDigits n) = n := by
  unfold decDigits
  split
  · subst_vars; rfl
  · rename_i h
    rw [digitsValue_fixedDigits]
    exact Nat.mod_eq_of_lt (ndigits_spec (Nat.pos_of_ne_zero h)).2.2

theorem decDigits_digit (n : Nat) : ∀ c ∈ decDigits n, digit c = true := by
  unfold decDigits
  split
  · intro c hc
    simp only [List.mem_singleton] at hc
    subst hc
    decide
  · exact fixedDigits_digit _ _

theorem decDigits_ne_nil (n : Nat) : decDigits n ≠ [] := by
  unfold decDigits
  split
  · simp
  · rename_i h
    have := (ndigits_spec (Nat.pos_of_ne_zero h)).1
    intro hnil
    have := congrArg List.length hnil
    rw [fixedDigits_length] at this
    simp at this
    omega

theorem digitsValue_append_zeros (l : List Char) (z : Nat) :
    digitsValue (l ++ List.replicate z '0') = digitsValue l * 10 ^ z := by
  induction z with
  | zero => simp
  | succ z ih =>
    rw [List.replicate_succ', ← List.append_assoc, digitsValue_append_single, ih, pow_succ]
    have : ('0' : Char).toNat - 48 = 0 := by decide
    rw [this]
    ring

theorem fixedDigits_mul_pow (w j r : Nat) :
    fixedDigits (w + j) (r * 10 ^ j) = fixedDigits w r ++ List.replicate j '0' := by
  induction j with
  | zero => simp
  | succ j ih =>
    have h1 : r * 10 ^ (j + 1) / 10 = r * 10 ^ j := by
      rw [pow_succ, ← mul_assoc]; exact Nat.mul_div_cancel _ (by norm_num)
    have h2 : r * 10 ^ (j + 1) % 10 = 0 := by
      rw [pow_succ, ← mul_assoc]; exact Nat.mul_mod_left _ _
    rw [← add_assoc, fixedDigits, h1, h2, ih, List.replicate_succ', List.append_assoc]
    rfl

theorem stripZeros_append_zeros (l : List Char) (j : Nat) :
    stripZeros (l ++ List.replicate j '0') = stripZeros l := by
  unfold stripZeros
  rw [List.reverse_append, List.reverse_replicate]
  congr 1
  induction j with
  | zero => rfl
  | succ j ih => simp [List.replicate_succ, List.dropWhile_cons]

theorem stripZeros_decomp (l : List Char) :
    ∃ z, l = stripZeros l ++ List.replicate z '0' := by
  refine ⟨(l.reverse.takeWhile (fun c => c = '0')).length, ?_⟩
  have h := List.takeWhile_append_dropWhile (fun c => decide (c = '0')) l.reverse
  have hall : l.reverse.takeWhile (fun c => decide (c = '0')) =
      List.replicate (l.reverse.takeWhile (fun c => decide (c = '0'))).length '0' := by
    apply List.eq_replicate_of_mem
    intro c hc
    simpa using List.mem_takeWhile_imp hc
  have h2 := congrArg List.reverse h
  rw [List.reverse_append, List.reverse_reverse] at h2
  have h3 : (l.reverse.takeWhile (fun c => decide (c = '0'))).reverse =
      List.replicate (l.reverse.takeWhile (fun c => decide (c = '0'))).length '0' := by
    conv_lhs => rw [hall]
    rw [List.reverse_replicate]
  conv_lhs => rw [← h2, h3]
  rfl

theorem stripZeros_subset (l : List Char) : ∀ c ∈ stripZeros l, c ∈ l := by
  intro c hc
  unfold stripZeros at hc
  rw [List.mem_reverse] at hc
  have := (List.dropWhile_sublist _).subset hc
  simpa using this

theorem stripZeros_eq_nil_iff (l : List Char) : stripZeros l = [] ↔ ∀ c ∈ l, c = '0' := by
  unfold stripZeros
  rw [List.reverse_eq_nil_iff, List.dropWhile_eq_nil_iff]
  simp

theorem negExpAux_spec : ∀ (fuel : Nat) (a : ℚ), 0 < a → a < 1 → 1 ≤ a * 10 ^ fuel →
    1 ≤ negExpAux fuel a ∧ 1 ≤ a * 10 ^ negExpAux fuel a ∧
      a * 10 ^ (negExpAux fuel a - 1) < 1 := by
  intro fuel
  induction fuel with
  | zero =>
    intro a _ h1 h2
    simp at h2
    linarith
  | succ f ih =>
    intro a h0 h1 h2
    have hn : ¬ (1 ≤ a) := not_le.mpr h1
    simp only [negExpAux, hn, if_false]
    by_cases h10 : 1 ≤ a * 10
    · have hz : negExpAux f (a * 10) = 0 := by
        cases f with
        | zero => rfl
        | succ g => simp [negExpAux, h10]
      rw [hz]
      simpa using ⟨h10, h1⟩
    · have h10' : a * 10 < 1 := not_le.mp h10
      have h3 : 1 ≤ a * 10 * 10 ^ f := by
        rw [pow_succ] at h2
        linarith
      obtain ⟨e1, e2, e3⟩ := ih (a * 10) (by positivity) h10' h3
      refine ⟨by omega, ?_, ?_⟩
      · rw [pow_succ]
        linarith
      · have : negExpAux f (a * 10) + 1 - 1 = (negExpAux f (a * 10) - 1) + 1 := by omega
        rw [this, pow_succ]
        linarith

theorem decExp_spec (a : ℚ) (h : 0 < a) :
    (10 : ℚ) ^ decExp a ≤ a ∧ a < (10 : ℚ) ^ (decExp a + 1) := by
  unfold decExp
  split
  · rename_i h1
    have hfl : (0 : ℤ) < ⌊a⌋ := Int.floor_pos.mpr h1
    have hn : 0 < ⌊a⌋.toNat := by omega
    obtain ⟨d1, d2, d3⟩ := ndigits_spec hn
    have hcast : ((⌊a⌋.toNat : ℕ) : ℚ) = ((⌊a⌋ : ℤ) : ℚ) := by
      have : ((⌊a⌋.toNat : ℕ) : ℤ) = ⌊a⌋ := Int.toNat_of_nonneg hfl.le
      exact_mod_cast this
    have e1 : ((ndigits ⌊a⌋.toNat : ℕ) : ℤ) - 1 = ((ndigits ⌊a⌋.toNat - 1 : ℕ) : ℤ) := by
      omega
    constructor
    · rw [e1, zpow_natCast]
      calc (10 : ℚ) ^ (ndigits ⌊a⌋.toNat - 1) ≤ ((⌊a⌋.toNat : ℕ) : ℚ) := by exact_mod_cast d2
        _ = ((⌊a⌋ : ℤ) : ℚ) := hcast
        _ ≤ a := Int.floor_le a
    · have e2 : ((ndigits ⌊a⌋.toNat : ℕ) : ℤ) - 1 + 1 = ((ndigits ⌊a⌋.toNat : ℕ) : ℤ) := by
        omega
      rw [e2, zpow_natCast]
      have h3 : ⌊a⌋.toNat + 1 ≤ 10 ^ ndigits ⌊a⌋.toNat := d3
      calc a < ((⌊a⌋ : ℤ) : ℚ) + 1 := Int.lt_floor_add_one a
        _ = ((⌊a⌋.toNat + 1 : ℕ) : ℚ) := by rw [← hcast]; push_cast; ring
        _ ≤ (10 : ℚ) ^ ndigits ⌊a⌋.toNat := by exact_mod_cast h3
  · rename_i h1
    have h1' : a < 1 := not_le.mp h1
    have hden : (0 : ℚ) < a.den := by exact_mod_cast a.den_pos
    have hnum : (1 : ℤ) ≤ a.num := Rat.num_pos.mpr h
    have hfuel : 1 ≤ a * 10 ^ a.den := by
      have h4 : (a.den : ℚ) ≤ 10 ^ a.den := by
        exact_mod_cast (Nat.lt_pow_self (by norm_num : 1 < 10) a.den).le
      have h5 : a * a.den = a.num := Rat.mul_den_eq_num a
      have h6 : (1 : ℚ) ≤ a.num := by exact_mod_cast hnum
      calc (1 : ℚ) ≤ a.num := h6
        _ = a * a.den := h5.symm
        _ ≤ a * 10 ^ a.den := by gcongr
    obtain ⟨e1, e2, e3⟩ := negExpAux_spec a.den a h h1' hfuel
    have hpos : ∀ m : ℕ, (0 : ℚ) < 10 ^ m := fun m => by positivity
    constructor
    · rw [zpow_neg, zpow_natCast, inv_eq_one_div, div_le_iff₀ (hpos _)]
      exact e2
    · have e4 : -((negExpAux a.den a : ℕ) : ℤ) + 1 = -((negExpAux a.den a - 1 : ℕ) : ℤ) := by
        omega
      rw [e4, zpow_neg, zpow_natCast, inv_eq_one_div, lt_div_iff₀ (hpos _)]
      exact e3

theorem roundEven_natCast (N : ℕ) : roundEven (N : ℚ) = N := by
  simp [roundEven]

theorem fmtG_thousandths (k : ℤ) (hk : k ≠ 0) (hlt : k.natAbs < 1000000) :
    fmtG ((k : ℚ) / 1000) = thousandthsText k := by
  have hn0 : 0 < k.natAbs := Int.natAbs_pos.mpr hk
  have hv : (k : ℚ) / 1000 ≠ 0 := by
    have : (k : ℚ) ≠ 0 := by exact_mod_cast hk
    positivity
  have habs : |(k : ℚ) / 1000| = (k.natAbs : ℚ) / 1000 := by
    rw [abs_div, Nat.cast_natAbs, Int.cast_abs]
    norm_num
  have hneg : ((k : ℚ) / 1000 < 0) ↔ k < 0 := by
    rw [div_neg_iff]
    constructor
    · rintro (⟨_, h⟩ | ⟨h, _⟩)
      · norm_num at h
      · exact_mod_cast h
    · intro h
      exact Or.inr ⟨by exact_mod_cast h, by norm_num⟩
  have hapos : (0 : ℚ) < (k.natAbs : ℚ) / 1000 := by positivity
  obtain ⟨s1, s2⟩ := decExp_spec _ hapos
  -- bounds on the exponent
  have hX2 : decExp ((k.natAbs : ℚ) / 1000) ≤ 2 := by
    have h1 : (10 : ℚ) ^ decExp ((k.natAbs : ℚ) / 1000) < (10 : ℚ) ^ (3 : ℤ) := by
      refine lt_of_le_of_lt s1 ?_
      have : (k.natAbs : ℚ) < 1000000 := by exact_mod_cast hlt
      rw [div_lt_iff₀ (by norm_num)]
      norm_num
      linarith
    have := (zpow_lt_zpow_iff_right₀ (by norm_num : (1 : ℚ) < 10)).mp h1
    omega
  have hX3 : -3 ≤ decExp ((k.natAbs : ℚ) / 1000) := by
    have h1 : (10 : ℚ) ^ (-3 : ℤ) < (10 : ℚ) ^ (decExp ((k.natAbs : ℚ) / 1000) + 1) := by
      refine lt_of_le_of_lt ?_ s2
      have : (1 : ℚ) ≤ (k.natAbs : ℚ) := by exact_mod_cast hn0
      rw [le_div_iff₀ (by norm_num)]
      norm_num
      linarith
    have := (zpow_lt_zpow_iff_right₀ (by norm_num : (1 : ℚ) < 10)).mp h1
    omega
  generalize hXe : decExp ((k.natAbs : ℚ) / 1000) = X at s1 s2 hX2 hX3
  obtain ⟨j, hj⟩ : ∃ j : ℕ, (j : ℤ) = 2 - X := ⟨(2 - X).toNat, by omega⟩
  have hXj : X = 2 - (j : ℤ) := by omega
  have hscaled : (k.natAbs : ℚ) / 1000 * (10 : ℚ) ^ (5 - X) = ((k.natAbs * 10 ^ j : ℕ) : ℚ) := by
    have : (5 : ℤ) - X = ((3 + j : ℕ) : ℤ) := by omega
    rw [this, zpow_natCast, pow_add]
    push_cast
    ring
  have hNlt : k.natAbs * 10 ^ j < 1000000 := by
    have h1 : (k.natAbs : ℚ) / 1000 * (10 : ℚ) ^ (5 - X) < 1000000 := by
      have hp : (0 : ℚ) < (10 : ℚ) ^ (5 - X) := by positivity
      calc (k.natAbs : ℚ) / 1000 * (10 : ℚ) ^ (5 - X)
          < (10 : ℚ) ^ (X + 1) * (10 : ℚ) ^ (5 - X) := by gcongr
        _ = (10 : ℚ) ^ (6 : ℤ) := by
            rw [← zpow_add₀ (by norm_num : (10 : ℚ) ≠ 0)]
            congr 1
            omega
        _ = 1000000 := by norm_num
    rw [hscaled] at h1
    exact_mod_cast h1
  have hD : (5 - X).toNat = 3 + j := by omega
  have hdiv : k.natAbs * 10 ^ j / 10 ^ (3 + j) = k.natAbs / 1000 := by
    rw [pow_add, mul_comm (10 ^ 3) (10 ^ j), ← Nat.div_div_eq_div_mul,
      Nat.mul_div_cancel _ (by positivity)]
    norm_num
  have hmod : k.natAbs * 10 ^ j % 10 ^ (3 + j) = (k.natAbs % 1000) * 10 ^ j := by
    rw [pow_add, Nat.mul_mod_mul_right]
    norm_num
  unfold fmtG thousandthsText
  rw [if_neg hv]
  simp only [habs, hXe, hscaled, roundEven_natCast, hNlt.ne, if_false, hneg, hD, hdiv, hmod,
    fixedDigits_mul_pow, stripZeros_append_zeros]
  rw [if_neg (by omega)]

theorem digit_props {c : Char} (h : digit c = true) :
    isspace c = false ∧ c ≠ '-' ∧ c ≠ '+' ∧ c ≠ '.' ∧ c ≠ 'e' ∧ c ≠ 'E' ∧ c ≠ Char.ofNat 0 ∧
      c ≠ ',' ∧ space c = false := by
  simp only [digit, Bool.and_eq_true, decide_eq_true_eq] at h
  obtain ⟨h1, h2⟩ := h
  have h1' : 48 ≤ c.toNat := h1
  have h2' : c.toNat ≤ 57 := h2
  have hne : ∀ d : Char, (d.toNat < 48 ∨ 57 < d.toNat) → c ≠ d := by
    intro d hd hcd
    subst hcd
    omega
  refine ⟨?_, hne _ (by decide), hne _ (by decide), hne _ (by decide), hne _ (by decide),
    hne _ (by decide), hne _ (by decide), hne _ (by decide), ?_⟩
  · simp only [isspace, Bool.or_eq_false_iff, decide_eq_false_iff_not]
    exact ⟨⟨⟨⟨⟨hne _ (by decide), hne _ (by decide)⟩, hne _ (by decide)⟩, hne _ (by decide)⟩,
      hne _ (by decide)⟩, hne _ (by decide)⟩
  · simp only [space, Bool.or_eq_false_iff, decide_eq_false_iff_not]
    exact ⟨⟨⟨⟨⟨⟨hne _ (by decide), hne _ (by decide)⟩, hne _ (by decide)⟩, hne _ (by decide)⟩,
      hne _ (by decide)⟩, hne _ (by decide)⟩, hne _ (by decide)⟩

theorem takeWhile_digit_append (I F : List Char) (hI : ∀ c ∈ I, digit c = true)
    (hF : digit (deref F) = false) : (I ++ F).takeWhile digit = I := by
  induction I with
  | nil =>
    cases F with
    | nil => rfl
    | cons c F => simp only [deref, List.headD_cons] at hF; simp [List.takeWhile, hF]
  | cons c I ih =>
    have hc := hI c (List.mem_cons_self _ _)
    simp [List.takeWhile, hc, ih (fun d hd => hI d (List.mem_cons_of_mem _ hd))]

theorem dropWhile_digit_append (I F : List Char) (hI : ∀ c ∈ I, digit c = true)
    (hF : digit (deref F) = false) : (I ++ F).dropWhile digit = F := by
  induction I with
  | nil =>
    cases F with
    | nil => rfl
    | cons c F => simp only [deref, List.headD_cons] at hF; simp [List.dropWhile, hF]
  | cons c I ih =>
    have hc := hI c (List.mem_cons_self _ _)
    simp [List.dropWhile, hc, ih (fun d hd => hI d (List.mem_cons_of_mem _ hd))]

theorem strtoll_digits (I F : List Char) (hne : I ≠ []) (hI : ∀ c ∈ I, digit c = true)
    (hF : digit (deref F) = false) (hv : digitsValue I ≤ LLONG_MAX) :
    strtoll (I ++ F) = ((digitsValue I : ℤ), F) := by
  obtain ⟨c, I1, rfl⟩ := List.exists_cons_of_ne_nil hne
  have hc := hI c (List.mem_cons_self _ _)
  obtain ⟨p1, p2, p3, -⟩ := digit_props hc
  have hdw : (c :: I1 ++ F).dropWhile isspace = c :: I1 ++ F := by
    simp [List.dropWhile, p1]
  unfold strtoll strtolBase10
  simp only [hdw]
  have hd : deref (c :: I1 ++ F) = c := rfl
  simp only [hd, p2, p3, or_self, if_false, decide_False,
    takeWhile_digit_append _ _ hI hF, dropWhile_digit_append _ _ hI hF]
  simp only [List.cons_ne_nil, if_false, Bool.false_eq_true]
  have h1 : min (LLONG_MAX : ℤ) (digitsValue (c :: I1) : ℤ) = (digitsValue (c :: I1) : ℤ) := by
    apply min_eq_right
    exact_mod_cast hv
  have h2 : max (-(LLONG_MAX : ℤ) - 1) (digitsValue (c :: I1) : ℤ) =
      (digitsValue (c :: I1) : ℤ) := by
    apply max_eq_right
    have : (0 : ℤ) ≤ (digitsValue (c :: I1) : ℤ) := Int.natCast_nonneg _
    have : (0 : ℤ) ≤ (LLONG_MAX : ℤ) := Int.natCast_nonneg _
    omega
  rw [h1, h2]

theorem str2f_unsigned (I f : List Char) (hne : I ≠ []) (hI : ∀ c ∈ I, digit c = true)
    (hf : ∀ c ∈ f, digit c = true) (hIv : digitsValue I ≤ LLONG_MAX)
    (hfv : digitsValue f ≤ LLONG_MAX) (sign : ℚ) (s : List Char)
    (hs : s = I ++ (if f = [] then [] else '.' :: f)) :
    str2fAfterSign sign s =
      ((digitsValue I : ℚ) + (digitsValue f : ℚ) / (10 : ℚ) ^ f.length) * sign := by
  unfold str2fAfterSign
  subst hs
  obtain ⟨c, I1, rfl⟩ := List.exists_cons_of_ne_nil hne
  have hc := hI c (List.mem_cons_self _ _)
  have hde : ¬ (deref ([] : List Char) = 'e' ∨ deref ([] : List Char) = 'E') := by decide
  have hdn : ¬ (deref ([] : List Char) = '.') := by decide
  by_cases hfn : f = []
  · subst hfn
    have hF : digit (deref ([] : List Char)) = false := by decide
    have h1 := strtoll_digits (c :: I1) [] (by simp) hI hF hIv
    simp only [List.append_nil] at h1
    have hd : deref (c :: I1) = c := rfl
    have hl1 : ([] : List Char).length ≠ (c :: I1).length := by simp
    simp only [if_true, List.append_nil, hd, hc, h1, hl1, ne_eq, not_false_eq_true,
      decide_True, hdn, false_and, if_false, not_true_eq_false, decide_False, Bool.not_true,
      Bool.not_false, Bool.and_true, Bool.false_and, Bool.false_eq_true, hde]
    simp [digitsValue]
  · obtain ⟨d, f1, rfl⟩ := List.exists_cons_of_ne_nil hfn
    have hdg := hf d (List.mem_cons_self _ _)
    have hF : digit (deref ('.' :: d :: f1)) = false := by
      show digit '.' = false
      decide
    have h1 := strtoll_digits (c :: I1) ('.' :: d :: f1) (by simp) hI hF hIv
    have hF2 : digit (deref ([] : List Char)) = false := by decide
    have h2 := strtoll_digits (d :: f1) [] (by simp) hf hF2 hfv
    simp only [List.append_nil] at h2
    have hd : deref (c :: I1 ++ '.' :: d :: f1) = c := rfl
    have hd2 : deref ('.' :: d :: f1) = '.' := rfl
    have hd3 : deref (d :: f1) = d := rfl
    have hl1 : ('.' :: d :: f1).length ≠ (c :: I1 ++ '.' :: d :: f1).length := by
      simp only [List.cons_append, List.length_append, List.length_cons]
      omega
    have hl2 : ([] : List Char).length ≠ (d :: f1).length := by simp
    simp only [List.cons_ne_nil, if_false, hd, hc, if_true, h1, hl1, ne_eq, not_false_eq_true,
      decide_True, hd2, List.tail_cons, hd3, hdg, and_self, h2, hl2, Bool.not_true,
      Bool.and_self, Bool.false_eq_true, hde]
    simp

theorem frac_value (r : Nat) (hr : r < 1000) :
    (digitsValue (stripZeros (fixedDigits 3 r)) : ℚ) /
        (10 : ℚ) ^ (stripZeros (fixedDigits 3 r)).length = (r : ℚ) / 1000 := by
  obtain ⟨z, hz⟩ := stripZeros_decomp (fixedDigits 3 r)
  have hv := congrArg digitsValue hz
  rw [digitsValue_fixedDigits, digitsValue_append_zeros, Nat.mod_eq_of_lt (by norm_num; exact hr)]
    at hv
  have hl := congrArg List.length hz
  rw [fixedDigits_length, List.length_append, List.length_replicate] at hl
  generalize stripZeros (fixedDigits 3 r) = f at hv hl ⊢
  have hp : (0 : ℚ) < (10 : ℚ) ^ z := by positivity
  have h1000 : (1000 : ℚ) = (10 : ℚ) ^ f.length * (10 : ℚ) ^ z := by
    rw [← pow_add, ← hl]
    norm_num
  have hr2 : (r : ℚ) = (digitsValue f : ℚ) * (10 : ℚ) ^ z := by exact_mod_cast hv
  rw [h1000, hr2]
  field_simp
  ring

theorem str2f_thousandthsText (k : ℤ) (hlt : k.natAbs < 1000000) :
    str2f (thousandthsText k) = (k : ℚ) / 1000 := by
  have hI := decDigits_digit (k.natAbs / 1000)
  have hne := decDigits_ne_nil (k.natAbs / 1000)
  have hf : ∀ c ∈ stripZeros (fixedDigits 3 (k.natAbs % 1000)), digit c = true :=
    fun c hc => fixedDigits_digit _ _ c (stripZeros_subset _ c hc)
  have hIv : digitsValue (decDigits (k.natAbs / 1000)) ≤ LLONG_MAX := by
    rw [digitsValue_decDigits]
    have : LLONG_MAX = 9223372036854775807 := by decide
    omega
  have hfv : digitsValue (stripZeros (fixedDigits 3 (k.natAbs % 1000))) ≤ LLONG_MAX := by
    obtain ⟨z, hz⟩ := stripZeros_decomp (fixedDigits 3 (k.natAbs % 1000))
    have hv := congrArg digitsValue hz
    rw [digitsValue_fixedDigits, digitsValue_append_zeros] at hv
    have h1 : digitsValue (stripZeros (fixedDigits 3 (k.natAbs % 1000))) ≤
        digitsValue (stripZeros (fixedDigits 3 (k.natAbs % 1000))) * 10 ^ z :=
      Nat.le_mul_of_pos_right _ (by positivity)
    have h2 : k.natAbs % 1000 % 10 ^ 3 < 1000 := Nat.mod_lt _ (by norm_num)
    have : LLONG_MAX = 9223372036854775807 := by decide
    omega
  have hval : ((digitsValue (decDigits (k.natAbs / 1000)) : ℚ) +
      (digitsValue (stripZeros (fixedDigits 3 (k.natAbs % 1000))) : ℚ) /
        (10 : ℚ) ^ (stripZeros (fixedDigits 3 (k.natAbs % 1000))).length) =
      (k.natAbs : ℚ) / 1000 := by
    rw [frac_value _ (Nat.mod_lt _ (by norm_num)), digitsValue_decDigits]
    have := Nat.div_add_mod k.natAbs 1000
    have h2 : (k.natAbs : ℚ) = 1000 * ((k.natAbs / 1000 : ℕ) : ℚ) + ((k.natAbs % 1000 : ℕ) : ℚ) := by
      exact_mod_cast this.symm
    rw [h2]
    field_simp
    ring
  obtain ⟨c, I1, hcI⟩ := List.exists_cons_of_ne_nil hne
  have hc : digit c = true := hI c (by rw [hcI]; exact List.mem_cons_self _ _)
  obtain ⟨-, p2, p3, -⟩ := digit_props hc
  by_cases hk : k < 0
  · have htext : thousandthsText k = '-' :: (decDigits (k.natAbs / 1000) ++
        (if stripZeros (fixedDigits 3 (k.natAbs % 1000)) = [] then []
         else '.' :: stripZeros (fixedDigits 3 (k.natAbs % 1000)))) := by
      simp [thousandthsText, hk]
    have hd : deref ('-' :: (decDigits (k.natAbs / 1000) ++
        (if stripZeros (fixedDigits 3 (k.natAbs % 1000)) = [] then []
         else '.' :: stripZeros (fixedDigits 3 (k.natAbs % 1000))))) = '-' := rfl
    have hminus : ¬ (('-' : Char) = '+') := by decide
    rw [htext]
    unfold str2f
    simp only [hd, hminus, if_false, if_true, or_true, List.tail_cons]
    rw [str2f_unsigned _ _ hne hI hf hIv hfv (-1) _ rfl, hval]
    have : (k : ℚ) = -(k.natAbs : ℚ) := by
      rw [Nat.cast_natAbs, Int.cast_abs, abs_of_neg (by exact_mod_cast hk)]
      ring
    rw [this]
    ring
  · have htext : thousandthsText k = decDigits (k.natAbs / 1000) ++
        (if stripZeros (fixedDigits 3 (k.natAbs % 1000)) = [] then []
         else '.' :: stripZeros (fixedDigits 3 (k.natAbs % 1000))) := by
      simp [thousandthsText, hk]
    have hd : deref (decDigits (k.natAbs / 1000) ++
        (if stripZeros (fixedDigits 3 (k.natAbs % 1000)) = [] then []
         else '.' :: stripZeros (fixedDigits 3 (k.natAbs % 1000)))) = c := by
      rw [hcI]; rfl
    rw [htext]
    unfold str2f
    simp only [hd, p2, p3, if_false, or_self]
    rw [str2f_unsigned _ _ hne hI hf hIv hfv 1 _ rfl, hval]
    have : (k : ℚ) = (k.natAbs : ℚ) := by
      rw [Nat.cast_natAbs, Int.cast_abs, abs_of_nonneg (by exact_mod_cast not_lt.mp hk)]
    rw [this]
    ring

theorem roundf_intCast (z : ℤ) : roundf (z : ℚ) = z := by
  unfold roundf
  have h1 : ⌊(z : ℚ) + 1 / 2⌋ = z := by
    rw [Int.floor_eq_iff]
    constructor <;> norm_num
  have h2 : ⌊-(z : ℚ) + 1 / 2⌋ = -z := by
    rw [Int.floor_eq_iff]
    constructor <;> push_cast <;> norm_num
  split
  · exact h1
  · rw [h2, neg_neg]

theorem dig3_eq (v : ℚ) : dig3 v = (roundf (v * 1000) : ℚ) / 1000 := rfl

theorem dig3_idem (v : ℚ) : dig3 (dig3 v) = dig3 v := by
  rw [dig3_eq (dig3 v), dig3_eq v, div_mul_cancel₀ _ (by norm_num : (1000 : ℚ) ≠ 0),
    roundf_intCast]

theorem fmtG_dig3 (v : ℚ) (h : |dig3 v| < 1000) :
    fmtG (dig3 v) = thousandthsText (roundf (v * 1000)) ∧
      (roundf (v * 1000)).natAbs < 1000000 := by
  have hk : (roundf (v * 1000)).natAbs < 1000000 := by
    rw [dig3_eq, abs_div, abs_of_pos (by norm_num : (0 : ℚ) < 1000), div_lt_iff₀ (by norm_num)]
      at h
    have h2 : |((roundf (v * 1000) : ℤ) : ℚ)| < 1000000 := by linarith
    rw [← Int.cast_abs] at h2
    have h3 : |roundf (v * 1000)| < 1000000 := by exact_mod_cast h2
    rw [Int.abs_eq_natAbs] at h3
    omega
  refine ⟨?_, hk⟩
  by_cases h0 : roundf (v * 1000) = 0
  · rw [dig3_eq, h0]
    decide!
  · exact fmtG_thousandths _ h0 hk

theorem canon_text {v : ℚ} (h : Canon v) :
    ∃ k : ℤ, k.natAbs < 1000000 ∧ fmtG v = thousandthsText k ∧ str2f (fmtG v) = v := by
  obtain ⟨h1, h2⟩ := h
  rw [← h1] at h2
  obtain ⟨e1, e2⟩ := fmtG_dig3 v h2
  refine ⟨roundf (v * 1000), e2, ?_, ?_⟩
  · rw [← e1, h1]
  · have := str2f_thousandthsText _ e2
    rw [← e1, ← dig3_eq, h1] at this
    exact this

theorem ndigits_le_three {n : Nat} (h : n < 1000) : ndigits n ≤ 3 := by
  by_cases h0 : n = 0
  · subst h0; decide
  · obtain ⟨a1, a2, -⟩ := ndigits_spec (Nat.pos_of_ne_zero h0)
    by_contra hc
    have h4 : 3 ≤ ndigits n - 1 := by omega
    have : 10 ^ 3 ≤ 10 ^ (ndigits n - 1) := Nat.pow_le_pow_right (by norm_num) h4
    omega

theorem decDigits_length_le {n : Nat} (h : n < 1000) : (decDigits n).length ≤ 3 := by
  unfold decDigits
  split
  · simp
  · rw [fixedDigits_length]; exact ndigits_le_three h

theorem stripZeros_length_le (l : List Char) : (stripZeros l).length ≤ l.length := by
  obtain ⟨z, hz⟩ := stripZeros_decomp l
  have := congrArg List.length hz
  rw [List.length_append] at this
  omega

/-- The shape of the text of a canonical value: an optional minus sign, a
run of digits that is not empty, and an optional point followed by a run of
digits that is not empty; at most 8 characters. -/
theorem thousandthsText_shape (k : ℤ) (hk : k.natAbs < 1000000) :
    ∃ (sg I F : List Char), thousandthsText k = sg ++ I ++ F ∧ (sg = [] ∨ sg = ['-']) ∧
      I ≠ [] ∧ (∀ c ∈ I, digit c = true) ∧
      (F = [] ∨ ∃ f, F = '.' :: f ∧ f ≠ [] ∧ ∀ c ∈ f, digit c = true) ∧
      sg.length + I.length + F.length ≤ 8 := by
  have hI := decDigits_digit (k.natAbs / 1000)
  have hne := decDigits_ne_nil (k.natAbs / 1000)
  have hlen := decDigits_length_le (by omega : k.natAbs / 1000 < 1000)
  have hfl := stripZeros_length_le (fixedDigits 3 (k.natAbs % 1000))
  rw [fixedDigits_length] at hfl
  refine ⟨if k < 0 then ['-'] else [], decDigits (k.natAbs / 1000),
    if stripZeros (fixedDigits 3 (k.natAbs % 1000)) = [] then []
    else '.' :: stripZeros (fixedDigits 3 (k.natAbs % 1000)), rfl, ?_, hne, hI, ?_, ?_⟩
  · split <;> simp
  · by_cases hf : stripZeros (fixedDigits 3 (k.natAbs % 1000)) = []
    · left; rw [if_pos hf]
    · right
      rw [if_neg hf]
      exact ⟨_, rfl, hf, fun c hc => fixedDigits_digit _ _ c (stripZeros_subset _ c hc)⟩
  · have h1 : (if k < 0 then ['-'] else ([] : List Char)).length ≤ 1 := by split <;> simp
    have h2 : (if stripZeros (fixedDigits 3 (k.natAbs % 1000)) = [] then ([] : List Char)
        else '.' :: stripZeros (fixedDigits 3 (k.natAbs % 1000))).length ≤ 4 := by
      split
      · simp
      · simp only [List.length_cons]; omega
    omega

/-! ### The scanner on the text of a canonical value -/

theorem copyDigits_run (last : Nat) (ds rest it : List Char) (hd : ∀ c ∈ ds, digit c = true)
    (hr : digit (deref rest) = false) (hl : it.length + ds.length ≤ last) :
    copyDigits last (ds ++ rest) it = (rest, it ++ ds) := by
  induction ds generalizing it with
  | nil =>
    cases rest with
    | nil => simp [copyDigits]
    | cons c r =>
      simp only [deref, List.headD_cons] at hr
      simp [copyDigits, hr]
  | cons c ds ih =>
    have hc := hd c (List.mem_cons_self _ _)
    obtain ⟨-, -, -, -, -, -, p0, -⟩ := digit_props hc
    simp only [List.length_cons] at hl
    have hput : putItem last it c = it ++ [c] := by
      simp only [putItem]
      rw [if_pos (by omega)]
    simp only [List.cons_append, copyDigits, hc, p0, ne_eq, not_false_eq_true, and_self, if_true,
      hput, List.append_eq]
    rw [ih _ (fun d hd2 => hd d (List.mem_cons_of_mem _ hd2))
      (by simp only [List.length_append, List.length_singleton]; omega)]
    simp

/-- The scanner `parseNumber` takes exactly the text of a canonical value when
a comma or a blank follows it. -/
theorem parseNumber_thousandthsText (k : ℤ) (hk : k.natAbs < 1000000) (sep : Char)
    (hsep : sep = ',' ∨ sep = ' ') (rest : List Char) :
    parseNumber (thousandthsText k ++ sep :: rest) ITEM_SIZE =
      (sep :: rest, thousandthsText k) := by
  obtain ⟨sg, I, F, hT, hsg, hIne, hI, hF, hlen⟩ := thousandthsText_shape k hk
  rw [hT]
  obtain ⟨c, I1, rfl⟩ := List.exists_cons_of_ne_nil hIne
  have hc := hI c (List.mem_cons_self _ _)
  obtain ⟨-, p2, p3, -⟩ := digit_props hc
  have hsepd : digit sep = false := by rcases hsep with rfl | rfl <;> decide
  have hsepdot : sep ≠ '.' := by rcases hsep with rfl | rfl <;> decide
  have hsepe : ¬ (sep = 'e' ∨ sep = 'E') := by rcases hsep with rfl | rfl <;> decide
  have hlast : ITEM_SIZE - 1 = 63 := by decide
  unfold parseNumber
  simp only [hlast]
  -- the sign
  have hr0 : (if deref (sg ++ (c :: I1) ++ F ++ sep :: rest) = '-' ∨
        deref (sg ++ (c :: I1) ++ F ++ sep :: rest) = '+' then
        ((sg ++ (c :: I1) ++ F ++ sep :: rest).tail,
          putItem 63 [] (deref (sg ++ (c :: I1) ++ F ++ sep :: rest)))
      else (sg ++ (c :: I1) ++ F ++ sep :: rest, [])) =
      ((c :: I1) ++ (F ++ sep :: rest), sg) := by
    rcases hsg with rfl | rfl
    · have hd : deref ([] ++ (c :: I1) ++ F ++ sep :: rest) = c := rfl
      simp only [hd, p2, p3, or_self, if_false]
      simp
    · have hd : deref (['-'] ++ (c :: I1) ++ F ++ sep :: rest) = '-' := rfl
      simp only [hd, true_or, if_true]
      simp [putItem]
  rw [hr0]
  simp only
  rcases hF with rfl | ⟨f, rfl, hfne, hf⟩
  · have hr : digit (deref ([] ++ sep :: rest)) = false := hsepd
    rw [copyDigits_run 63 (c :: I1) ([] ++ sep :: rest) sg hI hr
      (by simp only [List.length_nil, add_zero] at hlen; omega)]
    have hd : deref ([] ++ sep :: rest) = sep := rfl
    simp only [hd, hsepdot, if_false, hsepe, false_and]
    simp
  · have hr : digit (deref (('.' :: f) ++ sep :: rest)) = false := by
      show digit '.' = false
      decide
    rw [copyDigits_run 63 (c :: I1) (('.' :: f) ++ sep :: rest) sg hI hr
      (by simp only [List.length_cons] at hlen ⊢; omega)]
    have hd : deref (('.' :: f) ++ sep :: rest) = '.' := rfl
    simp only [hd, if_true]
    have hput : putItem 63 (sg ++ c :: I1) '.' = sg ++ c :: I1 ++ ['.'] := by
      simp only [putItem]
      rw [if_pos (by
        simp only [List.length_append, List.length_cons] at hlen ⊢; omega)]
    have htail : (('.' :: f) ++ sep :: rest).tail = f ++ sep :: rest := rfl
    rw [hput, htail, copyDigits_run 63 f (sep :: rest) _ hf hsepd (by
      simp only [List.length_append, List.length_cons, List.length_nil] at hlen ⊢; omega)]
    have hd2 : deref (sep :: rest) = sep := rfl
    simp only [hd2, hsepe, false_and, if_false]
    simp

theorem skipSeparators_sep (sep : Char) (hsep : sep = ',' ∨ sep = ' ') (s : List Char) :
    skipSeparators (sep :: s) = skipSeparators s := by
  rcases hsep with rfl | rfl <;> simp [skipSeparators, space]

theorem skipSeparators_other (c : Char) (s : List Char) (h1 : space c = false) (h2 : c ≠ ',') :
    skipSeparators (c :: s) = c :: s := by
  simp [skipSeparators, h1, h2]

theorem skipSeparators_nul (s : List Char) (h : deref s = Char.ofNat 0) :
    skipSeparators s = s := by
  cases s with
  | nil => rfl
  | cons c s =>
    simp only [deref, List.headD_cons] at h
    simp [skipSeparators, h]

theorem nextItem_sep (st : PState) (sep : Char) (hsep : sep = ',' ∨ sep = ' ') (s : List Char) :
    nextItem st (sep :: s) = nextItem st s := by
  unfold nextItem nsvg__getNextPathItemWhenArcFlag nsvg__getNextPathItem
  simp only [skipSeparators_sep sep hsep]
  by_cases hm : (st.cmd = 'A' ∨ st.cmd = 'a') ∧ (st.nargs = 3 ∨ st.nargs = 4)
  · simp only [hm, and_self, if_true]
  · simp only [hm, if_false, skipSeparators_sep sep hsep]
    simp

theorem parseLoop_sep (fuel : Nat) (st : PState) (sep : Char) (hsep : sep = ',' ∨ sep = ' ')
    (s : List Char) : parseLoop fuel st (sep :: s) = parseLoop fuel st s := by
  cases fuel with
  | zero => rfl
  | succ f =>
    have hd : deref (sep :: s) ≠ Char.ofNat 0 := by
      have : deref (sep :: s) = sep := rfl
      rw [this]
      rcases hsep with rfl | rfl <;> decide
    simp only [parseLoop, hd, if_false, nextItem_sep st sep hsep]
    by_cases h0 : deref s = Char.ofNat 0
    · simp only [h0, if_true]
      have hni : (nextItem st s).2 = [] := by
        have hsk := skipSeparators_nul s h0
        unfold nextItem nsvg__getNextPathItemWhenArcFlag nsvg__getNextPathItem
        simp only [hsk, h0, if_true]
        split <;> simp [hsk, h0]
      simp only [hni, if_true]
    · simp only [h0, if_false]

/-- One pass of the loop of `nsvg__parsePath` that reads an item. -/
theorem parseLoop_step (fuel : Nat) (st : PState) (s s1 item : List Char)
    (hd : deref s ≠ Char.ofNat 0) (hn : nextItem st s = (s1, item)) (hi : item ≠ []) :
    parseLoop (fuel + 1) st s =
      match processItem st item with
      | Except.error e => Except.error e
      | Except.ok st1 => parseLoop fuel st1 s1 := by
  simp only [parseLoop, hd, if_false, hn, hi]

theorem parseLoop_mono (fuel : Nat) : ∀ (st : PState) (s : List Char) (r : PState) (k : Nat),
    parseLoop fuel st s = Except.ok r → parseLoop (fuel + k) st s = Except.ok r := by
  induction fuel with
  | zero => intro st s r k h; simp [parseLoop] at h
  | succ f ih =>
    intro st s r k h
    have e : f + 1 + k = (f + k) + 1 := by omega
    rw [e]
    simp only [parseLoop] at h ⊢
    split
    · rename_i h0; simp only [h0, if_true] at h; exact h
    · rename_i h0
      simp only [h0, if_false] at h
      split
      · rename_i h1; simp only [h1, if_true] at h; exact h
      · rename_i h1
        simp only [h1, if_false] at h
        cases hp : processItem st (nextItem st s).2 with
        | error e => simp [hp] at h
        | ok st1 =>
          simp only [hp] at h ⊢
          exact ih _ _ _ _ h

theorem thousandthsText_head (k : ℤ) (hk : k.natAbs < 1000000) :
    ∃ c t, thousandthsText k = c :: t ∧ (c = '-' ∨ digit c = true) ∧
      coordinate (c :: t) = true := by
  obtain ⟨sg, I, F, hT, hsg, hIne, hI, -, -⟩ := thousandthsText_shape k hk
  obtain ⟨c, I1, rfl⟩ := List.exists_cons_of_ne_nil hIne
  have hc := hI c (List.mem_cons_self _ _)
  obtain ⟨-, p2, p3, -⟩ := digit_props hc
  rcases hsg with rfl | rfl
  · refine ⟨c, I1 ++ F, by rw [hT]; simp, Or.inr hc, ?_⟩
    simp [coordinate, deref, p2, p3, hc]
  · refine ⟨'-', c :: I1 ++ F, by rw [hT]; simp, Or.inl rfl, ?_⟩
    simp [coordinate, deref, hc]

theorem fmtG_zero : fmtG 0 = ['0'] := by decide!

theorem fmtG_one : fmtG 1 = ['1'] := by decide!

/-- The scanner on the text of a canonical value that is followed by a comma
or a blank: the item is the text, the cursor stops at the separator. In flag
mode this holds for the values 0 and 1. -/
theorem nextItem_number (st : PState) (v : ℚ) (hv : Canon v)
    (hflag : flagMode st → v = 0 ∨ v = 1) (sep : Char) (hsep : sep = ',' ∨ sep = ' ')
    (rest : List Char) :
    nextItem st (fmtG v ++ sep :: rest) = (sep :: rest, fmtG v) ∧ fmtG v ≠ [] ∧
      deref (fmtG v ++ sep :: rest) ≠ Char.ofNat 0 ∧ coordinate (fmtG v) = true ∧
      str2f (fmtG v) = v := by
  obtain ⟨k, hk, hT, hstr⟩ := canon_text hv
  obtain ⟨c, t, hct, hc, hcoord⟩ := thousandthsText_head k hk
  have hpn := parseNumber_thousandthsText k hk sep hsep rest
  rw [← hT] at hct hpn
  have hc0 : c ≠ Char.ofNat 0 := by
    rcases hc with rfl | hc
    · decide
    · exact (digit_props hc).2.2.2.2.2.2.1
  have hsp : space c = false ∧ c ≠ ',' := by
    rcases hc with rfl | hc
    · exact ⟨by decide, by decide⟩
    · exact ⟨(digit_props hc).2.2.2.2.2.2.2.2, (digit_props hc).2.2.2.2.2.2.2.1⟩
  have hd : deref (fmtG v ++ sep :: rest) = c := by rw [hct]; rfl
  have hsk : skipSeparators (fmtG v ++ sep :: rest) = fmtG v ++ sep :: rest := by
    rw [hct]
    exact skipSeparators_other c _ hsp.1 hsp.2
  have hnum : deref (fmtG v ++ sep :: rest) = '-' ∨ deref (fmtG v ++ sep :: rest) = '+' ∨
      deref (fmtG v ++ sep :: rest) = '.' ∨ digit (deref (fmtG v ++ sep :: rest)) = true := by
    rw [hd]
    rcases hc with rfl | hc
    · exact Or.inl rfl
    · exact Or.inr (Or.inr (Or.inr hc))
  have hgen : nsvg__getNextPathItem (fmtG v ++ sep :: rest) = (sep :: rest, fmtG v) := by
    unfold nsvg__getNextPathItem
    simp only [hsk]
    rw [if_neg (by rw [hd]; exact hc0), if_pos hnum]
    exact hpn
  refine ⟨?_, by rw [hct]; simp, by rw [hd]; exact hc0, by rw [hct]; exact hcoord, hstr⟩
  unfold nextItem
  by_cases hm : (st.cmd = 'A' ∨ st.cmd = 'a') ∧ (st.nargs = 3 ∨ st.nargs = 4)
  · rw [if_pos hm]
    rcases hflag hm with rfl | rfl
    · rw [fmtG_zero]
      have : nsvg__getNextPathItemWhenArcFlag (['0'] ++ sep :: rest) = (sep :: rest, ['0']) := by
        unfold nsvg__getNextPathItemWhenArcFlag
        have h1 : skipSeparators (['0'] ++ sep :: rest) = '0' :: sep :: rest :=
          skipSeparators_other _ _ (by decide) (by decide)
        rw [h1]
        simp [deref]
      rw [this]
      simp
    · rw [fmtG_one]
      have : nsvg__getNextPathItemWhenArcFlag (['1'] ++ sep :: rest) = (sep :: rest, ['1']) := by
        unfold nsvg__getNextPathItemWhenArcFlag
        have h1 : skipSeparators (['1'] ++ sep :: rest) = '1' :: sep :: rest :=
          skipSeparators_other _ _ (by decide) (by decide)
        rw [h1]
        simp [deref]
      rw [this]
      simp
  · rw [if_neg hm]
    simp only [if_true]
    exact hgen

/-- The scanner on a command letter outside flag mode. -/
theorem nextItem_letter (st : PState) (c : Char) (s : List Char) (hm : ¬ flagMode st)
    (h0 : c ≠ Char.ofNat 0) (h1 : space c = false) (h2 : c ≠ ',')
    (h3 : ¬ (c = '-' ∨ c = '+' ∨ c = '.' ∨ digit c = true)) :
    nextItem st (c :: s) = (s, [c]) := by
  unfold nextItem
  unfold flagMode at hm
  rw [if_neg hm]
  simp only [if_true]
  unfold nsvg__getNextPathItem
  rw [skipSeparators_other c s h1 h2]
  have hd : deref (c :: s) = c := rfl
  simp only [hd]
  rw [if_neg h0, if_neg h3]
  rfl

/-- One pass of the loop on the text of a canonical value. -/
theorem parseLoop_number (fuel : Nat) (st : PState) (v : ℚ) (hv : Canon v)
    (hflag : flagMode st → v = 0 ∨ v = 1) (sep : Char) (hsep : sep = ',' ∨ sep = ' ')
    (rest : List Char) (hcmd : st.cmd ≠ Char.ofNat 0) (hn : st.nargs < 10) :
    parseLoop (fuel + 1) st (fmtG v ++ sep :: rest) =
      if ((st.nargs + 1 : ℕ) : ℤ) ≥ st.rargs then
        match execCommand { st with args := st.args ++ [v] } with
        | Except.error e => Except.error e
        | Except.ok st1 => parseLoop fuel st1 rest
      else parseLoop fuel { st with args := st.args ++ [v] } rest := by
  obtain ⟨h1, h2, h3, h4, h5⟩ := nextItem_number st v hv hflag sep hsep rest
  rw [parseLoop_step fuel st _ _ _ h3 h1 h2]
  have hp : processItem st (fmtG v) =
      if ((st.nargs + 1 : ℕ) : ℤ) ≥ st.rargs then execCommand { st with args := st.args ++ [v] }
      else Except.ok { st with args := st.args ++ [v] } := by
    simp only [processItem, hcmd, h4, ne_eq, not_false_eq_true, and_self, if_true,
      processCoordinate, hn, h5]
    simp [PState.nargs]
  rw [hp]
  by_cases hge : ((st.nargs + 1 : ℕ) : ℤ) ≥ st.rargs
  · rw [if_pos hge, if_pos hge]
    cases execCommand { st with args := st.args ++ [v] } with
    | error e => rfl
    | ok st1 => simp only [parseLoop_sep _ _ sep hsep]
  · rw [if_neg hge, if_neg hge]
    simp only [parseLoop_sep _ _ sep hsep]

/-- A run of numbers that completes the arguments of the active command: the
numbers are collected and the command runs once, after the last of them. -/
theorem parseLoop_numbers (toks : List (ℚ × Char)) :
    ∀ (st : PState) (fuel : Nat) (rest : List Char), toks ≠ [] →
      (∀ t ∈ toks, Canon t.1 ∧ (t.2 = ',' ∨ t.2 = ' ')) → st.cmd ≠ Char.ofNat 0 →
      ((st.nargs + toks.length : ℕ) : ℤ) = st.rargs → st.nargs + toks.length ≤ 10 →
      FlagsOK st.cmd st.nargs toks →
      parseLoop (fuel + toks.length) st (numsText toks ++ rest) =
        match execCommand { st with args := st.args ++ toks.map Prod.fst } with
        | Except.error e => Except.error e
        | Except.ok st1 => parseLoop fuel st1 rest := by
  induction toks with
  | nil => intro st fuel rest h; exact absurd rfl h
  | cons t tl ih =>
    intro st fuel rest _ hc hcmd hr hle hf
    obtain ⟨hcv, hsep⟩ := hc t (List.mem_cons_self _ _)
    obtain ⟨hf1, hf2⟩ := hf
    simp only [List.length_cons] at hr hle
    have hstep := parseLoop_number (fuel + tl.length) st t.1 hcv
      (fun hm => hf1 hm) t.2 hsep (numsText tl ++ rest) hcmd (by omega)
    have e : fuel + (t :: tl).length = fuel + tl.length + 1 := by simp [Nat.add_assoc]
    have et : numsText (t :: tl) ++ rest = fmtG t.1 ++ t.2 :: (numsText tl ++ rest) := by
      simp [numsText]
    rw [e, et, hstep]
    cases tl with
    | nil =>
      have hge : ((st.nargs + 1 : ℕ) : ℤ) ≥ st.rargs := by
        simp only [List.length_nil] at hr
        omega
      rw [if_pos hge]
      simp [numsText]
    | cons t2 tl2 =>
      have hlt : ¬ (((st.nargs + 1 : ℕ) : ℤ) ≥ st.rargs) := by
        simp only [List.length_cons] at hr
        omega
      rw [if_neg hlt]
      have hn1 : ({ st with args := st.args ++ [t.1] } : PState).nargs = st.nargs + 1 := by
        simp [PState.nargs]
      rw [ih { st with args := st.args ++ [t.1] } fuel rest (by simp)
        (fun u hu => hc u (List.mem_cons_of_mem _ hu)) hcmd
        (by rw [hn1]; simp only [List.length_cons] at hr ⊢; omega)
        (by rw [hn1]; simp only [List.length_cons] at hle ⊢; omega)
        (by rw [hn1]; exact hf2)]
      simp

/-! ### The generator on a well formed array -/

theorem absLoop_encode_step (fuel : Nat) (cx cy : ℚ) (c : Command) (rest : List Slot) :
    absLoop (fuel + 1) cx cy (c.encode ++ rest) =
      match absLoop fuel (c.nextPoint cx cy).1 (c.nextPoint cx cy).2 rest with
      | Except.error e => Except.error e
      | Except.ok tl => Except.ok (c.text cx cy ++ tl) := by
  have h1 : (513 &&& 255 : Nat) = 1 := by decide
  have h2 : (1026 &&& 255 : Nat) = 2 := by decide
  have h3 : (1027 &&& 255 : Nat) = 3 := by decide
  have h4 : (1540 &&& 255 : Nat) = 4 := by decide
  have h5 : (1797 &&& 255 : Nat) = 5 := by decide
  cases c with
  | lineTo x y =>
    show absLoop (fuel + 1) cx cy (Slot.cmd LINETO :: Slot.num x :: Slot.num y :: rest) = _
    simp only [absLoop, if_true, Command.nextPoint, Command.text, Command.letter,
      Command.tokens]
    by_cases hx : dig3 x = cx
    · rw [if_pos hx, if_pos hx, if_pos hx, if_pos hx]
      cases absLoop fuel cx (dig3 y) rest <;> simp [numsText]
    · rw [if_neg hx, if_neg hx, if_neg hx, if_neg hx]
      by_cases hy : dig3 y = cy
      · rw [if_pos hy, if_pos hy, if_pos hy, if_pos hy]
        cases absLoop fuel (dig3 x) cy rest <;> simp [numsText]
      · rw [if_neg hy, if_neg hy, if_neg hy, if_neg hy]
        cases absLoop fuel (dig3 x) (dig3 y) rest <;> simp [numsText]
  | smoothQuadTo x y =>
    show absLoop (fuel + 1) cx cy (Slot.cmd TQUADTO :: Slot.num x :: Slot.num y :: rest) = _
    simp [absLoop, absPairs, TQUADTO_eq, LINETO_eq, commands, h1, Command.nextPoint,
      Command.text, Command.letter, Command.tokens, numsText, fmtPair]
  | quadTo x1 y1 x y =>
    show absLoop (fuel + 1) cx cy (Slot.cmd QUADTO :: Slot.num x1 :: Slot.num y1 ::
      Slot.num x :: Slot.num y :: rest) = _
    simp [absLoop, absPairs, QUADTO_eq, LINETO_eq, commands, h2, Command.nextPoint,
      Command.text, Command.letter, Command.tokens, numsText, fmtPair]
  | smoothCurveTo x1 y1 x y =>
    show absLoop (fuel + 1) cx cy (Slot.cmd SCURVETO :: Slot.num x1 :: Slot.num y1 ::
      Slot.num x :: Slot.num y :: rest) = _
    simp [absLoop, absPairs, SCURVETO_eq, LINETO_eq, commands, h3, Command.nextPoint,
      Command.text, Command.letter, Command.tokens, numsText, fmtPair]
  | curveTo x1 y1 x2 y2 x y =>
    show absLoop (fuel + 1) cx cy (Slot.cmd CURVETO :: Slot.num x1 :: Slot.num y1 ::
      Slot.num x2 :: Slot.num y2 :: Slot.num x :: Slot.num y :: rest) = _
    simp [absLoop, absPairs, CURVETO_eq, LINETO_eq, commands, h4, Command.nextPoint,
      Command.text, Command.letter, Command.tokens, numsText, fmtPair]
  | arcTo rx ry angle fa fs x y =>
    show absLoop (fuel + 1) cx cy (Slot.cmd ARCTO :: Slot.num rx :: Slot.num ry ::
      Slot.num angle :: Slot.num fa :: Slot.num fs :: Slot.num x :: Slot.num y :: rest) = _
    simp [absLoop, absPairs, ARCTO_eq, LINETO_eq, commands, h5, Command.nextPoint,
      Command.text, Command.letter, Command.tokens, numsText, fmtPair]

theorem absLoop_encodeAll (cs : List Command) :
    ∀ (fuel : Nat) (cx cy : ℚ), (encodeAll cs).length < fuel →
      absLoop fuel cx cy (encodeAll cs) = Except.ok (cmdsText cx cy cs) := by
  induction cs with
  | nil =>
    intro fuel cx cy h
    cases fuel with
    | zero => simp [encodeAll] at h
    | succ n => simp [encodeAll, absLoop, cmdsText]
  | cons c cs ih =>
    intro fuel cx cy h
    cases fuel with
    | zero => simp at h
    | succ n =>
      have hlen := encode_length_pos c
      simp only [encodeAll, List.length_append] at h
      have h2 : (encodeAll cs).length < n := by omega
      simp only [encodeAll, absLoop_encode_step, ih n _ _ h2, cmdsText]

/-! ### The parser on the text of one group -/

theorem tquadto_spec (p : SVGPathparser) (x y : ℚ) (h : 0 < p.size) :
    (tquadto p x y).elements = p.elements ++ [Slot.cmd TQUADTO, Slot.num x, Slot.num y] ∧
      (tquadto p x y).plist = p.plist ∧ (tquadto p x y).matrix = p.matrix ∧
      (tquadto p x y).angle = p.angle := by
  simp only [tquadto, h, gt_iff_lt, if_true, guarantee_capacity]
  split <;> exact ⟨rfl, rfl, rfl, rfl⟩

theorem lineto_spec (p : SVGPathparser) (x y : ℚ) (h : 0 < p.size) :
    (lineto p x y).elements = p.elements ++ [Slot.cmd LINETO, Slot.num x, Slot.num y] ∧
      (lineto p x y).plist = p.plist ∧ (lineto p x y).matrix = p.matrix ∧
      (lineto p x y).angle = p.angle :=
  ⟨lineto_elements p x y h, lineto_plist p x y, lineto_matrix p x y, lineto_angle p x y⟩

theorem quadto_spec (p : SVGPathparser) (a b x y : ℚ) (h : 0 < p.size) :
    (quadto p a b x y).elements =
        p.elements ++ [Slot.cmd QUADTO, Slot.num a, Slot.num b, Slot.num x, Slot.num y] ∧
      (quadto p a b x y).plist = p.plist ∧ (quadto p a b x y).matrix = p.matrix ∧
      (quadto p a b x y).angle = p.angle := by
  simp only [quadto, h, gt_iff_lt, if_true, guarantee_capacity]
  split <;> exact ⟨rfl, rfl, rfl, rfl⟩

theorem scurveto_spec (p : SVGPathparser) (a b x y : ℚ) (h : 0 < p.size) :
    (scurveto p a b x y).elements =
        p.elements ++ [Slot.cmd SCURVETO, Slot.num a, Slot.num b, Slot.num x, Slot.num y] ∧
      (scurveto p a b x y).plist = p.plist ∧ (scurveto p a b x y).matrix = p.matrix ∧
      (scurveto p a b x y).angle = p.angle := by
  simp only [scurveto, h, gt_iff_lt, if_true, guarantee_capacity]
  split <;> exact ⟨rfl, rfl, rfl, rfl⟩

theorem curveto_spec (p : SVGPathparser) (a b c d x y : ℚ) (h : 0 < p.size) :
    (curveto p a b c d x y).elements =
        p.elements ++ [Slot.cmd CURVETO, Slot.num a, Slot.num b, Slot.num c, Slot.num d,
          Slot.num x, Slot.num y] ∧
      (curveto p a b c d x y).plist = p.plist ∧ (curveto p a b c d x y).matrix = p.matrix ∧
      (curveto p a b c d x y).angle = p.angle := by
  simp only [curveto, h, gt_iff_lt, if_true, guarantee_capacity]
  split <;> exact ⟨rfl, rfl, rfl, rfl⟩

theorem arcto_spec (p : SVGPathparser) (args : List ℚ) (x y : ℚ) (h : 0 < p.size) :
    (arcto p args x y).elements = p.elements ++
        [Slot.cmd ARCTO, Slot.num (args.getD 0 0), Slot.num (args.getD 1 0),
         Slot.num (args.getD 2 0), Slot.num (args.getD 3 0), Slot.num (args.getD 4 0),
         Slot.num x, Slot.num y] ∧
      (arcto p args x y).plist = p.plist ∧ (arcto p args x y).matrix = p.matrix ∧
      (arcto p args x y).angle = p.angle := by
  simp only [arcto, h, gt_iff_lt, if_true, guarantee_capacity]
  split <;> exact ⟨rfl, rfl, rfl, rfl⟩

/-- The letters that `generateAbsoluteSVG` writes after the start point. -/
theorem parseLoop_letter (st : PState) (L : Char)
    (hL : L = 'V' ∨ L = 'H' ∨ L = 'L' ∨ L = 'T' ∨ L = 'Q' ∨ L = 'S' ∨ L = 'C' ∨ L = 'A')
    (hinit : st.initPoint = true) (hargs : st.args = []) (fuel : Nat) (s : List Char) :
    parseLoop (fuel + 1) st (L :: s) =
      parseLoop fuel { st with cmd := L, rargs := numberOfArguments L.toNat } s := by
  have hm : ¬ flagMode st := by
    simp [flagMode, PState.nargs, hargs]
  have hfacts : L ≠ Char.ofNat 0 ∧ space L = false ∧ L ≠ ',' ∧
      ¬ (L = '-' ∨ L = '+' ∨ L = '.' ∨ digit L = true) ∧ coordinate [L] = false ∧
      ¬ (L = 'M' ∨ L = 'm') ∧ ¬ (L = 'Z' ∨ L = 'z') ∧
      numberOfArguments L.toNat ≠ -1 := by
    rcases hL with rfl | rfl | rfl | rfl | rfl | rfl | rfl | rfl <;> decide
  obtain ⟨f0, f1, f2, f3, f4, f5, f6, f7⟩ := hfacts
  have hn := nextItem_letter st L s hm f0 f1 f2 f3
  have hd : deref (L :: s) ≠ Char.ofNat 0 := f0
  rw [parseLoop_step fuel st _ _ _ hd hn (by simp)]
  have hp : processItem st [L] =
      Except.ok { st with cmd := L, rargs := numberOfArguments L.toNat } := by
    have hdl : deref [L] = L := rfl
    simp [processItem, f4, processLetter, hdl, f5, hinit, f6, f7]
  rw [hp]

theorem FlagsOK_of_not_arc (cmd : Char) (h : ¬ (cmd = 'A' ∨ cmd = 'a')) :
    ∀ (toks : List (ℚ × Char)) (n : Nat), FlagsOK cmd n toks := by
  intro toks
  induction toks with
  | nil => intro n; trivial
  | cons t tl ih => intro n; exact ⟨fun hc => absurd hc.1 h, ih _⟩

/-- A letter followed by the numbers that complete its arguments. -/
theorem parseLoop_letter_numbers (st : PState) (L : Char)
    (hL : L = 'V' ∨ L = 'H' ∨ L = 'L' ∨ L = 'T' ∨ L = 'Q' ∨ L = 'S' ∨ L = 'C' ∨ L = 'A')
    (hinit : st.initPoint = true) (hargs : st.args = []) (toks : List (ℚ × Char))
    (hne : toks ≠ []) (hc : ∀ t ∈ toks, Canon t.1 ∧ (t.2 = ',' ∨ t.2 = ' '))
    (hlen : (toks.length : ℤ) = numberOfArguments L.toNat) (hle : toks.length ≤ 10)
    (hf : FlagsOK L 0 toks) (fuel : Nat) (rest : List Char) :
    parseLoop (fuel + toks.length + 1) st (L :: numsText toks ++ rest) =
      match execCommand { st with cmd := L, rargs := numberOfArguments L.toNat,
                                  args := toks.map Prod.fst } with
      | Except.error e => Except.error e
      | Except.ok st1 => parseLoop fuel st1 rest := by
  have hL0 : L ≠ Char.ofNat 0 := by
    rcases hL with rfl | rfl | rfl | rfl | rfl | rfl | rfl | rfl <;> decide
  have h1 := parseLoop_letter st L hL hinit hargs (fuel + toks.length) (numsText toks ++ rest)
  have e : L :: numsText toks ++ rest = L :: (numsText toks ++ rest) := rfl
  rw [e, h1]
  have hn0 : ({ st with cmd := L, rargs := numberOfArguments L.toNat } : PState).nargs = 0 := by
    simp [PState.nargs, hargs]
  have h2 := parseLoop_numbers toks { st with cmd := L, rargs := numberOfArguments L.toNat }
    fuel rest hne hc hL0 (by rw [hn0]; simpa using hlen) (by rw [hn0]; omega)
    (by rw [hn0]; exact hf)
  rw [h2]
  have hst : ({ ({ st with cmd := L, rargs := numberOfArguments L.toNat } : PState) with
      args := ({ st with cmd := L, rargs := numberOfArguments L.toNat } : PState).args ++
        toks.map Prod.fst } : PState) =
      { st with cmd := L, rargs := numberOfArguments L.toNat, args := toks.map Prod.fst } := by
    simp [hargs]
  rw [hst]
  try rfl

theorem exec_V (st : PState) (y : ℚ) (hcmd : st.cmd = 'V') (hargs : st.args = [y])
    (hs : 0 < st.p.size) :
    ∃ st1, execCommand st = Except.ok st1 ∧
      Appended st st1 [Slot.cmd LINETO, Slot.num st.cpx, Slot.num y] st.cpx y := by
  obtain ⟨a, b, c, d⟩ := lineto_spec st.p st.cpx y hs
  refine ⟨_, by simp [execCommand, hcmd]; rfl, ?_⟩
  simp [Appended, nsvg__pathVLineTo, hargs, a, b, c, d]

theorem exec_H (st : PState) (x : ℚ) (hcmd : st.cmd = 'H') (hargs : st.args = [x])
    (hs : 0 < st.p.size) :
    ∃ st1, execCommand st = Except.ok st1 ∧
      Appended st st1 [Slot.cmd LINETO, Slot.num x, Slot.num st.cpy] x st.cpy := by
  obtain ⟨a, b, c, d⟩ := lineto_spec st.p x st.cpy hs
  refine ⟨_, by simp [execCommand, hcmd]; rfl, ?_⟩
  simp [Appended, nsvg__pathHLineTo, hargs, a, b, c, d]

theorem exec_L (st : PState) (x y : ℚ) (hcmd : st.cmd = 'L') (hargs : st.args = [x, y])
    (hs : 0 < st.p.size) :
    ∃ st1, execCommand st = Except.ok st1 ∧
      Appended st st1 [Slot.cmd LINETO, Slot.num x, Slot.num y] x y := by
  obtain ⟨a, b, c, d⟩ := lineto_spec st.p x y hs
  refine ⟨_, by simp [execCommand, hcmd]; rfl, ?_⟩
  simp [Appended, nsvg__pathLineTo, hargs, a, b, c, d]

theorem exec_T (st : PState) (x y : ℚ) (hcmd : st.cmd = 'T') (hargs : st.args = [x, y])
    (hs : 0 < st.p.size) :
    ∃ st1, execCommand st = Except.ok st1 ∧
      Appended st st1 [Slot.cmd TQUADTO, Slot.num x, Slot.num y] x y := by
  obtain ⟨a, b, c, d⟩ := tquadto_spec st.p x y hs
  refine ⟨_, by simp [execCommand, hcmd]; rfl, ?_⟩
  simp [Appended, nsvg__pathQuadBezShortTo, hargs, a, b, c, d]

theorem exec_Q (st : PState) (x1 y1 x y : ℚ) (hcmd : st.cmd = 'Q')
    (hargs : st.args = [x1, y1, x, y]) (hs : 0 < st.p.size) :
    ∃ st1, execCommand st = Except.ok st1 ∧
      Appended st st1 [Slot.cmd QUADTO, Slot.num x1, Slot.num y1, Slot.num x, Slot.num y] x y := by
  obtain ⟨a, b, c, d⟩ := quadto_spec st.p x1 y1 x y hs
  refine ⟨_, by simp [execCommand, hcmd]; rfl, ?_⟩
  simp [Appended, nsvg__pathQuadBezTo, hargs, a, b, c, d]

theorem exec_S (st : PState) (x1 y1 x y : ℚ) (hcmd : st.cmd = 'S')
    (hargs : st.args = [x1, y1, x, y]) (hs : 0 < st.p.size) :
    ∃ st1, execCommand st = Except.ok st1 ∧
      Appended st st1 [Slot.cmd SCURVETO, Slot.num x1, Slot.num y1, Slot.num x, Slot.num y]
        x y := by
  obtain ⟨a, b, c, d⟩ := scurveto_spec st.p x1 y1 x y hs
  refine ⟨_, by simp [execCommand, hcmd]; rfl, ?_⟩
  simp [Appended, nsvg__pathCubicBezShortTo, hargs, a, b, c, d]

theorem exec_C (st : PState) (x1 y1 x2 y2 x y : ℚ) (hcmd : st.cmd = 'C')
    (hargs : st.args = [x1, y1, x2, y2, x, y]) (hs : 0 < st.p.size) :
    ∃ st1, execCommand st = Except.ok st1 ∧
      Appended st st1 [Slot.cmd CURVETO, Slot.num x1, Slot.num y1, Slot.num x2, Slot.num y2,
        Slot.num x, Slot.num y] x y := by
  obtain ⟨a, b, c, d⟩ := curveto_spec st.p x1 y1 x2 y2 x y hs
  refine ⟨_, by simp [execCommand, hcmd]; rfl, ?_⟩
  simp [Appended, nsvg__pathCubicBezTo, hargs, a, b, c, d]

theorem exec_A (st : PState) (rx ry rot fa fs x y : ℚ) (hcmd : st.cmd = 'A')
    (hargs : st.args = [rx, ry, rot, fa, fs, x, y]) (hs : 0 < st.p.size)
    (hnd : arcDegenerate |rx| |ry| (st.cpx - x) (st.cpy - y) = false) :
    ∃ st1, execCommand st = Except.ok st1 ∧
      Appended st st1 [Slot.cmd ARCTO, Slot.num rx, Slot.num ry, Slot.num rot, Slot.num fa,
        Slot.num fs, Slot.num x, Slot.num y] x y := by
  obtain ⟨a, b, c, d⟩ := arcto_spec st.p [rx, ry, rot, fa, fs, x, y] x y hs
  refine ⟨_, by simp [execCommand, hcmd]; rfl, ?_⟩
  simp [Appended, nsvg__pathArcTo, hargs, hnd, a, b, c, d]

theorem ready_of_appended {st st2 st1 : PState} {elems slots : List Slot} {cx cy x y : ℚ}
    {pl : List SVGpath} (hR : Ready st elems cx cy pl) (hp : st2.p = st.p)
    (hi : st2.initPoint = st.initPoint) (hc : st2.closedFlag = st.closedFlag)
    (hA : Appended st2 st1 slots x y) : Ready st1 (elems ++ slots) x y pl := by
  obtain ⟨r1, r2, r3, r4, r5, r6, r7, r8, r9⟩ := hR
  obtain ⟨a1, a2, a3, a4, a5, a6, a7, a8, a9⟩ := hA
  rw [hp] at a3 a6 a7 a8
  exact ⟨a1, by rw [a2, hi, r2], by rw [a3, r3], a4, a5, by rw [a6, r6], by rw [a7, r7],
    by rw [a8, r8], by rw [a9, hc, r9]⟩

theorem encodePath_snoc (sx sy : ℚ) (pre : List Command) (c : Command) :
    encodePath sx sy (pre ++ [c]) = encodePath sx sy pre ++ c.encode := by
  simp [encodePath, encodeAll_append, encodeAll]

/-- The parser on the text that `generateAbsoluteSVG` writes for one group of
canonical values: it appends the same group and moves the current point to
its end point, in one pass of the loop for the letter and one for each
number. -/
theorem parseLoop_command (st : PState) (sx sy : ℚ) (pre : List Command) (c : Command)
    (cx cy : ℚ) (pl : List SVGpath) (hR : Ready st (encodePath sx sy pre) cx cy pl)
    (hv : ∀ v ∈ c.values, Canon v) (ha : c.arcOK cx cy) :
    ∃ st1, Ready st1 (encodePath sx sy (pre ++ [c])) c.endPoint.1 c.endPoint.2 pl ∧
      c.nextPoint cx cy = c.endPoint ∧
      ∀ (fuel : Nat) (rest : List Char),
        parseLoop (fuel + (c.tokens cx cy).length + 1) st (c.text cx cy ++ rest) =
          parseLoop fuel st1 rest := by
  have hR' := hR
  obtain ⟨r1, r2, r3, r4, r5, -⟩ := hR'
  have hs : 0 < st.p.size := by
    simp [SVGPathparser.size, r3, encodePath]
  have sepc : ∀ q : ℚ, Canon q → Canon q ∧ ((',' : Char) = ',' ∨ (',' : Char) = ' ') :=
    fun q h => ⟨h, Or.inl rfl⟩
  have sepb : ∀ q : ℚ, Canon q → Canon q ∧ ((' ' : Char) = ',' ∨ (' ' : Char) = ' ') :=
    fun q h => ⟨h, Or.inr rfl⟩
  rw [encodePath_snoc]
  cases c with
  | lineTo x y =>
    have hx : Canon x := hv x (by simp [Command.values])
    have hy : Canon y := hv y (by simp [Command.values])
    by_cases h1 : dig3 x = cx
    · have hxc : x = cx := by rw [← hx.1]; exact h1
      obtain ⟨st1, he, hA⟩ := exec_V
              { st with cmd := 'V', rargs := numberOfArguments ('V').toNat, args := [y] }
              y rfl rfl hs
      refine ⟨st1, ?_, ?_, fun fuel rest => ?_⟩
      · have := ready_of_appended hR rfl rfl rfl hA
        simpa [Command.encode, Command.endPoint, r4, hxc] using this
      · subst hxc
        simp [Command.nextPoint, Command.endPoint, hx.1, hy.1]
      · have := parseLoop_letter_numbers st 'V' (by simp) r2 r1 [(y, ' ')] (by simp)
          (by intro t ht; simp at ht; subst ht; exact sepb y hy) (by simp only [List.length_cons, List.length_nil]; decide) (by simp)
          (FlagsOK_of_not_arc _ (by decide) _ _) fuel rest
        simp only [List.map_cons, List.map_nil, he] at this
        simpa [Command.text, Command.letter, Command.tokens, h1, hy.1] using this
    · have hxc : ¬ x = cx := by rw [← hx.1]; exact h1
      by_cases h2 : dig3 y = cy
      · have hyc : y = cy := by rw [← hy.1]; exact h2
        obtain ⟨st1, he, hA⟩ := exec_H
              { st with cmd := 'H', rargs := numberOfArguments ('H').toNat, args := [x] }
              x rfl rfl hs
        refine ⟨st1, ?_, ?_, fun fuel rest => ?_⟩
        · have := ready_of_appended hR rfl rfl rfl hA
          simpa [Command.encode, Command.endPoint, r5, hyc] using this
        · subst hyc
          simp [Command.nextPoint, Command.endPoint, hx.1, hy.1, hxc]
        · have := parseLoop_letter_numbers st 'H' (by simp) r2 r1 [(x, ' ')] (by simp)
            (by intro t ht; simp at ht; subst ht; exact sepb x hx) (by simp only [List.length_cons, List.length_nil]; decide) (by simp)
            (FlagsOK_of_not_arc _ (by decide) _ _) fuel rest
          simp only [List.map_cons, List.map_nil, he] at this
          have hyy : dig3 cy = cy := by rw [← hyc]; exact hy.1
          simpa [Command.text, Command.letter, Command.tokens, hxc, hyc, hx.1, hyy] using this
      · have hyc : ¬ y = cy := by rw [← hy.1]; exact h2
        obtain ⟨st1, he, hA⟩ := exec_L
              { st with cmd := 'L', rargs := numberOfArguments ('L').toNat, args := [x, y] }
              x y rfl rfl hs
        refine ⟨st1, ?_, ?_, fun fuel rest => ?_⟩
        · have := ready_of_appended hR rfl rfl rfl hA
          simpa [Command.encode, Command.endPoint] using this
        · simp [Command.nextPoint, Command.endPoint, hxc, hyc, hx.1, hy.1]
        · have := parseLoop_letter_numbers st 'L' (by simp) r2 r1 [(x, ','), (y, ' ')] (by simp)
            (by
              intro t ht
              simp at ht
              rcases ht with rfl | rfl
              · exact sepc x hx
              · exact sepb y hy) (by simp only [List.length_cons, List.length_nil]; decide) (by simp)
            (FlagsOK_of_not_arc _ (by decide) _ _) fuel rest
          simp only [List.map_cons, List.map_nil, he] at this
          simpa [Command.text, Command.letter, Command.tokens, hxc, hyc, hx.1, hy.1] using this
  | smoothQuadTo x y =>
    have hx : Canon x := hv x (by simp [Command.values])
    have hy : Canon y := hv y (by simp [Command.values])
    obtain ⟨st1, he, hA⟩ := exec_T
              { st with cmd := 'T', rargs := numberOfArguments ('T').toNat, args := [x, y] }
              x y rfl rfl hs
    refine ⟨st1, ?_, ?_, fun fuel rest => ?_⟩
    · have := ready_of_appended hR rfl rfl rfl hA
      simpa [Command.encode, Command.endPoint] using this
    · simp [Command.nextPoint, Command.endPoint, hx.1, hy.1]
    · have := parseLoop_letter_numbers st 'T' (by simp) r2 r1 [(x, ','), (y, ' ')] (by simp)
        (by
          intro t ht
          simp at ht
          rcases ht with rfl | rfl
          · exact sepc x hx
          · exact sepb y hy) (by simp only [List.length_cons, List.length_nil]; decide) (by simp)
        (FlagsOK_of_not_arc _ (by decide) _ _) fuel rest
      simp only [List.map_cons, List.map_nil, he] at this
      simpa [Command.text, Command.letter, Command.tokens, hx.1, hy.1] using this
  | quadTo x1 y1 x y =>
    have hx1 : Canon x1 := hv x1 (by simp [Command.values])
    have hy1 : Canon y1 := hv y1 (by simp [Command.values])
    have hx : Canon x := hv x (by simp [Command.values])
    have hy : Canon y := hv y (by simp [Command.values])
    obtain ⟨st1, he, hA⟩ := exec_Q
              { st with cmd := 'Q', rargs := numberOfArguments ('Q').toNat, args := [x1, y1, x, y] }
              x1 y1 x y rfl rfl hs
    refine ⟨st1, ?_, ?_, fun fuel rest => ?_⟩
    · have := ready_of_appended hR rfl rfl rfl hA
      simpa [Command.encode, Command.endPoint] using this
    · simp [Command.nextPoint, Command.endPoint, hx.1, hy.1]
    · have := parseLoop_letter_numbers st 'Q' (by simp) r2 r1
        [(x1, ','), (y1, ' '), (x, ','), (y, ' ')] (by simp)
        (by
          intro t ht
          simp at ht
          rcases ht with rfl | rfl | rfl | rfl
          · exact sepc x1 hx1
          · exact sepb y1 hy1
          · exact sepc x hx
          · exact sepb y hy) (by simp only [List.length_cons, List.length_nil]; decide) (by simp)
        (FlagsOK_of_not_arc _ (by decide) _ _) fuel rest
      simp only [List.map_cons, List.map_nil, he] at this
      simpa [Command.text, Command.letter, Command.tokens, hx1.1, hy1.1, hx.1, hy.1] using this
  | smoothCurveTo x1 y1 x y =>
    have hx1 : Canon x1 := hv x1 (by simp [Command.values])
    have hy1 : Canon y1 := hv y1 (by simp [Command.values])
    have hx : Canon x := hv x (by simp [Command.values])
    have hy : Canon y := hv y (by simp [Command.values])
    obtain ⟨st1, he, hA⟩ := exec_S
              { st with cmd := 'S', rargs := numberOfArguments ('S').toNat, args := [x1, y1, x, y] }
              x1 y1 x y rfl rfl hs
    refine ⟨st1, ?_, ?_, fun fuel rest => ?_⟩
    · have := ready_of_appended hR rfl rfl rfl hA
      simpa [Command.encode, Command.endPoint] using this
    · simp [Command.nextPoint, Command.endPoint, hx.1, hy.1]
    · have := parseLoop_letter_numbers st 'S' (by simp) r2 r1
        [(x1, ','), (y1, ' '), (x, ','), (y, ' ')] (by simp)
        (by
          intro t ht
          simp at ht
          rcases ht with rfl | rfl | rfl | rfl
          · exact sepc x1 hx1
          · exact sepb y1 hy1
          · exact sepc x hx
          · exact sepb y hy) (by simp only [List.length_cons, List.length_nil]; decide) (by simp)
        (FlagsOK_of_not_arc _ (by decide) _ _) fuel rest
      simp only [List.map_cons, List.map_nil, he] at this
      simpa [Command.text, Command.letter, Command.tokens, hx1.1, hy1.1, hx.1, hy.1] using this
  | curveTo x1 y1 x2 y2 x y =>
    have hx1 : Canon x1 := hv x1 (by simp [Command.values])
    have hy1 : Canon y1 := hv y1 (by simp [Command.values])
    have hx2 : Canon x2 := hv x2 (by simp [Command.values])
    have hy2 : Canon y2 := hv y2 (by simp [Command.values])
    have hx : Canon x := hv x (by simp [Command.values])
    have hy : Canon y := hv y (by simp [Command.values])
    obtain ⟨st1, he, hA⟩ := exec_C
              { st with cmd := 'C', rargs := numberOfArguments ('C').toNat, args := [x1, y1, x2, y2, x, y] }
              x1 y1 x2 y2 x y rfl rfl hs
    refine ⟨st1, ?_, ?_, fun fuel rest => ?_⟩
    · have := ready_of_appended hR rfl rfl rfl hA
      simpa [Command.encode, Command.endPoint] using this
    · simp [Command.nextPoint, Command.endPoint, hx.1, hy.1]
    · have := parseLoop_letter_numbers st 'C' (by simp) r2 r1
        [(x1, ','), (y1, ' '), (x2, ','), (y2, ' '), (x, ','), (y, ' ')] (by simp)
        (by
          intro t ht
          simp at ht
          rcases ht with rfl | rfl | rfl | rfl | rfl | rfl
          · exact sepc x1 hx1
          · exact sepb y1 hy1
          · exact sepc x2 hx2
          · exact sepb y2 hy2
          · exact sepc x hx
          · exact sepb y hy) (by simp only [List.length_cons, List.length_nil]; decide) (by simp)
        (FlagsOK_of_not_arc _ (by decide) _ _) fuel rest
      simp only [List.map_cons, List.map_nil, he] at this
      simpa [Command.text, Command.letter, Command.tokens, hx1.1, hy1.1, hx2.1, hy2.1, hx.1,
        hy.1] using this
  | arcTo rx ry rot fa fs x y =>
    have hrx : Canon rx := hv rx (by simp [Command.values])
    have hry : Canon ry := hv ry (by simp [Command.values])
    have hrot : Canon rot := hv rot (by simp [Command.values])
    have hfa : Canon fa := hv fa (by simp [Command.values])
    have hfs : Canon fs := hv fs (by simp [Command.values])
    have hx : Canon x := hv x (by simp [Command.values])
    have hy : Canon y := hv y (by simp [Command.values])
    obtain ⟨a1, a2, a3⟩ := ha
    obtain ⟨st1, he, hA⟩ := exec_A
              { st with cmd := 'A', rargs := numberOfArguments ('A').toNat, args := [rx, ry, rot, fa, fs, x, y] }
              rx ry rot fa fs x y rfl rfl hs (by simpa [r4, r5] using a3)
    refine ⟨st1, ?_, ?_, fun fuel rest => ?_⟩
    · have := ready_of_appended hR rfl rfl rfl hA
      simpa [Command.encode, Command.endPoint] using this
    · simp [Command.nextPoint, Command.endPoint, hx.1, hy.1]
    · have := parseLoop_letter_numbers st 'A' (by simp) r2 r1
        [(rx, ','), (ry, ' '), (rot, ' '), (fa, ' '), (fs, ' '), (x, ','), (y, ' ')] (by simp)
        (by
          intro t ht
          simp at ht
          rcases ht with rfl | rfl | rfl | rfl | rfl | rfl | rfl
          · exact sepc rx hrx
          · exact sepb ry hry
          · exact sepb rot hrot
          · exact sepb fa hfa
          · exact sepb fs hfs
          · exact sepc x hx
          · exact sepb y hy) (by simp only [List.length_cons, List.length_nil]; decide) (by simp)
        (by simp [FlagsOK, a1, a2]) fuel rest
      simp only [List.map_cons, List.map_nil, he] at this
      simpa [Command.text, Command.letter, Command.tokens, hrx.1, hry.1, hrot.1, hfa.1, hfs.1,
        hx.1, hy.1] using this

theorem numsText_length (toks : List (ℚ × Char)) : toks.length ≤ (numsText toks).length := by
  induction toks with
  | nil => simp [numsText]
  | cons t tl ih =>
    simp only [numsText, List.length_cons, List.length_append]
    omega

/-- The parser on the text that `generateAbsoluteSVG` writes for a sequence
of groups of canonical values: it appends the same groups. -/
theorem parseLoop_commands (cs : List Command) :
    ∀ (st : PState) (sx sy : ℚ) (pre : List Command) (cx cy : ℚ) (pl : List SVGpath),
      Ready st (encodePath sx sy pre) cx cy pl → cmdsOK cx cy cs →
      ∃ (st1 : PState) (n : Nat) (ex ey : ℚ),
        Ready st1 (encodePath sx sy (pre ++ cs)) ex ey pl ∧
        n ≤ (cmdsText cx cy cs).length ∧
        ∀ (fuel : Nat) (rest : List Char),
          parseLoop (fuel + n) st (cmdsText cx cy cs ++ rest) = parseLoop fuel st1 rest := by
  induction cs with
  | nil =>
    intro st sx sy pre cx cy pl hR _
    exact ⟨st, 0, cx, cy, by simpa using hR, by simp, fun fuel rest => by simp [cmdsText]⟩
  | cons c cs ih =>
    intro st sx sy pre cx cy pl hR hok
    obtain ⟨hv, ha, hrest⟩ := hok
    obtain ⟨st1, hR1, hnp, hstep⟩ := parseLoop_command st sx sy pre c cx cy pl hR hv ha
    obtain ⟨st2, n, ex, ey, hR2, hn, hrun⟩ := ih st1 sx sy (pre ++ [c]) _ _ pl hR1 hrest
    refine ⟨st2, n + ((c.tokens cx cy).length + 1), ex, ey, by simpa using hR2, ?_,
      fun fuel rest => ?_⟩
    · simp only [cmdsText, hnp, List.length_append, Command.text, List.length_cons]
      have := numsText_length (c.tokens cx cy)
      omega
    · have e : fuel + (n + ((c.tokens cx cy).length + 1)) =
          (fuel + n) + (c.tokens cx cy).length + 1 := by omega
      rw [e]
      simp only [cmdsText, List.append_assoc]
      rw [hstep, hnp, hrun]

theorem finishedPath_identity (sx sy : ℚ) (cs : List Command) :
    finishedPath identityMatrix 0 sx sy cs false = SVGpath.mk (encodePath sx sy cs) false := by
  simp [finishedPath, applyToPoint_identity, map_transform_identity]

/-- The commit at the letter `M` and at the end of `nsvg__parsePath`. -/
theorem idle_commit (st : PState) (pl : List SVGpath) (hI : Idle st pl) :
    ∃ q, (if st.p.size > 0 then nsvg__addPath st.p st.closedFlag else Except.ok st.p) =
        Except.ok q ∧
      q.plist = pl ∧ q.matrix = identityMatrix ∧ q.angle = 0 := by
  obtain ⟨-, hm, ha, hc, h | ⟨sx, sy, cs, hne, he, hp⟩⟩ := hI
  · refine ⟨st.p, ?_, h.2, hm, ha⟩
    simp [SVGPathparser.size, h.1]
  · have hs : st.p.size > 0 := by simp [SVGPathparser.size, he, encodePath]
    rw [if_pos hs, hc, addPath_encodePath st.p sx sy cs false he hne]
    refine ⟨_, rfl, ?_, hm, ha⟩
    simp only [hm, ha, finishedPath_identity]
    exact hp

theorem ready_idle {st : PState} {sx sy ex ey : ℚ} {cs : List Command} {pl : List SVGpath}
    (hR : Ready st (encodePath sx sy cs) ex ey pl) (hne : cs ≠ []) :
    Idle st (SVGpath.mk (encodePath sx sy cs) false :: pl) := by
  obtain ⟨r1, -, r3, -, -, r6, r7, r8, r9⟩ := hR
  exact ⟨r1, r7, r8, r9, Or.inr ⟨sx, sy, cs, hne, r3, by rw [r6]⟩⟩

/-- The letter `M` between two subpaths: the raw array is committed and
emptied. -/
theorem parseLoop_M (st : PState) (pl : List SVGpath) (hI : Idle st pl) :
    ∃ st1 : PState, st1.cmd = 'M' ∧ st1.args = [] ∧ st1.rargs = 2 ∧ st1.p.elements = [] ∧
      st1.p.plist = pl ∧ st1.p.matrix = identityMatrix ∧ st1.p.angle = 0 ∧
      st1.closedFlag = false ∧
      ∀ (fuel : Nat) (s : List Char),
        parseLoop (fuel + 1) st ('M' :: s) = parseLoop fuel st1 s := by
  obtain ⟨q, hq, q1, q2, q3⟩ := idle_commit st pl hI
  have hargs := hI.1
  have hm : ¬ flagMode st := by
    simp [flagMode, PState.nargs, hargs]
  refine ⟨{ st with cmd := 'M', p := nsvg__resetPath q, closedFlag := false, args := [],
                    rargs := 2 }, rfl, rfl, rfl, rfl, ?_, ?_, ?_, rfl, fun fuel s => ?_⟩
  · simpa [nsvg__resetPath] using q1
  · simpa [nsvg__resetPath] using q2
  · simpa [nsvg__resetPath] using q3
  · have hn := nextItem_letter st 'M' s hm (by decide) (by decide) (by decide) (by decide)
    have hd : deref ('M' :: s) ≠ Char.ofNat 0 := by
      show 'M' ≠ Char.ofNat 0
      decide
    rw [parseLoop_step fuel st _ _ _ hd hn (by simp)]
    have hc : coordinate ['M'] = false := by decide
    have hdl : deref ['M'] = 'M' := rfl
    have hna : numberOfArguments 77 = 2 := by decide
    have hp : processItem st ['M'] =
        Except.ok { st with cmd := 'M', p := nsvg__resetPath q, closedFlag := false, args := [],
                            rargs := 2 } := by
      simp [processItem, hc, processLetter, hdl, hq, hna]
    rw [hp]

/-- The start point after the letter `M`. -/
theorem parseLoop_start (st : PState) (pl : List SVGpath) (sx sy : ℚ) (hcmd : st.cmd = 'M')
    (hargs : st.args = []) (hr : st.rargs = 2) (he : st.p.elements = [])
    (hpl : st.p.plist = pl) (hm : st.p.matrix = identityMatrix) (ha : st.p.angle = 0)
    (hcl : st.closedFlag = false) (hx : Canon sx) (hy : Canon sy) :
    ∃ st1 : PState, Ready st1 (encodePath sx sy []) sx sy pl ∧
      ∀ (fuel : Nat) (rest : List Char),
        parseLoop (fuel + 2) st (fmtPair sx sy ++ rest) = parseLoop fuel st1 rest := by
  obtain ⟨q, hq, q1, q2, q3, q4⟩ := moveto_empty st.p sx sy he
  have hex : ∃ st1, execCommand { st with args := st.args ++ [sx, sy] } = Except.ok st1 ∧
      Ready st1 (encodePath sx sy []) sx sy pl := by
    refine ⟨_, by simp [execCommand, hcmd, hargs, nsvg__pathMoveTo, hq]; rfl, ?_⟩
    simp [Ready, q1, q2, q3, q4, hpl, hm, ha, hcl, encodePath, encodeAll]
  obtain ⟨st1, hex, hR⟩ := hex
  refine ⟨st1, hR, fun fuel rest => ?_⟩
  have := parseLoop_numbers [(sx, ','), (sy, ' ')] st fuel rest (by simp)
    (by
      intro t ht
      simp at ht
      rcases ht with rfl | rfl
      · exact ⟨hx, Or.inl rfl⟩
      · exact ⟨hy, Or.inr rfl⟩)
    (by rw [hcmd]; decide) (by simp [PState.nargs, hargs, hr]) (by simp [PState.nargs, hargs])
    (FlagsOK_of_not_arc _ (by rw [hcmd]; decide) _ _)
  simp only [List.map_cons, List.map_nil, hex] at this
  have et : fmtPair sx sy ++ rest = numsText [(sx, ','), (sy, ' ')] ++ rest := by
    simp [fmtPair, numsText]
  rw [et]
  exact this

theorem absSubpath_encodePath (sp : SVGpath) (sx sy : ℚ) (cs : List Command)
    (h : sp.elements = encodePath sx sy cs) :
    absSubpath sp = Except.ok (subpathText sx sy cs) := by
  have hl : (encodeAll cs).length < sp.size + 1 := by
    simp [SVGpath.size, h, encodePath]
    omega
  simp only [absSubpath, h, encodePath, absLoop_encodeAll cs _ _ _ hl, subpathText,
    List.singleton_append, List.cons_append, List.append_assoc, List.nil_append]

theorem fmtPair_length (x y : ℚ) : 2 ≤ (fmtPair x y).length := by
  simp only [fmtPair, List.length_append, List.length_cons, List.length_nil]
  omega

/-- The parser on the text that `generateAbsoluteSVG` writes for one subpath
of canonical values: the raw array is committed and then holds that
subpath. -/
theorem parseLoop_subpath (st : PState) (pl : List SVGpath) (hI : Idle st pl) (sx sy : ℚ)
    (cs : List Command) (hne : cs ≠ []) (hx : Canon sx) (hy : Canon sy)
    (hok : cmdsOK sx sy cs) :
    ∃ (st1 : PState) (n : Nat),
      Idle st1 (SVGpath.mk (encodePath sx sy cs) false :: pl) ∧
      n ≤ (subpathText sx sy cs).length ∧
      ∀ (fuel : Nat) (rest : List Char),
        parseLoop (fuel + n) st (subpathText sx sy cs ++ rest) = parseLoop fuel st1 rest := by
  obtain ⟨st1, m1, m2, m3, m4, m5, m6, m7, m8, hM⟩ := parseLoop_M st pl hI
  obtain ⟨st2, hR2, hS⟩ := parseLoop_start st1 pl sx sy m1 m2 m3 m4 m5 m6 m7 m8 hx hy
  obtain ⟨st3, n, ex, ey, hR3, hn, hC⟩ := parseLoop_commands cs st2 sx sy [] sx sy pl hR2 hok
  rw [List.nil_append] at hR3
  refine ⟨st3, n + 2 + 1, ready_idle hR3 hne, ?_, fun fuel rest => ?_⟩
  · have := fmtPair_length sx sy
    simp only [subpathText, hx.1, hy.1, List.length_cons, List.length_append]
    omega
  · have e : fuel + (n + 2 + 1) = (fuel + n + 2) + 1 := by omega
    rw [e]
    simp only [subpathText, hx.1, hy.1, List.cons_append, List.append_assoc]
    rw [hM, hS, hC]

/-- The parser on the text that `generateAbsoluteSVG` writes for a list of
subpaths of canonical values: the subpaths are committed one after the
other, so the last one written is the head of the list of the parser. -/
theorem parseLoop_path (sps : List SVGpath) :
    ∀ (st : PState) (pl : List SVGpath), Idle st pl → (∀ sp ∈ sps, SubpathOK sp) →
      ∃ (text : List Char) (st1 : PState) (n : Nat),
        generateAbsoluteSVG sps = Except.ok text ∧
        Idle st1 (sps.reverse.map SVGpath.unclosed ++ pl) ∧ n ≤ text.length ∧
        ∀ (fuel : Nat) (rest : List Char),
          parseLoop (fuel + n) st (text ++ rest) = parseLoop fuel st1 rest := by
  induction sps with
  | nil =>
    intro st pl hI _
    exact ⟨[], st, 0, rfl, by simpa using hI, by simp, fun fuel rest => by simp⟩
  | cons sp sps ih =>
    intro st pl hI hok
    obtain ⟨sx, sy, cs, he, hne, hx, hy, hc⟩ := hok sp (List.mem_cons_self _ _)
    obtain ⟨st1, n1, hI1, hn1, h1⟩ := parseLoop_subpath st pl hI sx sy cs hne hx hy hc
    obtain ⟨text, st2, n2, hg, hI2, hn2, h2⟩ :=
      ih st1 _ hI1 (fun s hs => hok s (List.mem_cons_of_mem _ hs))
    refine ⟨subpathText sx sy cs ++ text, st2, n2 + n1, ?_, ?_, ?_, fun fuel rest => ?_⟩
    · simp [generateAbsoluteSVG, absSubpath_encodePath sp sx sy cs he, hg]
    · have eu : sp.unclosed = SVGpath.mk (encodePath sx sy cs) false := by
        simp [SVGpath.unclosed, he]
      simpa [eu] using hI2
    · simp only [List.length_append]
      omega
    · have e : fuel + (n2 + n1) = (fuel + n2) + n1 := by omega
      rw [e, List.append_assoc, h1, h2]

theorem idle_initialState : Idle (initialState parser0) [] := by
  simp [Idle, initialState, parser0, createParser, nsvg__resetPath]

/-- C1 as stated fails. With two subpaths, `nsvg__addPath` puts each finished
subpath at the head of the list, so the Path of `M0,0 L1,1 M2,2 L3,3` starts
with the subpath from (2,2); its text is `M2,2 L3,3 M0,0 L1,1 `, and parsing
that text gives the two subpaths in the opposite order. With the start point
0.0001 the text holds the rounded value 0, so the parsed text has another
coordinate value than the Path it was written from. -/
theorem roundtrip_absolute_counterexample :
    (nsvg__parsePath parser0 "M0,0 L1,1 M2,2 L3,3".toList).map SVGPathparser.plist =
      Except.ok [SVGpath.mk [Slot.num 2, Slot.num 2, Slot.cmd LINETO, Slot.num 3, Slot.num 3] false,
        SVGpath.mk [Slot.num 0, Slot.num 0, Slot.cmd LINETO, Slot.num 1, Slot.num 1] false] ∧
    parseAbs parser0 "M0,0 L1,1 M2,2 L3,3".toList = Except.ok "M2,2 L3,3 M0,0 L1,1 ".toList ∧
    (nsvg__parsePath parser0 "M2,2 L3,3 M0,0 L1,1 ".toList).map SVGPathparser.plist =
      Except.ok [SVGpath.mk [Slot.num 0, Slot.num 0, Slot.cmd LINETO, Slot.num 1, Slot.num 1] false,
        SVGpath.mk [Slot.num 2, Slot.num 2, Slot.cmd LINETO, Slot.num 3, Slot.num 3] false] ∧
    (nsvg__parsePath parser0 "M2,2 L3,3 M0,0 L1,1 ".toList).map SVGPathparser.plist ≠
      (nsvg__parsePath parser0 "M0,0 L1,1 M2,2 L3,3".toList).map SVGPathparser.plist ∧
    (nsvg__parsePath parser0 "M0.0001,0 L1,1".toList).map SVGPathparser.plist =
      Except.ok [SVGpath.mk [Slot.num (1 / 10000), Slot.num 0, Slot.cmd LINETO, Slot.num 1,
        Slot.num 1] false] ∧
    parseAbs parser0 "M0.0001,0 L1,1".toList = Except.ok "M0,0 L1,1 ".toList ∧
    (nsvg__parsePath parser0 "M0,0 L1,1 ".toList).map SVGPathparser.plist =
      Except.ok [SVGpath.mk [Slot.num 0, Slot.num 0, Slot.cmd LINETO, Slot.num 1, Slot.num 1]
        false] := by
  decide!

/-- C1 (amended): round trip under the identity matrix and angle 0. Let
`path` be the Path of `nsvg__parsePath(d)` and let every subpath of it be
well formed with at least one group, hold only values `v` with
`dig3 v = v` and `|v| < 1000`, and hold only arcs with flags 0 or 1 that
`nsvg__pathArcTo` does not take for a line. Then `generateAbsoluteSVG`
writes a text for `path`, and parsing that text yields the subpaths of `path`
in the opposite order, each with the same command codes and the same
coordinate values at the same positions and with the closed flag clear. For
a Path of one open subpath the parsed text yields the Path itself. -/
theorem roundtrip_absolute (d : List Char) (path : List SVGpath)
    (hd : (nsvg__parsePath parser0 d).map SVGPathparser.plist = Except.ok path)
    (hok : ∀ sp ∈ path, SubpathOK sp) :
    ∃ text : List Char, generateAbsoluteSVG path = Except.ok text ∧
      parseAbs parser0 d = Except.ok text ∧
      (nsvg__parsePath parser0 text).map SVGPathparser.plist =
        Except.ok (path.reverse.map SVGpath.unclosed) := by
  obtain ⟨text, st1, n, hg, hI, hn, hrun⟩ :=
    parseLoop_path path (initialState parser0) [] idle_initialState hok
  refine ⟨text, hg, ?_, ?_⟩
  · unfold parseAbs
    cases hq : nsvg__parsePath parser0 d with
    | error e => rw [hq] at hd; simp [Except.map] at hd
    | ok q =>
      rw [hq] at hd
      simp only [Except.map, Except.ok.injEq] at hd
      simp only [hd, hg]
  · have h1 : parseLoop (1 + n) (initialState parser0) text = Except.ok st1 := by
      have := hrun 1 []
      rw [List.append_nil] at this
      rw [this]
      simp [parseLoop, deref]
    have h2 : parseLoop (text.length + 1) (initialState parser0) text = Except.ok st1 := by
      have := parseLoop_mono (1 + n) (initialState parser0) text st1 (text.length - n) h1
      have e : 1 + n + (text.length - n) = text.length + 1 := by omega
      rw [e] at this
      exact this
    obtain ⟨q, hq, q1, -, -⟩ := idle_commit st1 _ hI
    have hq2 : (if st1.p.size ≠ 0 then nsvg__addPath st1.p st1.closedFlag else Except.ok st1.p) =
        Except.ok q := by
      by_cases h0 : st1.p.size = 0
      · rw [if_neg (by omega)] at hq
        rw [if_neg (by simpa using h0)]
        exact hq
      · rw [if_pos (by omega)] at hq
        rw [if_pos h0]
        exact hq
    simp only [nsvg__parsePath, h2, hq2, Except.map, q1, List.append_nil]

theorem roundtrip_absolute_witness :
    ∃ text : List Char, generateAbsoluteSVG examplePath = Except.ok text ∧
      parseAbs parser0 exampleData = Except.ok text ∧
      (nsvg__parsePath parser0 text).map SVGPathparser.plist =
        Except.ok (examplePath.reverse.map SVGpath.unclosed) :=
  roundtrip_absolute exampleData examplePath (by decide!) (by
    intro sp hsp
    simp only [examplePath, List.mem_cons, List.mem_nil_iff, or_false] at hsp
    rcases hsp with rfl | rfl
    · exact ⟨20, 20, [Command.curveTo 21 21 22 20 23 21, Command.smoothCurveTo 24 22 25 21,
        Command.smoothQuadTo 30 30], rfl, by simp, by decide!, by decide!, by decide!⟩
    · exact ⟨0, 0, [Command.lineTo 10 0, Command.quadTo 15 5 10 10,
        Command.arcTo 5 5 0 1 0 0 0, Command.lineTo 0 0], rfl, by simp, by decide!, by decide!,
        by decide!⟩)

theorem numberOfArguments_out_of_range (cmd : Int) (h : cmd < 65 ∨ 122 < cmd) :
    numberOfArguments cmd = -1 := by
  unfold numberOfArguments
  simp only
  rw [if_pos (by omega)]

/-- C19 (required argument counts): `numberOfArguments` returns 7 for A/a, 6
for C/c, 4 for S/s and Q/q, 2 for T/t, L/l and M/m, 1 for H/h and V/v, 0 for
Z/z, and -1 for every other character code: the other letters, the six
characters between `Z` and `a`, and every code below `A` or above `z`. -/
theorem required_argument_counts (cmd : Int) :
    numberOfArguments cmd =
      if cmd = ('A').toNat ∨ cmd = ('a').toNat then 7
      else if cmd = ('C').toNat ∨ cmd = ('c').toNat then 6
      else if cmd = ('S').toNat ∨ cmd = ('s').toNat ∨ cmd = ('Q').toNat ∨ cmd = ('q').toNat then 4
      else if cmd = ('T').toNat ∨ cmd = ('t').toNat ∨ cmd = ('L').toNat ∨ cmd = ('l').toNat ∨
          cmd = ('M').toNat ∨ cmd = ('m').toNat then 2
      else if cmd = ('H').toNat ∨ cmd = ('h').toNat ∨ cmd = ('V').toNat ∨ cmd = ('v').toNat then 1
      else if cmd = ('Z').toNat ∨ cmd = ('z').toNat then 0
      else -1 := by
  by_cases h : cmd < 65 ∨ 122 < cmd
  · rw [numberOfArguments_out_of_range cmd h]
    simp only [Char.reduceToNat, Nat.cast_ofNat]
    repeat rw [if_neg (by omega)]
  · have h1 : 65 ≤ cmd := by omega
    have h2 : cmd ≤ 122 := by omega
    interval_cases cmd <;> decide

theorem skipSeparators_prefix (seps : List Char) (c : Char) (rest : List Char)
    (hseps : ∀ d ∈ seps, d ≠ Char.ofNat 0 ∧ (space d = true ∨ d = ','))
    (h1 : space c = false) (h2 : c ≠ ',') :
    skipSeparators (seps ++ c :: rest) = c :: rest := by
  induction seps with
  | nil => exact skipSeparators_other c rest h1 h2
  | cons d seps ih =>
    have hd := hseps d (List.mem_cons_self _ _)
    rw [List.cons_append, skipSeparators, if_pos hd]
    exact ih (fun e he => hseps e (List.mem_cons_of_mem _ he))

/-- C20 (arc-flag mode): when the active command is `A` or `a` and 3 or 4
arguments have been collected, and the next character after a run of
whitespace and commas is `0` or `1`, the scanner returns that one character
as the item and leaves the cursor right behind it, whatever follows; the loop
body stores it as the argument 0 or 1. The text `M0,0 A5,5 0 1110,20` parses
to the start point (0,0) followed by one arc with radii 5 and 5, rotation 0,
both flags 1 and end point (10,20). -/
theorem arc_flag_mode (st : PState) (seps : List Char) (c : Char) (rest : List Char)
    (hm : flagMode st)
    (hseps : ∀ d ∈ seps, d ≠ Char.ofNat 0 ∧ (space d = true ∨ d = ','))
    (hc : c = '0' ∨ c = '1') :
    nextItem st (seps ++ c :: rest) = (rest, [c]) ∧
    str2f [c] = (if c = '1' then 1 else 0) ∧
    processItem st [c] = processCoordinate st [c] ∧
    (nsvg__parsePath parser0 "M0,0 A5,5 0 1110,20".toList).map SVGPathparser.plist =
      Except.ok [SVGpath.mk (encodePath 0 0 [Command.arcTo 5 5 0 1 1 10 20]) false] := by
  have hsk : skipSeparators (seps ++ c :: rest) = c :: rest := by
    rcases hc with rfl | rfl
    · exact skipSeparators_prefix seps _ rest hseps (by decide) (by decide)
    · exact skipSeparators_prefix seps _ rest hseps (by decide) (by decide)
  have hc0 : c ≠ Char.ofNat 0 := by
    rcases hc with rfl | rfl <;> decide
  have hcmd : st.cmd ≠ Char.ofNat 0 := by
    rcases hm.1 with h | h <;> rw [h] <;> decide
  refine ⟨?_, ?_, ?_, by decide!⟩
  · unfold nextItem
    unfold flagMode at hm
    rw [if_pos hm]
    simp only [nsvg__getNextPathItemWhenArcFlag, hsk]
    have hd : deref (c :: rest) = c := rfl
    rw [hd, if_neg hc0, if_pos hc]
    simp
  · rcases hc with rfl | rfl <;> decide!
  · have hco : coordinate [c] = true := by
      rcases hc with rfl | rfl <;> decide
    simp [processItem, hcmd, hco]

theorem arc_flag_mode_witness :
    nextItem { initialState parser0 with cmd := 'A', args := [5, 5, 0] } " ,110,20".toList =
        ("10,20".toList, ['1']) ∧
    str2f ['1'] = (if '1' = '1' then 1 else 0) ∧
    processItem { initialState parser0 with cmd := 'A', args := [5, 5, 0] } ['1'] =
      processCoordinate { initialState parser0 with cmd := 'A', args := [5, 5, 0] } ['1'] ∧
    (nsvg__parsePath parser0 "M0,0 A5,5 0 1110,20".toList).map SVGPathparser.plist =
      Except.ok [SVGpath.mk (encodePath 0 0 [Command.arcTo 5 5 0 1 1 10 20]) false] :=
  arc_flag_mode { initialState parser0 with cmd := 'A', args := [5, 5, 0] } [' ', ','] '1'
    "10,20".toList (by decide) (by decide) (by decide)

/-- C15 as stated fails: the text `M0,0 A-5,-3 0 0 1 10,10` stores the radii
-5 and -3, not 5 and 3. -/
theorem arc_radii_counterexample :
    (nsvg__parsePath parser0 "M0,0 A-5,-3 0 0 1 10,10".toList).map SVGPathparser.plist =
      Except.ok [SVGpath.mk (encodePath 0 0 [Command.arcTo (-5) (-3) 0 0 1 10 10]) false] ∧
    (nsvg__parsePath parser0 "M0,0 A-5,-3 0 0 1 10,10".toList).map SVGPathparser.plist ≠
      Except.ok [SVGpath.mk (encodePath 0 0 [Command.arcTo 5 3 0 0 1 10 10]) false] := by
  decide!

/-- C15 (amended): for every `A`/`a` command run on an open subpath with the
arguments `(rx, ry, rot, fa, fs, x, y)` that `nsvg__pathArcTo` does not take
for a line, the `ARCTO` group appended to the raw array holds the radii `rx`
and `ry` as they were given, sign included, the rotation `rot` as given, both
flags as given and the end point (offset by the current point for `a`); the
absolute values `|rx|` and `|ry|` are used in the test for a line only. -/
theorem arc_radii_stored_as_given (st : PState) (rx ry rot fa fs x y : ℚ)
    (hcmd : st.cmd = 'A' ∨ st.cmd = 'a') (hargs : st.args = [rx, ry, rot, fa, fs, x, y])
    (hs : 0 < st.p.size)
    (hnd : arcDegenerate |rx| |ry| (st.cpx - (if st.cmd = 'a' then st.cpx + x else x))
      (st.cpy - (if st.cmd = 'a' then st.cpy + y else y)) = false) :
    ∃ st1, execCommand st = Except.ok st1 ∧
      st1.p.elements = st.p.elements ++
        [Slot.cmd ARCTO, Slot.num rx, Slot.num ry, Slot.num rot, Slot.num fa, Slot.num fs,
         Slot.num (if st.cmd = 'a' then st.cpx + x else x),
         Slot.num (if st.cmd = 'a' then st.cpy + y else y)] ∧
      st1.cpx = (if st.cmd = 'a' then st.cpx + x else x) ∧
      st1.cpy = (if st.cmd = 'a' then st.cpy + y else y) := by
  rcases hcmd with h | h
  · have ha : ¬ ('A' = 'a') := by decide
    simp only [h, ha, if_false] at hnd ⊢
    refine ⟨_, by simp [execCommand, h]; rfl, ?_, ?_, ?_⟩
    · simp [nsvg__pathArcTo, hargs, hnd, (arcto_spec st.p _ _ _ hs).1]
    · simp [nsvg__pathArcTo, hargs, hnd]
    · simp [nsvg__pathArcTo, hargs, hnd]
  · simp only [h, if_true] at hnd ⊢
    simp only [sub_add_cancel_left] at hnd
    refine ⟨_, by simp [execCommand, h]; rfl, ?_, ?_, ?_⟩
    · simp [nsvg__pathArcTo, hargs, hnd, (arcto_spec st.p _ _ _ hs).1]
    · simp [nsvg__pathArcTo, hargs, hnd]
    · simp [nsvg__pathArcTo, hargs, hnd]

theorem arc_radii_stored_as_given_witness :
    ∃ st1, execCommand (PState.mk { parser0 with elements := [Slot.num 0, Slot.num 0] } 'a'
          [-5, -3, 30, 0, 1, 10, 10] 7 true 1 2 1 2 false) = Except.ok st1 ∧
      st1.p.elements = [Slot.num 0, Slot.num 0] ++
        [Slot.cmd ARCTO, Slot.num (-5), Slot.num (-3), Slot.num 30, Slot.num 0, Slot.num 1,
         Slot.num (if 'a' = 'a' then 1 + 10 else 10),
         Slot.num (if 'a' = 'a' then 2 + 10 else 10)] ∧
      st1.cpx = (if 'a' = 'a' then 1 + 10 else 10) ∧
      st1.cpy = (if 'a' = 'a' then 2 + 10 else 10) :=
  arc_radii_stored_as_given
    (PState.mk { parser0 with elements := [Slot.num 0, Slot.num 0] } 'a'
      [-5, -3, 30, 0, 1, 10, 10] 7 true 1 2 1 2 false)
    (-5) (-3) 30 0 1 10 10 (Or.inr rfl) rfl (by decide) (by decide!)

/-- C12 as stated fails: for `M0,0 L1,1 M2,2 L3,3` the subpath from (2,2),
finalized last, is the head of the Path and is written first. -/
theorem subpath_order_counterexample :
    (nsvg__parsePath parser0 "M0,0 L1,1 M2,2 L3,3".toList).map SVGPathparser.plist =
      Except.ok [SVGpath.mk (encodePath 2 2 [Command.lineTo 3 3]) false,
        SVGpath.mk (encodePath 0 0 [Command.lineTo 1 1]) false] ∧
    parseAbs parser0 "M0,0 L1,1 M2,2 L3,3".toList = Except.ok "M2,2 L3,3 M0,0 L1,1 ".toList ∧
    parseAbs parser0 "M0,0 L1,1 M2,2 L3,3".toList ≠ Except.ok "M0,0 L1,1 M2,2 L3,3 ".toList := by
  decide!

/-- C12 (amended): subpath order. When `nsvg__addPath` finalizes a raw array
of at least 4 slots, the new subpath becomes the head of the list, in front
of the subpaths finalized before it, and the rest of the list is unchanged;
for a well formed raw array with at least one group it always does so. Both
generators start at the head of the list and write the text of the head
subpath in front of the text of the rest, so the subpaths are written in
the opposite order of their finalization. For `M0,0 L1,1 M2,2 L3,3` under the
identity matrix the absolute text is `M2,2 L3,3 M0,0 L1,1 ` and the relative
text is `M2,2 l1,1 M0,0 l1,1 `. -/
theorem subpath_order (p q : SVGPathparser) (closed : Bool)
    (h : nsvg__addPath p closed = Except.ok q) (h4 : 4 ≤ p.size) :
    (∃ sp : SVGpath, q.plist = sp :: p.plist ∧ sp.closed = closed) ∧
    (∀ (sx sy : ℚ) (cs : List Command), p.elements = encodePath sx sy cs → cs ≠ [] →
      q.plist = finishedPath p.matrix p.angle sx sy cs closed :: p.plist) ∧
    (∀ (sp : SVGpath) (rest : List SVGpath) (t tl : List Char),
      absSubpath sp = Except.ok t → generateAbsoluteSVG rest = Except.ok tl →
      generateAbsoluteSVG (sp :: rest) = Except.ok (t ++ tl)) ∧
    (∀ (sp : SVGpath) (rest : List SVGpath) (t tl : List Char),
      relSubpath sp = Except.ok t → generateRelativeSVG rest = Except.ok tl →
      generateRelativeSVG (sp :: rest) = Except.ok (t ++ tl)) ∧
    parseAbs parser0 "M0,0 L1,1 M2,2 L3,3".toList = Except.ok "M2,2 L3,3 M0,0 L1,1 ".toList ∧
    parseRel parser0 "M0,0 L1,1 M2,2 L3,3".toList = Except.ok "M2,2 l1,1 M0,0 l1,1 ".toList := by
  refine ⟨?_, ?_, ?_, ?_, by decide!, by decide!⟩
  · unfold nsvg__addPath at h
    rw [if_neg (by omega)] at h
    split at h
    · simp only at h
      split at h
      · exact absurd h (by simp)
      · simp only [Except.ok.injEq] at h
        subst h
        refine ⟨_, congrArg₂ List.cons rfl ?_, rfl⟩
        cases closed
        · rfl
        · exact lineto_plist _ _ _
    · exact absurd h (by simp)
  · intro sx sy cs he hne
    rw [addPath_encodePath p sx sy cs closed he hne] at h
    simp only [Except.ok.injEq] at h
    subst h
    rfl
  · intro sp rest t tl h1 h2
    simp only [generateAbsoluteSVG, h1, h2]
  · intro sp rest t tl h1 h2
    simp only [generateRelativeSVG, h1, h2]

theorem subpath_order_witness :
    ∃ sp : SVGpath,
      [SVGpath.mk (encodePath 2 2 [Command.lineTo 3 3]) false,
        SVGpath.mk (encodePath 0 0 [Command.lineTo 1 1]) false] =
        sp :: [SVGpath.mk (encodePath 0 0 [Command.lineTo 1 1]) false] ∧ sp.closed = false :=
  (subpath_order
    { parser0 with
      elements := encodePath 2 2 [Command.lineTo 3 3],
      plist := [SVGpath.mk (encodePath 0 0 [Command.lineTo 1 1]) false] }
    { parser0 with
      elements := encodePath 2 2 [Command.lineTo 3 3],
      plist := [SVGpath.mk (encodePath 2 2 [Command.lineTo 3 3]) false,
        SVGpath.mk (encodePath 0 0 [Command.lineTo 1 1]) false] }
    false (by decide!) (by decide)).1

/-- C13 as stated fails: in `M0,0 L1,1 X5,5 L2,2` the letter `L` after the
unknown letter is accepted, and `L2,2` appends a `LINETO` group. -/
theorem unknown_letter_counterexample :
    (nsvg__parsePath parser0 "M0,0 L1,1 X5,5 L2,2".toList).map SVGPathparser.plist =
      Except.ok [SVGpath.mk (encodePath 0 0 [Command.lineTo 1 1, Command.lineTo 2 2]) false] ∧
    (nsvg__parsePath parser0 "M0,0 L1,1 X5,5 L2,2".toList).map SVGPathparser.plist ≠
      Except.ok [SVGpath.mk (encodePath 0 0 [Command.lineTo 1 1]) false] := by
  decide!

theorem processItem_unknown (st : PState) (item : List Char)
    (hdrop : st.cmd = Char.ofNat 0 ∨ coordinate item = false)
    (hunk : numberOfArguments (deref item).toNat = -1) :
    processItem st item = Except.ok { st with cmd := Char.ofNat 0, rargs := 0 } := by
  have hM : ¬ (deref item = 'M' ∨ deref item = 'm') := by
    rintro (h | h) <;> rw [h] at hunk <;> exact absurd hunk (by decide)
  have hZ : ¬ (deref item = 'Z' ∨ deref item = 'z') := by
    rintro (h | h) <;> rw [h] at hunk <;> exact absurd hunk (by decide)
  have h0 : numberOfArguments (Char.ofNat 0).toNat = -1 := by decide
  have h0Z : ¬ (Char.ofNat 0 = 'Z' ∨ Char.ofNat 0 = 'z') := by decide
  have hc : ¬ (st.cmd ≠ Char.ofNat 0 ∧ coordinate item = true) := by
    rintro ⟨a, b⟩
    rcases hdrop with h | h
    · exact a h
    · rw [h] at b; exact absurd b (by decide)
  unfold processItem
  rw [if_neg hc]
  unfold processLetter
  simp only [hM, if_false]
  by_cases hi : st.initPoint = false
  · simp only [hi, if_true, h0Z, if_false, h0]
  · simp only [Bool.not_eq_false] at hi
    simp [hi, hZ, hunk]

theorem coordinate_code {item : List Char} (h : coordinate item = true) :
    numberOfArguments (deref item).toNat = -1 := by
  apply numberOfArguments_out_of_range
  left
  unfold coordinate at h
  simp only at h
  by_cases hs : deref item = '-' ∨ deref item = '+'
  · rcases hs with hs | hs <;> rw [hs] <;> decide
  · rw [if_neg hs] at h
    simp only [Bool.or_eq_true, decide_eq_true_eq] at h
    rcases h with h | h
    · simp only [digit, Bool.and_eq_true, decide_eq_true_eq] at h
      have h2 : (deref item).toNat ≤ 57 := h.2
      omega
    · rw [h]; decide

theorem processItem_letter (st : PState) (L : Char) (hinit : st.initPoint = true)
    (hL : L ∈ ['L', 'l', 'H', 'h', 'V', 'v', 'C', 'c', 'S', 's', 'Q', 'q', 'T', 't', 'A', 'a']) :
    processItem st [L] = Except.ok { st with cmd := L, rargs := numberOfArguments L.toNat } := by
  have hfacts : coordinate [L] = false ∧ ¬ (L = 'M' ∨ L = 'm') ∧ ¬ (L = 'Z' ∨ L = 'z') ∧
      numberOfArguments L.toNat ≠ -1 := by
    simp only [List.mem_cons, List.mem_nil_iff, or_false] at hL
    rcases hL with h | h | h | h | h | h | h | h | h | h | h | h | h | h | h | h <;>
      subst h <;> decide
  obtain ⟨f1, f2, f3, f4⟩ := hfacts
  have hdl : deref [L] = L := rfl
  simp [processItem, f1, processLetter, hdl, f2, hinit, f3, f4]

/-- C13 (amended): unknown letters. When the loop body of `nsvg__parsePath`
reads a one-character token that is neither a number nor one of the 20
supported letters, it clears the active command and changes nothing else.
While no command is active every number token is dropped in the same way:
nothing is appended and the current point does not move. Nothing is
discarded beyond that: once a moveto has been processed, the next supported
command letter is accepted as usual, also when it is not `M` or `m`. In
`M0,0 L1,1 X5,5 L2,2` the trailing `L2,2` appends a line, so the Path is the
single subpath from (0,0) with the groups LineTo(1,1) and LineTo(2,2). -/
theorem unknown_letter_clears_command (st : PState) (c : Char)
    (hunk : numberOfArguments c.toNat = -1) (hc : coordinate [c] = false) :
    processItem st [c] = Except.ok { st with cmd := Char.ofNat 0, rargs := 0 } ∧
    (∀ item : List Char, coordinate item = true →
      processItem { st with cmd := Char.ofNat 0, rargs := 0 } item =
        Except.ok { st with cmd := Char.ofNat 0, rargs := 0 }) ∧
    (∀ L ∈ ['L', 'l', 'H', 'h', 'V', 'v', 'C', 'c', 'S', 's', 'Q', 'q', 'T', 't', 'A', 'a'],
      st.initPoint = true →
      processItem { st with cmd := Char.ofNat 0, rargs := 0 } [L] =
        Except.ok { st with cmd := L, rargs := numberOfArguments L.toNat }) ∧
    (nsvg__parsePath parser0 "M0,0 L1,1 X5,5 L2,2".toList).map SVGPathparser.plist =
      Except.ok [SVGpath.mk (encodePath 0 0 [Command.lineTo 1 1, Command.lineTo 2 2]) false] := by
  refine ⟨processItem_unknown st [c] (Or.inr hc) hunk, fun item hi => ?_, fun L hL hinit => ?_,
    by decide!⟩
  · exact processItem_unknown _ item (Or.inl rfl) (coordinate_code hi)
  · exact processItem_letter _ L hinit hL

theorem unknown_letter_clears_command_witness :
    processItem (PState.mk { parser0 with elements := encodePath 0 0 [Command.lineTo 1 1] } 'L'
        [] 2 true 1 1 1 1 false) ['X'] =
      Except.ok (PState.mk { parser0 with elements := encodePath 0 0 [Command.lineTo 1 1] }
        (Char.ofNat 0) [] 0 true 1 1 1 1 false) :=
  (unknown_letter_clears_command
    (PState.mk { parser0 with elements := encodePath 0 0 [Command.lineTo 1 1] } 'L'
      [] 2 true 1 1 1 1 false) 'X' (by decide) (by decide)).1

/-! ### Progress of the scanner -/

theorem deref_mem {s : List Char} (h : deref s ≠ Char.ofNat 0) : deref s ∈ s := by
  cases s with
  | nil => exact absurd rfl h
  | cons c t => exact List.mem_cons_self _ _

theorem deref_ne_nil {s : List Char} (h : deref s ≠ Char.ofNat 0) : s ≠ [] := by
  intro hs
  subst hs
  exact h rfl

theorem tail_length_lt {s : List Char} (h : deref s ≠ Char.ofNat 0) :
    s.tail.length < s.length := by
  cases s with
  | nil => exact absurd rfl h
  | cons c t => simp

theorem skipSeparators_suffix (s : List Char) : skipSeparators s <:+ s := by
  induction s with
  | nil => exact List.suffix_refl _
  | cons c s ih =>
    unfold skipSeparators
    split
    · exact ih.trans (List.suffix_cons _ _)
    · exact List.suffix_refl _

theorem putItem_mem {last : Nat} {it : List Char} {c x : Char} (h : x ∈ putItem last it c) :
    x ∈ it ∨ x = c := by
  unfold putItem at h
  split at h
  · simpa using h
  · exact Or.inl h

theorem copyDigits_suffix (last : Nat) (s : List Char) :
    ∀ it : List Char, (copyDigits last s it).1 <:+ s := by
  induction s with
  | nil => intro it; exact List.suffix_refl _
  | cons c s ih =>
    intro it
    unfold copyDigits
    split
    · exact (ih _).trans (List.suffix_cons _ _)
    · exact List.suffix_refl _

theorem copyDigits_mem (last : Nat) (s : List Char) :
    ∀ (it : List Char) (x : Char), x ∈ (copyDigits last s it).2 → x ∈ it ∨ x ∈ s := by
  induction s with
  | nil => intro it x h; exact Or.inl h
  | cons c s ih =>
    intro it x h
    unfold copyDigits at h
    split at h
    · rcases ih _ x h with h1 | h1
      · rcases putItem_mem h1 with h2 | h2
        · exact Or.inl h2
        · exact Or.inr (h2 ▸ List.mem_cons_self _ _)
      · exact Or.inr (List.mem_cons_of_mem _ h1)
    · exact Or.inl h

theorem copyDigits_digit (last : Nat) (c : Char) (s it : List Char) (h : digit c = true) :
    (copyDigits last (c :: s) it).1.length < (c :: s).length := by
  have h0 := (digit_props h).2.2.2.2.2.2.1
  have : copyDigits last (c :: s) it = copyDigits last s (putItem last it c) := by
    rw [copyDigits, if_pos ⟨h0, h⟩]
  rw [this]
  have := (copyDigits_suffix last s (putItem last it c)).length_le
  simp only [List.length_cons]
  omega

theorem copyDigits_length_le (last : Nat) (s it : List Char) :
    (copyDigits last s it).1.length ≤ s.length :=
  (copyDigits_suffix last s it).length_le

/-- An invariant of the cursor and the item that holds at the start of
`parseNumber` and is kept by its two steps (copy a run of digits, take one
character) holds for its result. -/
theorem parseNumber_ind (P : List Char × List Char → Prop) (s : List Char) (size : Nat)
    (hcopy : ∀ r : List Char × List Char, P r → P (copyDigits (size - 1) r.1 r.2))
    (htake : ∀ r : List Char × List Char, P r → deref r.1 ≠ Char.ofNat 0 →
      P (r.1.tail, putItem (size - 1) r.2 (deref r.1)))
    (h0 : P (s, [])) : P (parseNumber s size) := by
  have hne : ∀ (t : List Char) (c : Char), c ≠ Char.ofNat 0 → deref t = c →
      deref t ≠ Char.ofNat 0 := fun t c hc h => h ▸ hc
  have h0 : P (if deref s = '-' ∨ deref s = '+' then (s.tail, putItem (size - 1) [] (deref s))
      else (s, [])) := by
    split
    · rename_i h
      have hd : deref s ≠ Char.ofNat 0 := by
        rcases h with h | h <;> rw [h] <;> decide
      exact htake (s, []) h0 hd
    · exact h0
  have h1 := hcopy _ h0
  unfold parseNumber
  simp only
  generalize copyDigits (size - 1)
    (if deref s = '-' ∨ deref s = '+' then (s.tail, putItem (size - 1) [] (deref s))
      else (s, [])).1
    (if deref s = '-' ∨ deref s = '+' then (s.tail, putItem (size - 1) [] (deref s))
      else (s, [])).2 = r1 at h1 ⊢
  have h2 : P (if deref r1.1 = '.' then
        copyDigits (size - 1) r1.1.tail (putItem (size - 1) r1.2 (deref r1.1)) else r1) := by
    split
    · rename_i h
      exact hcopy _ (htake _ h1 (hne _ _ (by decide) h))
    · exact h1
  generalize (if deref r1.1 = '.' then
        copyDigits (size - 1) r1.1.tail (putItem (size - 1) r1.2 (deref r1.1)) else r1) = r2
    at h2 ⊢
  split
  · rename_i h
    have hd : deref r2.1 ≠ Char.ofNat 0 := by
      rcases h.1 with h | h <;> rw [h] <;> decide
    have h3 := htake _ h2 hd
    apply hcopy (if deref r2.1.tail = '-' ∨ deref r2.1.tail = '+' then
      (r2.1.tail.tail, putItem (size - 1) (putItem (size - 1) r2.2 (deref r2.1))
        (deref r2.1.tail)) else (r2.1.tail, putItem (size - 1) r2.2 (deref r2.1)))
    split
    · rename_i hs
      have hd3 : deref r2.1.tail ≠ Char.ofNat 0 := by
        rcases hs with h | h
        · exact hne _ _ (by decide) h
        · exact hne _ _ (by decide) h
      exact htake _ h3 hd3
    · exact h3
  · exact h2

/-- The cursor that `parseNumber` returns is a suffix of its argument, and
the item holds characters of the text only. -/
theorem parseNumber_adv (s : List Char) (size : Nat) :
    (parseNumber s size).1 <:+ s ∧ ∀ x ∈ (parseNumber s size).2, x ∈ s := by
  apply parseNumber_ind (fun r => r.1 <:+ s ∧ ∀ x ∈ r.2, x ∈ s)
  · intro r h
    refine ⟨(copyDigits_suffix _ r.1 r.2).trans h.1, fun x hx => ?_⟩
    rcases copyDigits_mem _ r.1 r.2 x hx with h1 | h1
    · exact h.2 x h1
    · exact h.1.subset h1
  · intro r h hd
    refine ⟨(List.tail_suffix _).trans h.1, fun x hx => ?_⟩
    rcases putItem_mem hx with h1 | h1
    · exact h.2 x h1
    · rw [h1]; exact h.1.subset (deref_mem hd)
  · exact ⟨List.suffix_refl _, by simp⟩

/-- When `parseNumber` returns a non-empty item, the cursor has advanced. -/
theorem parseNumber_progress (s : List Char) (size : Nat) (h : (parseNumber s size).2 ≠ []) :
    (parseNumber s size).1.length < s.length := by
  have key : (parseNumber s size).1.length < s.length ∨ parseNumber s size = (s, []) := by
    apply parseNumber_ind (fun r => r.1.length < s.length ∨ r = (s, []))
    · intro r hr
      rcases hr with hr | hr
      · left
        have := copyDigits_length_le (size - 1) r.1 r.2
        omega
      · subst hr
        cases s with
        | nil => right; rfl
        | cons c t =>
          by_cases hc : c ≠ Char.ofNat 0 ∧ digit c = true
          · left
            exact copyDigits_digit _ c t [] hc.2
          · right
            simp only [copyDigits, hc, if_false]
    · intro r hr hd
      left
      have h1 := tail_length_lt hd
      rcases hr with hr | hr
      · simp only
        omega
      · subst hr
        exact h1
    · right; rfl
  rcases key with h1 | h1
  · exact h1
  · rw [h1] at h
    exact absurd rfl h

theorem getNextPathItem_adv (s : List Char) :
    (nsvg__getNextPathItem s).1 <:+ s ∧ (∀ x ∈ (nsvg__getNextPathItem s).2, x ∈ s) ∧
      ((nsvg__getNextPathItem s).2 ≠ [] → (nsvg__getNextPathItem s).1.length < s.length) := by
  have hsk := skipSeparators_suffix s
  unfold nsvg__getNextPathItem
  simp only
  split
  · exact ⟨hsk, by simp, by simp⟩
  · rename_i h0
    split
    · have ha := parseNumber_adv (skipSeparators s) ITEM_SIZE
      refine ⟨ha.1.trans hsk, fun x hx => hsk.subset (ha.2 x hx), fun hne => ?_⟩
      have := parseNumber_progress (skipSeparators s) ITEM_SIZE hne
      have := hsk.length_le
      omega
    · refine ⟨(List.tail_suffix _).trans hsk, fun x hx => ?_, fun _ => ?_⟩
      · simp only [List.mem_singleton] at hx
        rw [hx]
        exact hsk.subset (deref_mem h0)
      · have := tail_length_lt h0
        have := hsk.length_le
        simp only
        omega

theorem getNextPathItemWhenArcFlag_adv (s : List Char) :
    (nsvg__getNextPathItemWhenArcFlag s).1 <:+ s ∧
      (∀ x ∈ (nsvg__getNextPathItemWhenArcFlag s).2, x ∈ s) ∧
      ((nsvg__getNextPathItemWhenArcFlag s).2 ≠ [] →
        (nsvg__getNextPathItemWhenArcFlag s).1.length < s.length) := by
  have hsk := skipSeparators_suffix s
  unfold nsvg__getNextPathItemWhenArcFlag
  simp only
  split
  · exact ⟨hsk, by simp, by simp⟩
  · rename_i h0
    split
    · refine ⟨(List.tail_suffix _).trans hsk, fun x hx => ?_, fun _ => ?_⟩
      · simp only [List.mem_singleton] at hx
        rw [hx]
        exact hsk.subset (deref_mem h0)
      · have := tail_length_lt h0
        have := hsk.length_le
        simp only
        omega
    · exact ⟨hsk, by simp, by simp⟩

/-- The two scanner calls of the loop body: the new cursor is a suffix of the
old one, the item holds characters of the text, and a non-empty item means
that the cursor has advanced. -/
theorem nextItem_adv (st : PState) (s : List Char) :
    (nextItem st s).1 <:+ s ∧ (∀ x ∈ (nextItem st s).2, x ∈ s) ∧
      ((nextItem st s).2 ≠ [] → (nextItem st s).1.length < s.length) := by
  unfold nextItem
  simp only
  split
  · split
    · rename_i h
      have ha := getNextPathItemWhenArcFlag_adv s
      have hb := getNextPathItem_adv (nsvg__getNextPathItemWhenArcFlag s).1
      refine ⟨hb.1.trans ha.1, fun x hx => ha.1.subset (hb.2.1 x hx), fun hne => ?_⟩
      have := hb.2.2 hne
      have := ha.1.length_le
      omega
    · exact getNextPathItemWhenArcFlag_adv s
  · simp only [if_true]
    exact getNextPathItem_adv s

/-- Before the first moveto, a token that is not taken as an argument and
does not start with `M` or `m` clears the active command and changes nothing
else. -/
theorem processItem_before_moveto (st : PState) (item : List Char)
    (hinit : st.initPoint = false)
    (hdrop : st.cmd = Char.ofNat 0 ∨ coordinate item = false)
    (hM : ¬ (deref item = 'M' ∨ deref item = 'm')) :
    processItem st item = Except.ok { st with cmd := Char.ofNat 0, rargs := 0 } := by
  have h0 : numberOfArguments (Char.ofNat 0).toNat = -1 := by decide
  have h0Z : ¬ (Char.ofNat 0 = 'Z' ∨ Char.ofNat 0 = 'z') := by decide
  have hc : ¬ (st.cmd ≠ Char.ofNat 0 ∧ coordinate item = true) := by
    rintro ⟨a, b⟩
    rcases hdrop with h | h
    · exact a h
    · rw [h] at b; exact absurd b (by decide)
  unfold processItem
  rw [if_neg hc]
  unfold processLetter
  simp only [hM, if_false, hinit, if_true, h0Z, h0]

/-- Before the first moveto, the letter `M` or `m` becomes the active command
with no argument collected; the raw array stays empty. -/
theorem processItem_first_M (st : PState) (pl : List SVGpath) (item : List Char)
    (hF : Fresh st pl) (hdrop : st.cmd = Char.ofNat 0 ∨ coordinate item = false)
    (hM : deref item = 'M' ∨ deref item = 'm') :
    ∃ st1, processItem st item = Except.ok st1 ∧ Fresh st1 pl := by
  obtain ⟨f1, f2, f3, -⟩ := hF
  have hc : ¬ (st.cmd ≠ Char.ofNat 0 ∧ coordinate item = true) := by
    rintro ⟨a, b⟩
    rcases hdrop with h | h
    · exact a h
    · rw [h] at b; exact absurd b (by decide)
  have hs : ¬ (st.p.size > 0) := by simp [SVGPathparser.size, f2]
  have hZ : ¬ (deref item = 'Z' ∨ deref item = 'z') := by
    rcases hM with h | h <;> rw [h] <;> decide
  have hn : numberOfArguments (deref item).toNat = 2 := by
    rcases hM with h | h <;> rw [h] <;> decide
  refine ⟨{ st with cmd := deref item, p := nsvg__resetPath st.p, closedFlag := false,
                    args := [], rargs := 2 }, ?_, ?_⟩
  · unfold processItem
    rw [if_neg hc]
    unfold processLetter
    simp [hM, hs, hZ, hn]
  · exact ⟨f1, rfl, f3, Or.inr ⟨hM, rfl, by simp⟩⟩

/-- Before the first moveto, a number read while `M`/`m` is active is
collected; the second one runs the moveto, which stores the start point. -/
theorem processItem_first_args (st : PState) (pl : List SVGpath) (item : List Char)
    (hF : Fresh st pl) (hcmd : st.cmd ≠ Char.ofNat 0) (hco : coordinate item = true) :
    ∃ st1, processItem st item = Except.ok st1 ∧
      ((st.args.length = 0 ∧ Fresh st1 pl) ∨
        (st.args.length = 1 ∧ (st.cmd = 'M' ∨ st.cmd = 'm') ∧ st1.initPoint = true ∧
          st1.p.elements = [Slot.num st1.cpx, Slot.num st1.cpy] ∧ st1.p.plist = pl)) := by
  obtain ⟨f1, f2, f3, f4⟩ := hF
  rcases f4 with f4 | ⟨hM, hr, hl⟩
  · exact absurd f4 hcmd
  unfold processItem
  rw [if_pos ⟨hcmd, hco⟩]
  unfold processCoordinate
  have h10 : st.nargs < 10 := by simp only [PState.nargs]; omega
  simp only [h10, if_true]
  by_cases h0 : st.args.length = 0
  · have hlt : ¬ ((({ st with args := st.args ++ [str2f item] } : PState).nargs : Int) ≥ st.rargs) := by
      simp only [PState.nargs, List.length_append, List.length_singleton, h0, hr]
      decide
    refine ⟨{ st with args := st.args ++ [str2f item] }, ?_, Or.inl ⟨h0, f1, f2, f3, Or.inr ⟨hM, hr, ?_⟩⟩⟩
    · rw [if_neg hlt]
    · simp [h0]
  · have h1 : st.args.length = 1 := by omega
    have hge : ((({ st with args := st.args ++ [str2f item] } : PState).nargs : Int) ≥ st.rargs) := by
      simp only [PState.nargs, List.length_append, List.length_singleton, h1, hr]
      decide
    rw [if_pos hge]
    obtain ⟨a, ha⟩ : ∃ a, st.args = [a] := by
      cases hargs : st.args with
      | nil => rw [hargs] at h1; simp at h1
      | cons a t =>
        cases t with
        | nil => exact ⟨a, rfl⟩
        | cons b t => rw [hargs] at h1; simp at h1
    rcases hM with hM | hM
    · obtain ⟨q, hq, q1, q2, -, -⟩ := moveto_empty st.p a (str2f item) f2
      refine ⟨_, by simp [execCommand, hM, ha, nsvg__pathMoveTo, hq]; rfl, Or.inr ⟨h1, Or.inl hM, rfl, ?_, ?_⟩⟩
      · simpa using q1
      · simpa [f3] using q2
    · obtain ⟨q, hq, q1, q2, -, -⟩ := moveto_empty st.p (st.cpx + a) (st.cpy + str2f item) f2
      refine ⟨_, by simp [execCommand, hM, ha, nsvg__pathMoveTo, hq]; rfl, Or.inr ⟨h1, Or.inr hM, rfl, ?_, ?_⟩⟩
      · simpa using q1
      · simpa [f3] using q2

theorem deref_eq_mem {l : List Char} {c : Char} (h : deref l = c) (hc : c ≠ Char.ofNat 0) :
    c ∈ l := by
  have := deref_mem (s := l) (by rw [h]; exact hc)
  rw [h] at this
  exact this

/-- On a text without `M` and `m` the loop of `nsvg__parsePath` ends, by the
end of the text or by an empty item, in the state it started in. -/
theorem parseLoop_no_moveto (p : SVGPathparser) :
    ∀ (fuel : Nat) (s : List Char), s.length < fuel → 'M' ∉ s → 'm' ∉ s →
      parseLoop fuel (initialState p) s = Except.ok (initialState p) := by
  intro fuel
  induction fuel with
  | zero => intro s h; exact absurd h (by omega)
  | succ n ih =>
    intro s hlen hM hm
    unfold parseLoop
    split
    · rfl
    · simp only
      split
      · rfl
      · rename_i hitem
        obtain ⟨a1, a2, a3⟩ := nextItem_adv (initialState p) s
        have hnM : ¬ (deref (nextItem (initialState p) s).2 = 'M' ∨
            deref (nextItem (initialState p) s).2 = 'm') := by
          rintro (h | h)
          · exact hM (a2 _ (deref_eq_mem h (by decide)))
          · exact hm (a2 _ (deref_eq_mem h (by decide)))
        have hp := processItem_before_moveto (initialState p) (nextItem (initialState p) s).2
          rfl (Or.inl rfl) hnM
        have hst : ({ initialState p with cmd := Char.ofNat 0, rargs := 0 } : PState) =
            initialState p := rfl
        rw [hst] at hp
        rw [hp]
        simp only
        have hl := a3 hitem
        exact ih _ (by omega) (fun h => hM (a1.subset h)) (fun h => hm (a1.subset h))

/-- C14 (no command before the first moveto): in a state in which no moveto
has been executed yet (empty raw array, finished subpaths `pl`, no active
command or `M`/`m` with fewer than two arguments) every pass of the loop body
of `nsvg__parsePath` succeeds and either leaves such a state again, with the
raw array still empty and the finished subpaths still `pl`, or is the pass
in which `M`/`m` receives its second coordinate and stores the start point.
Every token that does not start with `M` or `m`, and is not an argument of
an active `M`/`m`, only clears the active command. `nsvg__parsePath` starts
in such a state, and for every text that contains neither `M` nor `m` it
returns with an empty raw array and the finished subpaths it started with:
an empty Path for a new parser. -/
theorem no_command_before_moveto (st : PState) (pl : List SVGpath) (hF : Fresh st pl) :
    (∀ item : List Char, ∃ st1, processItem st item = Except.ok st1 ∧
      (Fresh st1 pl ∨
        ((st.cmd = 'M' ∨ st.cmd = 'm') ∧ coordinate item = true ∧ st.args.length = 1 ∧
          st1.initPoint = true ∧ st1.p.elements = [Slot.num st1.cpx, Slot.num st1.cpy] ∧
          st1.p.plist = pl))) ∧
    (∀ item : List Char, ¬ (deref item = 'M' ∨ deref item = 'm') →
      (st.cmd = Char.ofNat 0 ∨ coordinate item = false) →
      processItem st item = Except.ok { st with cmd := Char.ofNat 0, rargs := 0 }) ∧
    (∀ p : SVGPathparser, Fresh (initialState p) p.plist) ∧
    (∀ (p : SVGPathparser) (s : List Char), 'M' ∉ s → 'm' ∉ s →
      nsvg__parsePath p s = Except.ok (nsvg__resetPath p)) ∧
    (∀ (m : Matrix6) (angle : ℚ) (s : List Char), 'M' ∉ s → 'm' ∉ s →
      (nsvg__parsePath (createParser m angle) s).map SVGPathparser.plist = Except.ok []) := by
  have hrun : ∀ (p : SVGPathparser) (s : List Char), 'M' ∉ s → 'm' ∉ s →
      nsvg__parsePath p s = Except.ok (nsvg__resetPath p) := by
    intro p s hM hm
    unfold nsvg__parsePath
    rw [parseLoop_no_moveto p (s.length + 1) s (by omega) hM hm]
    simp [initialState, nsvg__resetPath, SVGPathparser.size]
  refine ⟨fun item => ?_, fun item hM hdrop => ?_, fun p => ?_, hrun, fun m angle s hM hm => ?_⟩
  · by_cases hc : st.cmd ≠ Char.ofNat 0 ∧ coordinate item = true
    · obtain ⟨st1, h1, h2⟩ := processItem_first_args st pl item hF hc.1 hc.2
      refine ⟨st1, h1, ?_⟩
      rcases h2 with ⟨-, h2⟩ | ⟨a, b, c, d, e⟩
      · exact Or.inl h2
      · exact Or.inr ⟨b, hc.2, a, c, d, e⟩
    · have hdrop : st.cmd = Char.ofNat 0 ∨ coordinate item = false := by
        by_cases h0 : st.cmd = Char.ofNat 0
        · exact Or.inl h0
        · right
          cases hco : coordinate item with
          | false => rfl
          | true => exact absurd ⟨h0, hco⟩ hc
      by_cases hM : deref item = 'M' ∨ deref item = 'm'
      · obtain ⟨st1, h1, h2⟩ := processItem_first_M st pl item hF hdrop hM
        exact ⟨st1, h1, Or.inl h2⟩
      · refine ⟨_, processItem_before_moveto st item hF.1 hdrop hM, Or.inl ?_⟩
        exact ⟨hF.1, hF.2.1, hF.2.2.1, Or.inl rfl⟩
  · exact processItem_before_moveto st item hF.1 hdrop hM
  · exact ⟨rfl, rfl, rfl, Or.inl rfl⟩
  · rw [hrun _ s hM hm]
    rfl

theorem no_command_before_moveto_witness :
    ∃ st1, processItem (PState.mk parser0 'M' [3] 2 false 0 0 0 0 false) "4".toList =
        Except.ok st1 ∧
      (Fresh st1 [] ∨
        (('M' = 'M' ∨ 'M' = 'm') ∧ coordinate "4".toList = true ∧ [(3 : ℚ)].length = 1 ∧
          st1.initPoint = true ∧ st1.p.elements = [Slot.num st1.cpx, Slot.num st1.cpy] ∧
          st1.p.plist = [])) :=
  (no_command_before_moveto (PState.mk parser0 'M' [3] 2 false 0 0 0 0 false) []
    ⟨rfl, rfl, rfl, Or.inr ⟨Or.inl rfl, rfl, by decide⟩⟩).1 "4".toList

/-- C18 as stated fails: for `M0,0 A5,5 0 2 3 10,10` the flags 2 and 3 are
stored and both generators write them as `2` and `3`. -/
theorem arc_emission_counterexample :
    (nsvg__parsePath parser0 "M0,0 A5,5 0 2 3 10,10".toList).map SVGPathparser.plist =
      Except.ok [SVGpath.mk (encodePath 0 0 [Command.arcTo 5 5 0 2 3 10 10]) false] ∧
    parseAbs parser0 "M0,0 A5,5 0 2 3 10,10".toList =
      Except.ok "M0,0 A5,5 0 2 3 10,10 ".toList ∧
    parseRel parser0 "M0,0 A5,5 0 2 3 10,10".toList =
      Except.ok "M0,0 a5,5 0 2 3 10,10 ".toList := by
  decide!

/-- C18 (amended): arc emission. For every `ARCTO` group that a generator
reaches, `generateAbsoluteSVG` writes `A` and `generateRelativeSVG` writes
`a`, followed by all seven fields in the order rx, ry, rotation, large-arc
flag, sweep flag, x, y, each written by `%g` from its value rounded to three
decimals (in the relative text the end point is written as its offset from
the running point), and the running point becomes the rounded end point. A
flag field is written as `0` or `1` when the stored flag is 0 or 1, and the
flag tokens `0` and `1` of the input are stored as 0 and 1. -/
theorem arc_emission (fuel : Nat) (cpx cpy rx ry rot fa fs x y : ℚ) (rest : List Slot) :
    absLoop (fuel + 1) cpx cpy (Slot.cmd ARCTO :: Slot.num rx :: Slot.num ry :: Slot.num rot ::
        Slot.num fa :: Slot.num fs :: Slot.num x :: Slot.num y :: rest) =
      (match absLoop fuel (dig3 x) (dig3 y) rest with
        | Except.error e => Except.error e
        | Except.ok tl =>
          Except.ok (['A'] ++ fmtG (dig3 rx) ++ [','] ++ fmtG (dig3 ry) ++ [' '] ++
            fmtG (dig3 rot) ++ [' '] ++ fmtG (dig3 fa) ++ [' '] ++ fmtG (dig3 fs) ++ [' '] ++
            fmtG (dig3 x) ++ [','] ++ fmtG (dig3 y) ++ [' '] ++ tl)) ∧
    relLoop (fuel + 1) cpx cpy (Slot.cmd ARCTO :: Slot.num rx :: Slot.num ry :: Slot.num rot ::
        Slot.num fa :: Slot.num fs :: Slot.num x :: Slot.num y :: rest) =
      (match relLoop fuel (dig3 x) (dig3 y) rest with
        | Except.error e => Except.error e
        | Except.ok tl =>
          Except.ok (['a'] ++ fmtG (dig3 rx) ++ [','] ++ fmtG (dig3 ry) ++ [' '] ++
            fmtG (dig3 rot) ++ [' '] ++ fmtG (dig3 fa) ++ [' '] ++ fmtG (dig3 fs) ++ [' '] ++
            fmtG (dig3 (x - cpx)) ++ [','] ++ fmtG (dig3 (y - cpy)) ++ [' '] ++ tl)) ∧
    fmtG (dig3 0) = ['0'] ∧ fmtG (dig3 1) = ['1'] ∧
    str2f ['0'] = 0 ∧ str2f ['1'] = 1 := by
  have h5 : (1797 &&& 255 : Nat) = 5 := by decide
  refine ⟨?_, ?_, by decide!, by decide!, by decide!, by decide!⟩
  · simp [absLoop, ARCTO_eq, LINETO_eq, commands, h5]
  · simp [relLoop, ARCTO_eq, LINETO_eq, relative, h5]

/-- C16 (the code at the failing input `M0,0 L0.0001,10`): the Path holds the
line to (0.0001, 10). `generateAbsoluteSVG` compares the rounded x, 0, with
the rounded running x, 0, and writes the vertical command `V10`;
`generateRelativeSVG` compares the stored x, 0.0001, with its running x, 0,
so the line is neither vertical-only nor horizontal-only for it and it writes
the general command `l0,10`. -/
theorem relative_line_classification_unrounded :
    (nsvg__parsePath parser0 "M0,0 L0.0001,10".toList).map SVGPathparser.plist =
      Except.ok [SVGpath.mk (encodePath 0 0 [Command.lineTo (1 / 10000) 10]) false] ∧
    parseAbs parser0 "M0,0 L0.0001,10".toList = Except.ok "M0,0 V10 ".toList ∧
    parseRel parser0 "M0,0 L0.0001,10".toList = Except.ok "M0,0 l0,10 ".toList ∧
    dig3 (1 / 10000) = 0 := by
  decide!

/-- C17 (the code at the failing input `M0,0 L0,0.0001`): the Path holds the
line to (0, 0.0001). `generateRelativeSVG` finds x equal to its running x, so
the line is vertical-only; the stored y, 0.0001, differs from the running y,
0, so the command is not left out, and the offset is written rounded:
`v0`. -/
theorem relative_elision_unrounded :
    (nsvg__parsePath parser0 "M0,0 L0,0.0001".toList).map SVGPathparser.plist =
      Except.ok [SVGpath.mk (encodePath 0 0 [Command.lineTo 0 (1 / 10000)]) false] ∧
    parseRel parser0 "M0,0 L0,0.0001".toList = Except.ok "M0,0 v0 ".toList ∧
    dig3 (1 / 10000 - 0) = 0 := by
  decide!

theorem encodeAll_round (cs : List Command) :
    (encodeAll cs).map Slot.round = encodeAll (cs.map Command.round) := by
  induction cs with
  | nil => rfl
  | cons c cs ih =>
    simp only [encodeAll, List.map_append, List.map_cons, ih]
    cases c <;> rfl

theorem encodePath_round (sx sy : ℚ) (cs : List Command) :
    (encodePath sx sy cs).map Slot.round =
      encodePath (dig3 sx) (dig3 sy) (cs.map Command.round) := by
  simp only [encodePath, List.map_cons, encodeAll_round]
  rfl

theorem text_round (cx cy : ℚ) (c : Command) :
    c.round.text cx cy = c.text cx cy ∧ c.round.nextPoint cx cy = c.nextPoint cx cy := by
  cases c <;>
    simp [Command.round, Command.text, Command.letter, Command.tokens, Command.nextPoint,
      dig3_idem]

theorem cmdsText_round (cs : List Command) :
    ∀ cx cy : ℚ, cmdsText cx cy (cs.map Command.round) = cmdsText cx cy cs := by
  induction cs with
  | nil => intro cx cy; rfl
  | cons c cs ih =>
    intro cx cy
    simp only [List.map_cons, cmdsText, (text_round cx cy c).1, (text_round cx cy c).2, ih]

theorem subpathText_round (sx sy : ℚ) (cs : List Command) :
    subpathText (dig3 sx) (dig3 sy) (cs.map Command.round) = subpathText sx sy cs := by
  simp only [subpathText, dig3_idem, cmdsText_round]

theorem roundedOK_round {sp : SVGpath} (h : RoundedOK sp) :
    SubpathOK sp.round ∧ absSubpath sp.round = absSubpath sp := by
  obtain ⟨sx, sy, cs, he, hne, hx, hy, hc⟩ := h
  have her : sp.round.elements = encodePath (dig3 sx) (dig3 sy) (cs.map Command.round) := by
    simp only [SVGpath.round, he, encodePath_round]
  refine ⟨⟨dig3 sx, dig3 sy, cs.map Command.round, her, by simpa using hne, hx, hy, hc⟩, ?_⟩
  rw [absSubpath_encodePath _ _ _ _ her, absSubpath_encodePath _ _ _ _ he, subpathText_round]

theorem absSubpath_unclosed (sp : SVGpath) : absSubpath sp.unclosed = absSubpath sp := rfl

theorem subpathOK_unclosed {sp : SVGpath} (h : SubpathOK sp) : SubpathOK sp.unclosed := h

theorem generateAbsoluteSVG_map (f : SVGpath → SVGpath) (l : List SVGpath)
    (h : ∀ sp ∈ l, absSubpath (f sp) = absSubpath sp) :
    generateAbsoluteSVG (l.map f) = generateAbsoluteSVG l := by
  induction l with
  | nil => rfl
  | cons sp l ih =>
    simp only [List.map_cons, generateAbsoluteSVG, h sp (List.mem_cons_self _ _),
      ih (fun s hs => h s (List.mem_cons_of_mem _ hs))]

/-- Parsing the text that `generateAbsoluteSVG` writes for subpaths of
canonical values gives these subpaths in the opposite order, not closed. -/
theorem parse_generated (sps : List SVGpath) (hok : ∀ sp ∈ sps, SubpathOK sp) :
    ∃ (text : List Char) (q : SVGPathparser), generateAbsoluteSVG sps = Except.ok text ∧
      nsvg__parsePath parser0 text = Except.ok q ∧
      q.plist = sps.reverse.map SVGpath.unclosed := by
  obtain ⟨text, st1, n, hg, hI, hn, hrun⟩ :=
    parseLoop_path sps (initialState parser0) [] idle_initialState hok
  have h1 : parseLoop (1 + n) (initialState parser0) text = Except.ok st1 := by
    have := hrun 1 []
    rw [List.append_nil] at this
    rw [this]
    simp [parseLoop, deref]
  have h2 : parseLoop (text.length + 1) (initialState parser0) text = Except.ok st1 := by
    have := parseLoop_mono (1 + n) (initialState parser0) text st1 (text.length - n) h1
    have e : 1 + n + (text.length - n) = text.length + 1 := by omega
    rw [e] at this
    exact this
  obtain ⟨q, hq, q1, -, -⟩ := idle_commit st1 _ hI
  have hq2 : (if st1.p.size ≠ 0 then nsvg__addPath st1.p st1.closedFlag else Except.ok st1.p) =
      Except.ok q := by
    by_cases h0 : st1.p.size = 0
    · rw [if_neg (by omega)] at hq
      rw [if_neg (by simpa using h0)]
      exact hq
    · rw [if_pos (by omega)] at hq
      rw [if_pos h0]
      exact hq
  refine ⟨text, q, hg, ?_, by simpa using q1⟩
  simp only [nsvg__parsePath, h2, hq2]

/-- C11 as stated fails. For `M0,0 L1,1 M2,2 L3,3` the first text is
`M2,2 L3,3 M0,0 L1,1 ` and the text written for its parse is
`M0,0 L1,1 M2,2 L3,3 `: the subpaths change places in every pass. For
`M0,0 A5,5 0 0 1 0.0004,0` the first text is `M0,0 A5,5 0 0 1 0,0 `, whose
arc ends in its start point and is parsed as a line, so the second text is
`M0,0 V0 `. For `M1234.561,0 L1234.564,5` the rounded x values differ but
`%g` writes both as `1234.56`, so the first text has the command `L` and the
second text the command `V`. -/
theorem serialization_fixed_point_counterexample :
    parseAbs parser0 "M0,0 L1,1 M2,2 L3,3".toList = Except.ok "M2,2 L3,3 M0,0 L1,1 ".toList ∧
    parseAbs parser0 "M2,2 L3,3 M0,0 L1,1 ".toList = Except.ok "M0,0 L1,1 M2,2 L3,3 ".toList ∧
    parseAbs parser0 "M2,2 L3,3 M0,0 L1,1 ".toList ≠ Except.ok "M2,2 L3,3 M0,0 L1,1 ".toList ∧
    parseAbs parser0 "M0,0 A5,5 0 0 1 0.0004,0".toList =
      Except.ok "M0,0 A5,5 0 0 1 0,0 ".toList ∧
    parseAbs parser0 "M0,0 A5,5 0 0 1 0,0 ".toList = Except.ok "M0,0 V0 ".toList ∧
    parseAbs parser0 "M0,0 A5,5 0 0 1 0,0 ".toList ≠ Except.ok "M0,0 A5,5 0 0 1 0,0 ".toList ∧
    parseAbs parser0 "M1234.561,0 L1234.564,5".toList =
      Except.ok "M1234.56,0 L1234.56,5 ".toList ∧
    parseAbs parser0 "M1234.56,0 L1234.56,5 ".toList = Except.ok "M1234.56,0 V5 ".toList := by
  decide!

/-- C11 (amended): serialization under the identity matrix and angle 0. Let
`path` be the Path of `nsvg__parsePath(d)` and let every subpath of it be well
formed with at least one group and, with its values rounded by `dig3`, hold
only values below 1000 in absolute value and only arcs with flags 0 or 1 that
`nsvg__pathArcTo` does not take for a line. Let `t` be the text that
`generateAbsoluteSVG` writes for `path`. Then the text written for
`nsvg__parsePath(t)` is the text `r` that `generateAbsoluteSVG` writes for the
subpaths of `path` in the opposite order, and the text written for
`nsvg__parsePath(r)` is `t` again; for a Path of at most one subpath `r` is
`t`, so the first pass reaches a fixed point. -/
theorem serialization_fixed_point (d : List Char) (path : List SVGpath)
    (hd : (nsvg__parsePath parser0 d).map SVGPathparser.plist = Except.ok path)
    (hok : ∀ sp ∈ path, RoundedOK sp) :
    ∃ t r : List Char, parseAbs parser0 d = Except.ok t ∧
      generateAbsoluteSVG path.reverse = Except.ok r ∧
      parseAbs parser0 t = Except.ok r ∧
      parseAbs parser0 r = Except.ok t ∧
      (path.length ≤ 1 → r = t) := by
  have hR : ∀ sp ∈ path.map SVGpath.round, SubpathOK sp := by
    intro sp hsp
    obtain ⟨s0, hs0, rfl⟩ := List.mem_map.mp hsp
    exact (roundedOK_round (hok s0 hs0)).1
  have hgR : ∀ l : List SVGpath, (∀ sp ∈ l, sp ∈ path) →
      generateAbsoluteSVG ((l.map SVGpath.round).map SVGpath.unclosed) =
        generateAbsoluteSVG l := by
    intro l hl
    rw [generateAbsoluteSVG_map SVGpath.unclosed _ (fun sp _ => absSubpath_unclosed sp)]
    exact generateAbsoluteSVG_map SVGpath.round l
      (fun sp hsp => (roundedOK_round (hok sp (hl sp hsp))).2)
  -- first pass
  obtain ⟨t, q1, hg1, hp1, hq1⟩ := parse_generated (path.map SVGpath.round) hR
  have hgt : generateAbsoluteSVG path = Except.ok t := by
    rw [← hg1]
    exact (generateAbsoluteSVG_map SVGpath.round path
      (fun sp hsp => (roundedOK_round (hok sp hsp)).2)).symm
  -- second pass
  have hR2 : ∀ sp ∈ (path.map SVGpath.round).reverse.map SVGpath.unclosed, SubpathOK sp := by
    intro sp hsp
    obtain ⟨s0, hs0, rfl⟩ := List.mem_map.mp hsp
    exact subpathOK_unclosed (hR s0 (List.mem_reverse.mp hs0))
  obtain ⟨r, q2, hg2, hp2, hq2⟩ :=
    parse_generated ((path.map SVGpath.round).reverse.map SVGpath.unclosed) hR2
  have hgr : generateAbsoluteSVG path.reverse = Except.ok r := by
    rw [← hg2, ← List.map_reverse]
    exact (hgR path.reverse (fun sp hsp => List.mem_reverse.mp hsp)).symm
  refine ⟨t, r, ?_, hgr, ?_, ?_, fun hlen => ?_⟩
  · unfold parseAbs
    cases hq : nsvg__parsePath parser0 d with
    | error e => rw [hq] at hd; simp [Except.map] at hd
    | ok q =>
      rw [hq] at hd
      simp only [Except.map, Except.ok.injEq] at hd
      simp only [hd, hgt]
  · simp only [parseAbs, hp1, hq1, hg2]
  · simp only [parseAbs, hp2, hq2]
    rw [← hgt]
    have e : ((path.map SVGpath.round).reverse.map SVGpath.unclosed).reverse.map
        SVGpath.unclosed = (path.map SVGpath.round).map SVGpath.unclosed := by
      simp [List.map_reverse, SVGpath.unclosed]
    rw [e]
    exact hgR path (fun sp hsp => hsp)
  · have e : path.reverse = path := by
      match path, hlen with
      | [], _ => rfl
      | [a], _ => rfl
    rw [e, hgt] at hgr
    exact (Except.ok.inj hgr).symm

theorem serialization_fixed_point_witness :
    ∃ t r : List Char,
      parseAbs parser0 "M0.0004,0 L1.23456,7 M2,2 L3.3333,3 Q4,4 5.5555,5".toList =
        Except.ok t ∧
      generateAbsoluteSVG
        [SVGpath.mk (encodePath 2 2 [Command.lineTo (33333 / 10000) 3,
            Command.quadTo 4 4 (55555 / 10000) 5]) false,
          SVGpath.mk (encodePath (4 / 10000) 0 [Command.lineTo (123456 / 100000) 7])
            false].reverse = Except.ok r ∧
      parseAbs parser0 t = Except.ok r ∧
      parseAbs parser0 r = Except.ok t ∧
      ([SVGpath.mk (encodePath 2 2 [Command.lineTo (33333 / 10000) 3,
            Command.quadTo 4 4 (55555 / 10000) 5]) false,
          SVGpath.mk (encodePath (4 / 10000) 0 [Command.lineTo (123456 / 100000) 7])
            false].length ≤ 1 → r = t) :=
  serialization_fixed_point "M0.0004,0 L1.23456,7 M2,2 L3.3333,3 Q4,4 5.5555,5".toList
    [SVGpath.mk (encodePath 2 2 [Command.lineTo (33333 / 10000) 3,
        Command.quadTo 4 4 (55555 / 10000) 5]) false,
      SVGpath.mk (encodePath (4 / 10000) 0 [Command.lineTo (123456 / 100000) 7]) false]
    (by decide!) (by
      intro sp hsp
      simp only [List.mem_cons, List.mem_nil_iff, or_false] at hsp
      rcases hsp with rfl | rfl
      · exact ⟨2, 2, [Command.lineTo (33333 / 10000) 3, Command.quadTo 4 4 (55555 / 10000) 5],
          rfl, by simp, by decide!, by decide!, by decide!⟩
      · exact ⟨4 / 10000, 0, [Command.lineTo (123456 / 100000) 7], rfl, by simp, by decide!,
          by decide!, by decide!⟩)

/-- C25 (composition law, exact arithmetic): for all matrices `t`, `s` (two
different arrays) and every point `(x, y)`, the matrix that
`matrixMultiply(t, s)` leaves in `t` maps the point to the image under `s` of
its image under the old `t`; the matrix that `matrixPremultiply(t, s)` leaves
in `t` maps the point to the image under the old `t` of its image under `s`;
multiplying by the identity matrix on either side leaves the matrix as it
is. -/
theorem matrix_composition (t s : Matrix6) (x y : ℚ) :
    pointMatrixMultiply x y (matrixMultiply t s) =
      pointMatrixMultiply (pointMatrixMultiply x y t).1 (pointMatrixMultiply x y t).2 s ∧
    pointMatrixMultiply x y (matrixPremultiply t s) =
      pointMatrixMultiply (pointMatrixMultiply x y s).1 (pointMatrixMultiply x y s).2 t ∧
    matrixMultiply t identityMatrix = t ∧ matrixMultiply identityMatrix t = t ∧
    matrixPremultiply t identityMatrix = t ∧ matrixPremultiply identityMatrix t = t := by
  refine ⟨?_, ?_, ?_, ?_, ?_, ?_⟩
  · simp only [pointMatrixMultiply, matrixMultiply, Prod.mk.injEq]
    constructor <;> ring
  · simp only [pointMatrixMultiply, matrixPremultiply, matrixMultiply, Prod.mk.injEq]
    constructor <;> ring
  · cases t; simp [matrixMultiply, identityMatrix]
  · cases t; simp [matrixMultiply, identityMatrix]
  · cases t; simp [matrixPremultiply, matrixMultiply, identityMatrix]
  · cases t; simp [matrixPremultiply, matrixMultiply, identityMatrix]

/-- C21 (the code at the failing input): for the singular matrix
`t = (1, 2, 2, 4, 0, 0)` and `inv = (9, 9, 9, 9, 9, 9)` the call
`matrixInverse(inv, t)` leaves `inv` as it was and makes `t`, its argument,
the identity matrix; for the regular matrix `(2, 0, 0, 4, 6, 8)` it leaves
`t` as it was and stores the inverse `(1/2, 0, 0, 1/4, -3, -2)` in `inv`. -/
theorem matrixInverse_singular_overwrites_argument :
    matrixInverse ⟨9, 9, 9, 9, 9, 9⟩ ⟨1, 2, 2, 4, 0, 0⟩ =
      (⟨9, 9, 9, 9, 9, 9⟩, identityMatrix) ∧
    (matrixInverse ⟨9, 9, 9, 9, 9, 9⟩ ⟨1, 2, 2, 4, 0, 0⟩).1 ≠ identityMatrix ∧
    matrixInverse ⟨9, 9, 9, 9, 9, 9⟩ ⟨2, 0, 0, 4, 6, 8⟩ =
      (⟨1 / 2, 0, 0, 1 / 4, -3, -2⟩, ⟨2, 0, 0, 4, 6, 8⟩) := by
  decide!

/-- C23 (the code at the failing input `M0,0 C1,1 2,2 L5,5`): the letter `L`
is read while `C` has four of its six arguments; the count of collected
arguments is not cleared, so the first number after `L` makes five, which is
at least the two that `L` needs, and the line is drawn to the first two
arguments of `C`: the Path is the subpath from (0,0) with the one group
LineTo(1,1), and the absolute text is `M0,0 L1,1 `. -/
theorem leftover_arguments_reused :
    (nsvg__parsePath parser0 "M0,0 C1,1 2,2 L5,5".toList).map SVGPathparser.plist =
      Except.ok [SVGpath.mk (encodePath 0 0 [Command.lineTo 1 1]) false] ∧
    parseAbs parser0 "M0,0 C1,1 2,2 L5,5".toList = Except.ok "M0,0 L1,1 ".toList ∧
    processItem (PState.mk { parser0 with elements := [Slot.num 0, Slot.num 0] } 'C'
        [1, 1, 2, 2] 6 true 0 0 0 0 false) ['L'] =
      Except.ok (PState.mk { parser0 with elements := [Slot.num 0, Slot.num 0] } 'L'
        [1, 1, 2, 2] 2 true 0 0 0 0 false) := by
  decide!

theorem fmtG_body_chars (sgn : List Char) (hs : ∀ d ∈ sgn, d = '-') (X : ℤ) (m : ℕ) :
    ∀ c ∈ (if X < -4 ∨ 6 ≤ X then
        sgn ++ (fixedDigits 1 (m / 100000) ++
          (if stripZeros (fixedDigits 5 (m % 100000)) = [] then []
            else '.' :: stripZeros (fixedDigits 5 (m % 100000)))) ++
          ['e', if X < 0 then '-' else '+'] ++
          (if X.natAbs < 10 then '0' :: decDigits X.natAbs else decDigits X.natAbs)
      else
        sgn ++ decDigits (m / 10 ^ (5 - X).toNat) ++
          (if stripZeros (fixedDigits (5 - X).toNat (m % 10 ^ (5 - X).toNat)) = [] then []
            else '.' :: stripZeros (fixedDigits (5 - X).toNat (m % 10 ^ (5 - X).toNat)))),
      digit c = true ∨ c = '-' ∨ c = '.' ∨ c = 'e' ∨ c = '+' := by
  intro c hc
  have hfd : ∀ (w n : Nat) (d : Char), d ∈ fixedDigits w n → digit d = true :=
    fun w n d hd => fixedDigits_digit w n d hd
  have hsz : ∀ (l : List Char) (d : Char), (∀ x ∈ l, digit x = true) → d ∈ stripZeros l →
      digit d = true := fun l d hl hd => hl d (stripZeros_subset l d hd)
  have hdec : ∀ (n : Nat) (d : Char), d ∈ decDigits n → digit d = true :=
    fun n d hd => decDigits_digit n d hd
  have hfrac : ∀ (l : List Char), (∀ x ∈ l, digit x = true) →
      c ∈ (if stripZeros l = [] then [] else '.' :: stripZeros l) →
      digit c = true ∨ c = '-' ∨ c = '.' ∨ c = 'e' ∨ c = '+' := by
    intro l hl h
    split at h
    · simp at h
    · simp only [List.mem_cons] at h
      rcases h with h | h
      · exact Or.inr (Or.inr (Or.inl h))
      · exact Or.inl (hsz l c hl h)
  split at hc
  · simp only [List.mem_append] at hc
    rcases hc with ((h | h | h) | h) | h
    · exact Or.inr (Or.inl (hs c h))
    · exact Or.inl (hfd _ _ c h)
    · exact hfrac _ (fun x hx => hfd _ _ x hx) h
    · simp only [List.mem_cons, List.mem_nil_iff, or_false] at h
      rcases h with h | h
      · exact Or.inr (Or.inr (Or.inr (Or.inl h)))
      · split at h
        · exact Or.inr (Or.inl h)
        · exact Or.inr (Or.inr (Or.inr (Or.inr h)))
    · split at h
      · simp only [List.mem_cons] at h
        rcases h with h | h
        · subst h; exact Or.inl (by decide)
        · exact Or.inl (hdec _ c h)
      · exact Or.inl (hdec _ c h)
  · simp only [List.mem_append] at hc
    rcases hc with (h | h) | h
    · exact Or.inr (Or.inl (hs c h))
    · exact Or.inl (hdec _ c h)
    · exact hfrac _ (fun x hx => hfd _ _ x hx) h

/-- The characters that `%g` writes. -/
theorem fmtG_chars (v : ℚ) :
    ∀ c ∈ fmtG v, digit c = true ∨ c = '-' ∨ c = '.' ∨ c = 'e' ∨ c = '+' := by
  intro c hc
  unfold fmtG at hc
  split at hc
  · simp only [List.mem_singleton] at hc
    subst hc
    exact Or.inl (by decide)
  · have hsgn : ∀ d ∈ (if v < 0 then ['-'] else ([] : List Char)), d = '-' := by
      intro d hd
      split at hd
      · simpa using hd
      · simp at hd
    simp only [List.append_assoc] at hc
    have := fmtG_body_chars _ hsgn
      (if roundEven (|v| * (10 : ℚ) ^ (5 - decExp |v|)) = 1000000 then decExp |v| + 1
        else decExp |v|)
      (if roundEven (|v| * (10 : ℚ) ^ (5 - decExp |v|)) = 1000000 then 100000
        else roundEven (|v| * (10 : ℚ) ^ (5 - decExp |v|))) c
    simp only [List.append_assoc] at this
    exact this hc

theorem noZ_nil : NoZ [] := fun _ h => absurd h (List.not_mem_nil _)

theorem noZ_append {a b : List Char} (ha : NoZ a) (hb : NoZ b) : NoZ (a ++ b) := by
  intro c hc
  rcases List.mem_append.mp hc with h | h
  · exact ha c h
  · exact hb c h

theorem noZ_cons {c : Char} {l : List Char} (hc : c ≠ 'Z' ∧ c ≠ 'z') (hl : NoZ l) :
    NoZ (c :: l) := by
  intro d hd
  rcases List.mem_cons.mp hd with h | h
  · rw [h]; exact hc
  · exact hl d h

theorem noZ_fmtG (v : ℚ) : NoZ (fmtG v) := by
  intro c hc
  rcases fmtG_chars v c hc with h | h | h | h | h
  · constructor <;> (intro e; rw [e] at h; exact absurd h (by decide))
  all_goals (rw [h]; decide)

theorem noZ_fmtPair (x y : ℚ) : NoZ (fmtPair x y) := by
  unfold fmtPair
  exact noZ_append (noZ_append (noZ_append (noZ_fmtG x) (noZ_cons (by decide) noZ_nil))
    (noZ_fmtG y)) (noZ_cons (by decide) noZ_nil)

theorem noZ_commands {i : Nat} {c : Char} (h : commands.get? i = some c) :
    c ≠ 'Z' ∧ c ≠ 'z' := by
  have hm : c ∈ commands := List.get?_mem h
  simp only [commands, List.mem_cons, List.mem_nil_iff, or_false] at hm
  rcases hm with h | h | h | h | h | h <;> (rw [h]; decide)

theorem noZ_relative {i : Nat} {c : Char} (h : relative.get? i = some c) :
    c ≠ 'Z' ∧ c ≠ 'z' := by
  have hm : c ∈ relative := List.get?_mem h
  simp only [relative, List.mem_cons, List.mem_nil_iff, or_false] at hm
  rcases hm with h | h | h | h | h | h <;> (rw [h]; decide)

theorem noZ_absPairs : ∀ (k : Nat) (src : List Slot) (out : List Char) (last : Option (ℚ × ℚ))
    (rest : List Slot), absPairs k src = Except.ok (out, last, rest) → NoZ out := by
  intro k
  induction k with
  | zero =>
    intro src out last rest h
    simp only [absPairs, Except.ok.injEq, Prod.mk.injEq] at h
    rw [← h.1]
    exact noZ_nil
  | succ k ih =>
    intro src out last rest h
    rcases src with _ | ⟨(x | c), _ | ⟨(y | c2), src1⟩⟩
    · simp [absPairs] at h
    · simp [absPairs] at h
    · simp only [absPairs] at h
      cases hk : absPairs k src1 with
      | error e => rw [hk] at h; simp at h
      | ok r =>
        obtain ⟨o, l, r1⟩ := r
        rw [hk] at h
        simp only [Except.ok.injEq, Prod.mk.injEq] at h
        rw [← h.1]
        exact noZ_append (noZ_fmtPair _ _) (ih _ _ _ _ hk)
    · simp [absPairs] at h
    · simp [absPairs] at h
    · simp [absPairs] at h
    · simp [absPairs] at h

theorem noZ_relPairs (cx cy : ℚ) : ∀ (k : Nat) (src : List Slot) (out : List Char)
    (last : Option (ℚ × ℚ)) (rest : List Slot),
    relPairs cx cy k src = Except.ok (out, last, rest) → NoZ out := by
  intro k
  induction k with
  | zero =>
    intro src out last rest h
    simp only [relPairs, Except.ok.injEq, Prod.mk.injEq] at h
    rw [← h.1]
    exact noZ_nil
  | succ k ih =>
    intro src out last rest h
    rcases src with _ | ⟨(x | c), _ | ⟨(y | c2), src1⟩⟩
    · simp [relPairs] at h
    · simp [relPairs] at h
    · simp only [relPairs] at h
      cases hk : relPairs cx cy k src1 with
      | error e => rw [hk] at h; simp at h
      | ok r =>
        obtain ⟨o, l, r1⟩ := r
        rw [hk] at h
        simp only [Except.ok.injEq, Prod.mk.injEq] at h
        rw [← h.1]
        exact noZ_append (noZ_fmtPair _ _) (ih _ _ _ _ hk)
    · simp [relPairs] at h
    · simp [relPairs] at h
    · simp [relPairs] at h
    · simp [relPairs] at h

theorem noZ_absLoop : ∀ (fuel : Nat) (cx cy : ℚ) (src : List Slot) (t : List Char),
    absLoop fuel cx cy src = Except.ok t → NoZ t := by
  intro fuel
  induction fuel with
  | zero => intro cx cy src t h; simp [absLoop] at h
  | succ n ih =>
    intro cx cy src t h
    rcases src with _ | ⟨(v | c), src⟩
    · simp only [absLoop, Except.ok.injEq] at h
      subst h
      exact noZ_nil
    · simp [absLoop] at h
    · simp only [absLoop] at h
      have fin : ∀ (r : Except Fault (List Char)) (pre : List Char), NoZ pre →
          (∀ tl, r = Except.ok tl → NoZ tl) →
          (match r with
            | Except.error e => Except.error e
            | Except.ok tl => (Except.ok (pre ++ tl) : Except Fault (List Char))) =
              Except.ok t → NoZ t := by
        intro r pre hp hr hm
        cases r with
        | error e => simp at hm
        | ok tl =>
          simp only [Except.ok.injEq] at hm
          subst hm
          exact noZ_append hp (hr tl rfl)
      split at h
      · split at h
        · split at h
          · exact fin _ (['V'] ++ fmtG _ ++ [' ']) (noZ_append (noZ_append
              (noZ_cons (by decide) noZ_nil) (noZ_fmtG _)) (noZ_cons (by decide) noZ_nil))
              (fun tl htl => ih _ _ _ _ htl) h
          · split at h
            · exact fin _ (['H'] ++ fmtG _ ++ [' ']) (noZ_append (noZ_append
                (noZ_cons (by decide) noZ_nil) (noZ_fmtG _)) (noZ_cons (by decide) noZ_nil))
                (fun tl htl => ih _ _ _ _ htl) h
            · exact fin _ (['L'] ++ fmtG _ ++ [','] ++ fmtG _ ++ [' '])
                (noZ_append (noZ_append (noZ_append (noZ_append
                  (noZ_cons (by decide) noZ_nil) (noZ_fmtG _)) (noZ_cons (by decide) noZ_nil))
                  (noZ_fmtG _)) (noZ_cons (by decide) noZ_nil))
                (fun tl htl => ih _ _ _ _ htl) h
        · simp at h
      · split at h
        · simp at h
        · rename_i letter hg
          have hlet := noZ_commands hg
          split at h
          · split at h
            · rename_i out x y rest hp
              exact fin _ ([letter] ++ out) (noZ_append (noZ_cons hlet noZ_nil)
                (noZ_absPairs _ _ _ _ _ hp)) (fun tl htl => ih _ _ _ _ htl) h
            · simp at h
            · simp at h
          · split at h
            · rename_i rx ry rot fa fs x y rest
              exact fin _ ([letter] ++ fmtG (dig3 rx) ++ [','] ++ fmtG (dig3 ry) ++ [' '] ++
                fmtG (dig3 rot) ++ [' '] ++ fmtG (dig3 fa) ++ [' '] ++ fmtG (dig3 fs) ++ [' '] ++
                fmtG (dig3 x) ++ [','] ++ fmtG (dig3 y) ++ [' '])
                (by
                  have sep : ∀ c : Char, c ≠ 'Z' ∧ c ≠ 'z' → NoZ [c] :=
                    fun c hc => noZ_cons hc noZ_nil
                  refine noZ_append ?_ (sep _ (by decide))
                  refine noZ_append ?_ (noZ_fmtG _)
                  refine noZ_append ?_ (sep _ (by decide))
                  refine noZ_append ?_ (noZ_fmtG _)
                  refine noZ_append ?_ (sep _ (by decide))
                  refine noZ_append ?_ (noZ_fmtG _)
                  refine noZ_append ?_ (sep _ (by decide))
                  refine noZ_append ?_ (noZ_fmtG _)
                  refine noZ_append ?_ (sep _ (by decide))
                  refine noZ_append ?_ (noZ_fmtG _)
                  refine noZ_append ?_ (sep _ (by decide))
                  refine noZ_append ?_ (noZ_fmtG _)
                  refine noZ_append ?_ (sep _ (by decide))
                  exact noZ_append (sep _ hlet) (noZ_fmtG _))
                (fun tl htl => ih _ _ _ _ htl) h
            · simp at h

theorem noZ_relLoop : ∀ (fuel : Nat) (cx cy : ℚ) (src : List Slot) (t : List Char),
    relLoop fuel cx cy src = Except.ok t → NoZ t := by
  intro fuel
  induction fuel with
  | zero => intro cx cy src t h; simp [relLoop] at h
  | succ n ih =>
    intro cx cy src t h
    rcases src with _ | ⟨(v | c), src⟩
    · simp only [relLoop, Except.ok.injEq] at h
      subst h
      exact noZ_nil
    · simp [relLoop] at h
    · simp only [relLoop] at h
      have sep : ∀ c : Char, c ≠ 'Z' ∧ c ≠ 'z' → NoZ [c] := fun c hc => noZ_cons hc noZ_nil
      have fin : ∀ (r : Except Fault (List Char)) (pre : List Char), NoZ pre →
          (∀ tl, r = Except.ok tl → NoZ tl) →
          (match r with
            | Except.error e => Except.error e
            | Except.ok tl => (Except.ok (pre ++ tl) : Except Fault (List Char))) =
              Except.ok t → NoZ t := by
        intro r pre hp hr hm
        cases r with
        | error e => simp at hm
        | ok tl =>
          simp only [Except.ok.injEq] at hm
          subst hm
          exact noZ_append hp (hr tl rfl)
      split at h
      · split at h
        · rename_i x y rest
          by_cases hx : x = cx
          · rw [if_pos hx] at h
            by_cases hy : y ≠ cy
            · rw [if_pos hy] at h
              exact fin _ (['v'] ++ fmtG (trnc (y - cy)) ++ [' '])
                (noZ_append (noZ_append (sep _ (by decide)) (noZ_fmtG _)) (sep _ (by decide)))
                (fun tl htl => ih _ _ _ _ htl) h
            · rw [if_neg hy] at h
              exact ih _ _ _ _ h
          · rw [if_neg hx] at h
            by_cases hy : y = cy
            · rw [if_pos hy, if_pos (show x ≠ cx from hx)] at h
              exact fin _ (['h'] ++ fmtG (trnc (x - cx)) ++ [' '])
                (noZ_append (noZ_append (sep _ (by decide)) (noZ_fmtG _)) (sep _ (by decide)))
                (fun tl htl => ih _ _ _ _ htl) h
            · rw [if_neg hy] at h
              exact fin _ (['l'] ++ fmtG (trnc (x - cx)) ++ [','] ++ fmtG (trnc (y - cy)) ++ [' '])
                (noZ_append (noZ_append (noZ_append (noZ_append (sep _ (by decide))
                  (noZ_fmtG _)) (sep _ (by decide))) (noZ_fmtG _)) (sep _ (by decide)))
                (fun tl htl => ih _ _ _ _ htl) h
        · simp at h
      · split at h
        · simp at h
        · rename_i letter hg
          have hlet := noZ_relative hg
          split at h
          · split at h
            · rename_i out x y rest hp
              exact fin _ ([letter] ++ out) (noZ_append (sep _ hlet)
                (noZ_relPairs _ _ _ _ _ _ _ hp)) (fun tl htl => ih _ _ _ _ htl) h
            · simp at h
            · simp at h
          · split at h
            · rename_i rx ry rot fa fs x y rest
              exact fin _ ([letter] ++ fmtG (dig3 rx) ++ [','] ++ fmtG (dig3 ry) ++ [' '] ++
                fmtG (dig3 rot) ++ [' '] ++ fmtG (dig3 fa) ++ [' '] ++ fmtG (dig3 fs) ++ [' '] ++
                fmtG (dig3 (x - cx)) ++ [','] ++ fmtG (dig3 (y - cy)) ++ [' '])
                (by
                  refine noZ_append ?_ (sep _ (by decide))
                  refine noZ_append ?_ (noZ_fmtG _)
                  refine noZ_append ?_ (sep _ (by decide))
                  refine noZ_append ?_ (noZ_fmtG _)
                  refine noZ_append ?_ (sep _ (by decide))
                  refine noZ_append ?_ (noZ_fmtG _)
                  refine noZ_append ?_ (sep _ (by decide))
                  refine noZ_append ?_ (noZ_fmtG _)
                  refine noZ_append ?_ (sep _ (by decide))
                  refine noZ_append ?_ (noZ_fmtG _)
                  refine noZ_append ?_ (sep _ (by decide))
                  refine noZ_append ?_ (noZ_fmtG _)
                  refine noZ_append ?_ (sep _ (by decide))
                  exact noZ_append (sep _ hlet) (noZ_fmtG _))
                (fun tl htl => ih _ _ _ _ htl) h
            · simp at h

theorem absSubpath_congr {a b : SVGpath} (h : a.elements = b.elements) :
    absSubpath a = absSubpath b := by
  simp only [absSubpath, SVGpath.size, h]

theorem relSubpath_congr {a b : SVGpath} (h : a.elements = b.elements) :
    relSubpath a = relSubpath b := by
  simp only [relSubpath, SVGpath.size, h]

theorem generateAbsoluteSVG_congr : ∀ (P Q : List SVGpath),
    P.map SVGpath.elements = Q.map SVGpath.elements →
    generateAbsoluteSVG P = generateAbsoluteSVG Q := by
  intro P
  induction P with
  | nil =>
    intro Q h
    cases Q with
    | nil => rfl
    | cons b Q => simp at h
  | cons a P ih =>
    intro Q h
    cases Q with
    | nil => simp at h
    | cons b Q =>
      simp only [List.map_cons, List.cons.injEq] at h
      simp only [generateAbsoluteSVG, absSubpath_congr h.1, ih Q h.2]

theorem generateRelativeSVG_congr : ∀ (P Q : List SVGpath),
    P.map SVGpath.elements = Q.map SVGpath.elements →
    generateRelativeSVG P = generateRelativeSVG Q := by
  intro P
  induction P with
  | nil =>
    intro Q h
    cases Q with
    | nil => rfl
    | cons b Q => simp at h
  | cons a P ih =>
    intro Q h
    cases Q with
    | nil => simp at h
    | cons b Q =>
      simp only [List.map_cons, List.cons.injEq] at h
      simp only [generateRelativeSVG, relSubpath_congr h.1, ih Q h.2]

theorem noZ_absSubpath (sp : SVGpath) (t : List Char) (h : absSubpath sp = Except.ok t) :
    NoZ t := by
  unfold absSubpath at h
  split at h
  · rename_i x0 y0 rest he
    cases hk : absLoop (sp.size + 1) (dig3 x0) (dig3 y0) rest with
    | error e => rw [hk] at h; simp at h
    | ok tl =>
      rw [hk] at h
      simp only [Except.ok.injEq] at h
      subst h
      exact noZ_append (noZ_append (noZ_cons (by decide) noZ_nil) (noZ_fmtPair _ _))
        (noZ_absLoop _ _ _ _ _ hk)
  · simp at h

theorem noZ_relSubpath (sp : SVGpath) (t : List Char) (h : relSubpath sp = Except.ok t) :
    NoZ t := by
  unfold relSubpath at h
  split at h
  · rename_i x0 y0 rest he
    cases hk : relLoop (sp.size + 1) x0 y0 rest with
    | error e => rw [hk] at h; simp at h
    | ok tl =>
      rw [hk] at h
      simp only [Except.ok.injEq] at h
      subst h
      exact noZ_append (noZ_append (noZ_cons (by decide) noZ_nil) (noZ_fmtPair _ _))
        (noZ_relLoop _ _ _ _ _ hk)
  · simp at h

theorem noZ_generateAbsoluteSVG : ∀ (P : List SVGpath) (t : List Char),
    generateAbsoluteSVG P = Except.ok t → NoZ t := by
  intro P
  induction P with
  | nil =>
    intro t h
    simp only [generateAbsoluteSVG, Except.ok.injEq] at h
    subst h
    exact noZ_nil
  | cons sp P ih =>
    intro t h
    simp only [generateAbsoluteSVG] at h
    cases h1 : absSubpath sp with
    | error e => rw [h1] at h; simp at h
    | ok t1 =>
      cases h2 : generateAbsoluteSVG P with
      | error e => rw [h1, h2] at h; simp at h
      | ok t2 =>
        rw [h1, h2] at h
        simp only [Except.ok.injEq] at h
        subst h
        exact noZ_append (noZ_absSubpath sp t1 h1) (ih t2 h2)

theorem noZ_generateRelativeSVG : ∀ (P : List SVGpath) (t : List Char),
    generateRelativeSVG P = Except.ok t → NoZ t := by
  intro P
  induction P with
  | nil =>
    intro t h
    simp only [generateRelativeSVG, Except.ok.injEq] at h
    subst h
    exact noZ_nil
  | cons sp P ih =>
    intro t h
    simp only [generateRelativeSVG] at h
    cases h1 : relSubpath sp with
    | error e => rw [h1] at h; simp at h
    | ok t1 =>
      cases h2 : generateRelativeSVG P with
      | error e => rw [h1, h2] at h; simp at h
      | ok t2 =>
        rw [h1, h2] at h
        simp only [Except.ok.injEq] at h
        subst h
        exact noZ_append (noZ_relSubpath sp t1 h1) (ih t2 h2)

/-- C27 (the closed flag never reaches the output): two Paths whose subpaths
have the same elements, whatever their closed flags, get the same text from
`generateAbsoluteSVG` and the same text from `generateRelativeSVG`, and no
text that a generator writes holds `Z` or `z`. A subpath closed by `Z` is
finished by `nsvg__addPath` with the line back to its start point as its
last group, and that line is what the text shows: `M0,0 L1,0 L1,1 Z` is
written as `M0,0 H1 V1 L0,0 `, like `M0,0 L1,0 L1,1 L0,0`. -/
theorem closed_flag_not_in_output (P Q : List SVGpath)
    (h : P.map SVGpath.elements = Q.map SVGpath.elements) :
    generateAbsoluteSVG P = generateAbsoluteSVG Q ∧
    generateRelativeSVG P = generateRelativeSVG Q ∧
    (∀ t, generateAbsoluteSVG P = Except.ok t → 'Z' ∉ t ∧ 'z' ∉ t) ∧
    (∀ t, generateRelativeSVG P = Except.ok t → 'Z' ∉ t ∧ 'z' ∉ t) ∧
    (∀ (p : SVGPathparser) (sx sy : ℚ) (cs : List Command),
      p.elements = encodePath sx sy cs → cs ≠ [] →
      ∃ q, nsvg__addPath p true = Except.ok q ∧
        q.plist = SVGpath.mk (encodePath (applyToPoint p.matrix sx sy).1
            (applyToPoint p.matrix sx sy).2
            ((cs ++ [Command.lineTo sx sy]).map (Command.transform p.matrix p.angle))) true ::
          p.plist) ∧
    parseAbs parser0 "M0,0 L1,0 L1,1 Z".toList = Except.ok "M0,0 H1 V1 L0,0 ".toList ∧
    parseAbs parser0 "M0,0 L1,0 L1,1 L0,0".toList = Except.ok "M0,0 H1 V1 L0,0 ".toList ∧
    parseRel parser0 "M0,0 L1,0 L1,1 Z".toList = Except.ok "M0,0 h1 v1 l-1,-1 ".toList := by
  refine ⟨generateAbsoluteSVG_congr P Q h, generateRelativeSVG_congr P Q h, fun t ht => ?_,
    fun t ht => ?_, fun p sx sy cs he hne => ?_, by decide!, by decide!, by decide!⟩
  · have hz := noZ_generateAbsoluteSVG P t ht
    exact ⟨fun hm => (hz _ hm).1 rfl, fun hm => (hz _ hm).2 rfl⟩
  · have hz := noZ_generateRelativeSVG P t ht
    exact ⟨fun hm => (hz _ hm).1 rfl, fun hm => (hz _ hm).2 rfl⟩
  · refine ⟨_, addPath_encodePath p sx sy cs true he hne, ?_⟩
    simp [finishedPath, lineto_plist]

theorem closed_flag_not_in_output_witness :
    generateAbsoluteSVG [SVGpath.mk (encodePath 0 0 [Command.lineTo 1 0]) true] =
      generateAbsoluteSVG [SVGpath.mk (encodePath 0 0 [Command.lineTo 1 0]) false] :=
  (closed_flag_not_in_output [SVGpath.mk (encodePath 0 0 [Command.lineTo 1 0]) true]
    [SVGpath.mk (encodePath 0 0 [Command.lineTo 1 0]) false] rfl).1

theorem rawOK_nil : RawOK [] := Or.inl rfl

theorem rawOK_size {l : List Slot} (h : RawOK l) (hpos : 0 < l.length) :
    ∃ (sx sy : ℚ) (cs : List Command), l = encodePath sx sy cs := by
  rcases h with h | h
  · rw [h] at hpos
    exact absurd hpos (by simp)
  · exact h

/-- Appending one whole group keeps the raw array well formed. -/
theorem rawOK_snoc {l : List Slot} (h : RawOK l) (hpos : 0 < l.length) (c : Command) :
    RawOK (l ++ c.encode) := by
  obtain ⟨sx, sy, cs, rfl⟩ := rawOK_size h hpos
  exact Or.inr ⟨sx, sy, cs ++ [c], (encodePath_snoc sx sy cs c).symm⟩

theorem lineto_rawOK (p : SVGPathparser) (x y : ℚ) (h : RawOK p.elements) :
    RawOK (lineto p x y).elements ∧ (lineto p x y).plist = p.plist := by
  by_cases hs : 0 < p.size
  · obtain ⟨he, hp, -, -⟩ := lineto_spec p x y hs
    rw [he]
    exact ⟨rawOK_snoc h hs (Command.lineTo x y), hp⟩
  · have : lineto p x y = p := by simp [lineto, hs]
    rw [this]
    exact ⟨h, rfl⟩

theorem tquadto_rawOK (p : SVGPathparser) (x y : ℚ) (h : RawOK p.elements) :
    RawOK (tquadto p x y).elements ∧ (tquadto p x y).plist = p.plist := by
  by_cases hs : 0 < p.size
  · obtain ⟨he, hp, -, -⟩ := tquadto_spec p x y hs
    rw [he]
    exact ⟨rawOK_snoc h hs (Command.smoothQuadTo x y), hp⟩
  · have : tquadto p x y = p := by simp [tquadto, hs]
    rw [this]
    exact ⟨h, rfl⟩

theorem quadto_rawOK (p : SVGPathparser) (a b x y : ℚ) (h : RawOK p.elements) :
    RawOK (quadto p a b x y).elements ∧ (quadto p a b x y).plist = p.plist := by
  by_cases hs : 0 < p.size
  · obtain ⟨he, hp, -, -⟩ := quadto_spec p a b x y hs
    rw [he]
    exact ⟨rawOK_snoc h hs (Command.quadTo a b x y), hp⟩
  · have : quadto p a b x y = p := by simp [quadto, hs]
    rw [this]
    exact ⟨h, rfl⟩

theorem scurveto_rawOK (p : SVGPathparser) (a b x y : ℚ) (h : RawOK p.elements) :
    RawOK (scurveto p a b x y).elements ∧ (scurveto p a b x y).plist = p.plist := by
  by_cases hs : 0 < p.size
  · obtain ⟨he, hp, -, -⟩ := scurveto_spec p a b x y hs
    rw [he]
    exact ⟨rawOK_snoc h hs (Command.smoothCurveTo a b x y), hp⟩
  · have : scurveto p a b x y = p := by simp [scurveto, hs]
    rw [this]
    exact ⟨h, rfl⟩

theorem curveto_rawOK (p : SVGPathparser) (a b c d x y : ℚ) (h : RawOK p.elements) :
    RawOK (curveto p a b c d x y).elements ∧ (curveto p a b c d x y).plist = p.plist := by
  by_cases hs : 0 < p.size
  · obtain ⟨he, hp, -, -⟩ := curveto_spec p a b c d x y hs
    rw [he]
    exact ⟨rawOK_snoc h hs (Command.curveTo a b c d x y), hp⟩
  · have : curveto p a b c d x y = p := by simp [curveto, hs]
    rw [this]
    exact ⟨h, rfl⟩

theorem arcto_rawOK (p : SVGPathparser) (args : List ℚ) (x y : ℚ) (h : RawOK p.elements) :
    RawOK (arcto p args x y).elements ∧ (arcto p args x y).plist = p.plist := by
  by_cases hs : 0 < p.size
  · obtain ⟨he, hp, -, -⟩ := arcto_spec p args x y hs
    rw [he]
    exact ⟨rawOK_snoc h hs (Command.arcTo (args.getD 0 0) (args.getD 1 0) (args.getD 2 0)
      (args.getD 3 0) (args.getD 4 0) x y), hp⟩
  · have : arcto p args x y = p := by simp [arcto, hs]
    rw [this]
    exact ⟨h, rfl⟩

theorem pathArcTo_rawOK (p : SVGPathparser) (cpx cpy : ℚ) (args : List ℚ) (rel : Bool)
    (h : RawOK p.elements) :
    RawOK (nsvg__pathArcTo p cpx cpy args rel).1.elements ∧
      (nsvg__pathArcTo p cpx cpy args rel).1.plist = p.plist := by
  unfold nsvg__pathArcTo
  simp only
  by_cases hd : arcDegenerate |args.getD 0 0| |args.getD 1 0|
      (cpx - if rel = true then cpx + args.getD 5 0 else args.getD 5 0)
      (cpy - if rel = true then cpy + args.getD 6 0 else args.getD 6 0) = true
  · rw [if_pos hd]
    exact lineto_rawOK p _ _ h
  · rw [if_neg hd]
    exact arcto_rawOK p _ _ _ h

/-- The function `nsvg__addPath` on a well formed raw array: it returns, and
the subpath it may have added is well formed. -/
theorem addPath_total (p0 p : SVGPathparser) (closed : Bool) (h : RawOK p.elements)
    (hp : PlistOK p0 p.plist) :
    ∃ q, nsvg__addPath p closed = Except.ok q ∧ PlistOK p0 q.plist := by
  by_cases hs : p.size < 4
  · refine ⟨p, ?_, hp⟩
    simp [nsvg__addPath, hs]
  · obtain ⟨sx, sy, cs, he⟩ := rawOK_size h (show 0 < p.elements.length by
      unfold SVGPathparser.size at hs; omega)
    have hne : cs ≠ [] := by
      rintro rfl
      apply hs
      simp [SVGPathparser.size, he, encodePath, encodeAll]
    refine ⟨_, addPath_encodePath p sx sy cs closed he hne, ?_⟩
    intro sp hsp
    have hpl : (if closed = true then lineto p sx sy else p).plist = p.plist := by
      cases closed
      · rfl
      · exact lineto_plist p sx sy
    simp only [List.mem_cons] at hsp
    rcases hsp with rfl | hsp
    · right
      refine ⟨_, _, _, ?_, rfl⟩
      cases closed <;> simp [hne]
    · exact hp sp hsp

/-- The `switch (cmd)` of `nsvg__parsePath` returns and keeps the invariant
of the loop. -/
theorem execCommand_inv (p0 : SVGPathparser) (st : PState) (h : LoopInv p0 st) :
    ∃ st1, execCommand st = Except.ok st1 ∧ LoopInv p0 st1 := by
  obtain ⟨hr, hm, hp⟩ := h
  unfold execCommand
  by_cases hM : st.cmd = 'm' ∨ st.cmd = 'M'
  · rw [if_pos hM]
    have he : st.p.elements = [] := hm (hM.symm)
    obtain ⟨q, hq, hqe, hqp, -, -⟩ := moveto_empty st.p
      (if decide (st.cmd = 'm') = true then st.cpx + st.args.getD 0 0 else st.args.getD 0 0)
      (if decide (st.cmd = 'm') = true then st.cpy + st.args.getD 1 0 else st.args.getD 1 0) he
    simp only [nsvg__pathMoveTo, hq]
    refine ⟨_, rfl, ?_, ?_, ?_⟩
    · exact Or.inr ⟨_, _, [], hqe⟩
    · intro hc
      exfalso
      have hc2 : (if st.cmd = 'm' then 'l' else 'L') = 'M' ∨
          (if st.cmd = 'm' then 'l' else 'L') = 'm' := hc
      rcases hc2 with hc2 | hc2 <;> (split at hc2 <;> exact absurd hc2 (by decide))
    · show PlistOK p0 q.plist
      rw [hqp]
      exact hp
  · rw [if_neg hM]
    have hnM : ¬ (st.cmd = 'M' ∨ st.cmd = 'm') := fun hc => hM hc.symm
    by_cases h0 : st.cmd = 'l' ∨ st.cmd = 'L'
    · rw [if_pos h0]
      exact ⟨_, rfl, (lineto_rawOK st.p _ _ hr).1, fun hc => absurd hc hnM,
        (lineto_rawOK st.p _ _ hr).2 ▸ hp⟩
    rw [if_neg h0]
    by_cases h1 : st.cmd = 'H' ∨ st.cmd = 'h'
    · rw [if_pos h1]
      exact ⟨_, rfl, (lineto_rawOK st.p _ _ hr).1, fun hc => absurd hc hnM,
        (lineto_rawOK st.p _ _ hr).2 ▸ hp⟩
    rw [if_neg h1]
    by_cases h2 : st.cmd = 'V' ∨ st.cmd = 'v'
    · rw [if_pos h2]
      exact ⟨_, rfl, (lineto_rawOK st.p _ _ hr).1, fun hc => absurd hc hnM,
        (lineto_rawOK st.p _ _ hr).2 ▸ hp⟩
    rw [if_neg h2]
    by_cases h3 : st.cmd = 'C' ∨ st.cmd = 'c'
    · rw [if_pos h3]
      exact ⟨_, rfl, (curveto_rawOK st.p _ _ _ _ _ _ hr).1, fun hc => absurd hc hnM,
        (curveto_rawOK st.p _ _ _ _ _ _ hr).2 ▸ hp⟩
    rw [if_neg h3]
    by_cases h4 : st.cmd = 'S' ∨ st.cmd = 's'
    · rw [if_pos h4]
      exact ⟨_, rfl, (scurveto_rawOK st.p _ _ _ _ hr).1, fun hc => absurd hc hnM,
        (scurveto_rawOK st.p _ _ _ _ hr).2 ▸ hp⟩
    rw [if_neg h4]
    by_cases h5 : st.cmd = 'Q' ∨ st.cmd = 'q'
    · rw [if_pos h5]
      exact ⟨_, rfl, (quadto_rawOK st.p _ _ _ _ hr).1, fun hc => absurd hc hnM,
        (quadto_rawOK st.p _ _ _ _ hr).2 ▸ hp⟩
    rw [if_neg h5]
    by_cases h6 : st.cmd = 'T' ∨ st.cmd = 't'
    · rw [if_pos h6]
      exact ⟨_, rfl, (tquadto_rawOK st.p _ _ hr).1, fun hc => absurd hc hnM,
        (tquadto_rawOK st.p _ _ hr).2 ▸ hp⟩
    rw [if_neg h6]
    by_cases h7 : st.cmd = 'A' ∨ st.cmd = 'a'
    · rw [if_pos h7]
      exact ⟨_, rfl, (pathArcTo_rawOK st.p _ _ _ _ hr).1, fun hc => absurd hc hnM,
        (pathArcTo_rawOK st.p _ _ _ _ hr).2 ▸ hp⟩
    rw [if_neg h7]
    by_cases h8 : st.nargs ≥ 2
    · rw [if_pos h8]
      exact ⟨_, rfl, hr, fun hc => absurd hc hnM, hp⟩
    rw [if_neg h8]
    exact ⟨_, rfl, hr, fun hc => absurd hc hnM, hp⟩

/-- The branch for a coordinate item returns and keeps the invariant of the
loop. -/
theorem processCoordinate_inv (p0 : SVGPathparser) (st : PState) (item : List Char)
    (h : LoopInv p0 st) :
    ∃ st1, processCoordinate st item = Except.ok st1 ∧ LoopInv p0 st1 := by
  unfold processCoordinate
  have key : ∀ st1 : PState, LoopInv p0 st1 →
      ∃ st2, (if (st1.nargs : Int) ≥ st1.rargs then execCommand st1 else Except.ok st1) =
        Except.ok st2 ∧ LoopInv p0 st2 := by
    intro st1 h1
    by_cases hc : (st1.nargs : Int) ≥ st1.rargs
    · rw [if_pos hc]
      exact execCommand_inv p0 _ h1
    · rw [if_neg hc]
      exact ⟨_, rfl, h1⟩
  apply key
  by_cases hn : st.nargs < 10
  · rw [if_pos hn]
    exact h
  · rw [if_neg hn]
    exact h

theorem resetPath_spec (q : SVGPathparser) :
    (nsvg__resetPath q).elements = [] ∧ (nsvg__resetPath q).plist = q.plist := ⟨rfl, rfl⟩

/-- The last step of the branch for a letter: the required count is looked
up and an unknown letter clears the command. -/
theorem rargs_step_inv (p0 : SVGPathparser) (st3 : PState) (h : LoopInv p0 st3) :
    ∃ st4, (if numberOfArguments st3.cmd.toNat = -1 then
        (Except.ok { st3 with cmd := Char.ofNat 0, rargs := 0 } : Except Fault PState)
      else Except.ok { st3 with rargs := numberOfArguments st3.cmd.toNat }) = Except.ok st4 ∧
      LoopInv p0 st4 := by
  by_cases hr : numberOfArguments st3.cmd.toNat = -1
  · rw [if_pos hr]
    refine ⟨_, rfl, h.1, fun hc => ?_, h.2.2⟩
    exfalso
    have hc2 : Char.ofNat 0 = 'M' ∨ Char.ofNat 0 = 'm' := hc
    revert hc2
    decide
  · rw [if_neg hr]
    exact ⟨_, rfl, h⟩

/-- The commit at the letters `M` and `m` returns a parser whose finished
subpaths are well formed. -/
theorem commit_total (p0 p : SVGPathparser) (closed : Bool) (h : RawOK p.elements)
    (hp : PlistOK p0 p.plist) :
    ∃ q, (if p.size > 0 then nsvg__addPath p closed else Except.ok p) = Except.ok q ∧
      PlistOK p0 q.plist := by
  by_cases hs : p.size > 0
  · rw [if_pos hs]
    exact addPath_total p0 p closed h hp
  · rw [if_neg hs]
    exact ⟨p, rfl, hp⟩

/-- The block for the letters `Z` and `z` returns: the raw array is committed
and reopened with `moveto` on the empty array. -/
theorem close_step_inv (p0 : SVGPathparser) (st1 : PState) (h : LoopInv p0 st1) :
    ∃ st3, (match (if st1.p.size > 0 then
          match numAt st1.p.elements 0, numAt st1.p.elements 1 with
          | Except.ok x0, Except.ok y0 =>
            match nsvg__addPath st1.p true with
            | Except.error e => Except.error e
            | Except.ok q =>
              Except.ok { st1 with closedFlag := true, cpx := x0, cpy := y0, cpx2 := x0,
                                   cpy2 := y0, p := q }
          | _, _ => Except.error Fault.slot
        else Except.ok { st1 with closedFlag := true } : Except Fault PState) with
      | Except.error e => Except.error e
      | Except.ok st2 =>
        match moveto (nsvg__resetPath st2.p) st2.cpx st2.cpy with
        | Except.error e => Except.error e
        | Except.ok q => Except.ok { st2 with p := q, closedFlag := false, args := [] }) =
      Except.ok st3 ∧ st3.cmd = st1.cmd ∧ RawOK st3.p.elements ∧ PlistOK p0 st3.p.plist := by
  obtain ⟨hr, -, hp⟩ := h
  have fin : ∀ st2 : PState, PlistOK p0 st2.p.plist → st2.cmd = st1.cmd →
      ∃ st3, (match moveto (nsvg__resetPath st2.p) st2.cpx st2.cpy with
        | Except.error e => Except.error e
        | Except.ok q => Except.ok { st2 with p := q, closedFlag := false, args := [] }) =
      Except.ok st3 ∧ st3.cmd = st1.cmd ∧ RawOK st3.p.elements ∧ PlistOK p0 st3.p.plist := by
    intro st2 h2 hc
    obtain ⟨q, hq, hqe, hqp, -, -⟩ := moveto_empty (nsvg__resetPath st2.p) st2.cpx st2.cpy rfl
    rw [hq]
    refine ⟨_, rfl, hc, Or.inr ⟨_, _, [], hqe⟩, ?_⟩
    show PlistOK p0 q.plist
    rw [hqp]
    exact h2
  by_cases hs : st1.p.size > 0
  · rw [if_pos hs]
    obtain ⟨sx, sy, cs, he⟩ := rawOK_size hr hs
    have h0 : numAt st1.p.elements 0 = Except.ok sx := by simp [numAt, he, encodePath]
    have h1 : numAt st1.p.elements 1 = Except.ok sy := by simp [numAt, he, encodePath]
    obtain ⟨q, hq, hqp⟩ := addPath_total p0 st1.p true hr hp
    simp only [h0, h1, hq]
    exact fin { st1 with closedFlag := true, cpx := sx, cpy := sy, cpx2 := sx, cpy2 := sy,
                         p := q } hqp rfl
  · rw [if_neg hs]
    exact fin { st1 with closedFlag := true } hp rfl

/-- The branch for a letter returns and keeps the invariant of the loop. -/
theorem processLetter_inv (p0 : SVGPathparser) (st : PState) (item : List Char)
    (h : LoopInv p0 st) :
    ∃ st1, processLetter st item = Except.ok st1 ∧ LoopInv p0 st1 := by
  have hZ : ∀ st1 : PState, LoopInv p0 st1 →
      ∃ st4, (match (if st1.cmd = 'Z' ∨ st1.cmd = 'z' then
          (match (if st1.p.size > 0 then
              match numAt st1.p.elements 0, numAt st1.p.elements 1 with
              | Except.ok x0, Except.ok y0 =>
                match nsvg__addPath st1.p true with
                | Except.error e => Except.error e
                | Except.ok q =>
                  Except.ok { st1 with closedFlag := true, cpx := x0, cpy := y0, cpx2 := x0,
                                       cpy2 := y0, p := q }
              | _, _ => Except.error Fault.slot
            else Except.ok { st1 with closedFlag := true } : Except Fault PState) with
          | Except.error e => Except.error e
          | Except.ok st2 =>
            match moveto (nsvg__resetPath st2.p) st2.cpx st2.cpy with
            | Except.error e => Except.error e
            | Except.ok q => Except.ok { st2 with p := q, closedFlag := false, args := [] })
        else Except.ok st1 : Except Fault PState) with
      | Except.error e => Except.error e
      | Except.ok st3 =>
        if numberOfArguments st3.cmd.toNat = -1 then
          Except.ok { st3 with cmd := Char.ofNat 0, rargs := 0 }
        else Except.ok { st3 with rargs := numberOfArguments st3.cmd.toNat }) =
        Except.ok st4 ∧ LoopInv p0 st4 := by
    intro st1 h1
    by_cases hz : st1.cmd = 'Z' ∨ st1.cmd = 'z'
    · rw [if_pos hz]
      obtain ⟨st3, h3, hc, hr, hp⟩ := close_step_inv p0 st1 h1
      rw [h3]
      refine rargs_step_inv p0 st3 ⟨hr, fun hm => ?_, hp⟩
      exfalso
      rw [hc] at hm
      rcases hz with hz | hz <;> rw [hz] at hm <;> revert hm <;> decide
    · rw [if_neg hz]
      exact rargs_step_inv p0 st1 h1
  unfold processLetter
  simp only
  by_cases hM : deref item = 'M' ∨ deref item = 'm'
  · rw [if_pos hM]
    obtain ⟨q, hq, hqp⟩ := commit_total p0 st.p st.closedFlag h.1 h.2.2
    rw [hq]
    exact hZ { st with cmd := deref item, p := nsvg__resetPath q, closedFlag := false,
                       args := [] } ⟨rawOK_nil, fun _ => rfl, hqp⟩
  · rw [if_neg hM]
    by_cases hi : st.initPoint = false
    · rw [if_pos hi]
      refine hZ { st with cmd := Char.ofNat 0 } ⟨h.1, fun hc => ?_, h.2.2⟩
      exfalso
      have hc2 : Char.ofNat 0 = 'M' ∨ Char.ofNat 0 = 'm' := hc
      revert hc2
      decide
    · rw [if_neg hi]
      exact hZ { st with cmd := deref item } ⟨h.1, fun hc => absurd hc hM, h.2.2⟩

/-- The body of the loop returns and keeps the invariant of the loop. -/
theorem processItem_inv (p0 : SVGPathparser) (st : PState) (item : List Char)
    (h : LoopInv p0 st) :
    ∃ st1, processItem st item = Except.ok st1 ∧ LoopInv p0 st1 := by
  unfold processItem
  split
  · exact processCoordinate_inv p0 st item h
  · exact processLetter_inv p0 st item h

theorem loopInv_initialState (p : SVGPathparser) : LoopInv p (initialState p) :=
  ⟨rawOK_nil, fun _ => rfl, fun _ hsp => Or.inl hsp⟩

/-- The loop of `nsvg__parsePath` returns when the fuel exceeds the length of
the text, and keeps the invariant. -/
theorem parseLoop_total (p0 : SVGPathparser) :
    ∀ (fuel : Nat) (st : PState) (s : List Char), s.length < fuel → LoopInv p0 st →
      ∃ st1, parseLoop fuel st s = Except.ok st1 ∧ LoopInv p0 st1 := by
  intro fuel
  induction fuel with
  | zero => intro st s h; exact absurd h (by omega)
  | succ n ih =>
    intro st s hlen hinv
    unfold parseLoop
    by_cases h0 : deref s = Char.ofNat 0
    · rw [if_pos h0]
      exact ⟨st, rfl, hinv⟩
    · rw [if_neg h0]
      simp only
      by_cases hit : (nextItem st s).2 = []
      · rw [if_pos hit]
        exact ⟨st, rfl, hinv⟩
      · rw [if_neg hit]
        obtain ⟨st1, h1, hinv1⟩ := processItem_inv p0 st (nextItem st s).2 hinv
        rw [h1]
        have hadv := (nextItem_adv st s).2.2 hit
        exact ih st1 _ (by omega) hinv1

/-- The function `nsvg__parsePath` returns on every text, and every subpath of
its result was in the list before or is well formed. -/
theorem parsePath_total (p : SVGPathparser) (s : List Char) :
    ∃ q, nsvg__parsePath p s = Except.ok q ∧ PlistOK p q.plist := by
  obtain ⟨st, hst, hr, -, hp⟩ := parseLoop_total p (s.length + 1) (initialState p) s
    (Nat.lt_succ_self _) (loopInv_initialState p)
  unfold nsvg__parsePath
  rw [hst]
  simp only
  by_cases hs : st.p.size ≠ 0
  · rw [if_pos hs]
    exact addPath_total p st.p st.closedFlag hr hp
  · rw [if_neg hs]
    exact ⟨st.p, rfl, hp⟩

/-- One group in `generateRelativeSVG`: the loop goes on with the slots after
the group. -/
theorem relLoop_encode_step (fuel : Nat) (cx cy : ℚ) (c : Command) (rest : List Slot)
    (h : ∀ cx1 cy1 : ℚ, ∃ t, relLoop fuel cx1 cy1 rest = Except.ok t) :
    ∃ t, relLoop (fuel + 1) cx cy (c.encode ++ rest) = Except.ok t := by
  have h1 : (513 &&& 255 : Nat) = 1 := by decide
  have h2 : (1026 &&& 255 : Nat) = 2 := by decide
  have h3 : (1027 &&& 255 : Nat) = 3 := by decide
  have h4 : (1540 &&& 255 : Nat) = 4 := by decide
  have h5 : (1797 &&& 255 : Nat) = 5 := by decide
  cases c with
  | lineTo x y =>
    show ∃ t, relLoop (fuel + 1) cx cy (Slot.cmd LINETO :: Slot.num x :: Slot.num y :: rest) = _
    simp only [relLoop, if_true]
    by_cases hx : x = cx
    · rw [if_pos hx]
      by_cases hy : y ≠ cy
      · rw [if_pos hy]
        obtain ⟨t, ht⟩ := h cx y
        rw [ht]
        exact ⟨_, rfl⟩
      · rw [if_neg hy]
        exact h cx cy
    · rw [if_neg hx]
      by_cases hy : y = cy
      · rw [if_pos hy, if_pos hx]
        obtain ⟨t, ht⟩ := h x cy
        rw [ht]
        exact ⟨_, rfl⟩
      · rw [if_neg hy]
        obtain ⟨t, ht⟩ := h x y
        rw [ht]
        exact ⟨_, rfl⟩
  | smoothQuadTo x y =>
    show ∃ t, relLoop (fuel + 1) cx cy (Slot.cmd TQUADTO :: Slot.num x :: Slot.num y :: rest) = _
    obtain ⟨t, ht⟩ := h (dig3 x) (dig3 y)
    simp [relLoop, relPairs, TQUADTO_eq, LINETO_eq, relative, h1, ht]
  | quadTo x1 y1 x y =>
    show ∃ t, relLoop (fuel + 1) cx cy (Slot.cmd QUADTO :: Slot.num x1 :: Slot.num y1 ::
      Slot.num x :: Slot.num y :: rest) = _
    obtain ⟨t, ht⟩ := h (dig3 x) (dig3 y)
    simp [relLoop, relPairs, QUADTO_eq, LINETO_eq, relative, h2, ht]
  | smoothCurveTo x1 y1 x y =>
    show ∃ t, relLoop (fuel + 1) cx cy (Slot.cmd SCURVETO :: Slot.num x1 :: Slot.num y1 ::
      Slot.num x :: Slot.num y :: rest) = _
    obtain ⟨t, ht⟩ := h (dig3 x) (dig3 y)
    simp [relLoop, relPairs, SCURVETO_eq, LINETO_eq, relative, h3, ht]
  | curveTo x1 y1 x2 y2 x y =>
    show ∃ t, relLoop (fuel + 1) cx cy (Slot.cmd CURVETO :: Slot.num x1 :: Slot.num y1 ::
      Slot.num x2 :: Slot.num y2 :: Slot.num x :: Slot.num y :: rest) = _
    obtain ⟨t, ht⟩ := h (dig3 x) (dig3 y)
    simp [relLoop, relPairs, CURVETO_eq, LINETO_eq, relative, h4, ht]
  | arcTo rx ry rot fa fs x y =>
    show ∃ t, relLoop (fuel + 1) cx cy (Slot.cmd ARCTO :: Slot.num rx :: Slot.num ry ::
      Slot.num rot :: Slot.num fa :: Slot.num fs :: Slot.num x :: Slot.num y :: rest) = _
    obtain ⟨t, ht⟩ := h (dig3 x) (dig3 y)
    simp [relLoop, ARCTO_eq, LINETO_eq, relative, h5, ht]

theorem relLoop_encodeAll (cs : List Command) :
    ∀ (fuel : Nat) (cx cy : ℚ), (encodeAll cs).length < fuel →
      ∃ t, relLoop fuel cx cy (encodeAll cs) = Except.ok t := by
  induction cs with
  | nil =>
    intro fuel cx cy h
    cases fuel with
    | zero => simp [encodeAll] at h
    | succ n => exact ⟨[], by simp [encodeAll, relLoop]⟩
  | cons c cs ih =>
    intro fuel cx cy h
    cases fuel with
    | zero => simp at h
    | succ n =>
      have hlen := encode_length_pos c
      simp only [encodeAll, List.length_append] at h
      have h2 : (encodeAll cs).length < n := by omega
      simp only [encodeAll]
      exact relLoop_encode_step n cx cy c _ (fun cx1 cy1 => ih n cx1 cy1 h2)

theorem relSubpath_subOK (sp : SVGpath) (h : SubOK sp) : ∃ t, relSubpath sp = Except.ok t := by
  obtain ⟨sx, sy, cs, -, he⟩ := h
  have hl : (encodeAll cs).length < sp.size + 1 := by
    simp [SVGpath.size, he, encodePath]
    omega
  obtain ⟨t, ht⟩ := relLoop_encodeAll cs (sp.size + 1) sx sy hl
  simp only [relSubpath, he, encodePath, ht]
  exact ⟨_, rfl⟩

theorem generateRelativeSVG_subOK : ∀ (l : List SVGpath), (∀ sp ∈ l, SubOK sp) →
    ∃ t, generateRelativeSVG l = Except.ok t
  | [], _ => ⟨[], rfl⟩
  | sp :: next, h => by
    obtain ⟨t, ht⟩ := relSubpath_subOK sp (h sp (List.mem_cons_self _ _))
    obtain ⟨tl, htl⟩ := generateRelativeSVG_subOK next
      (fun x hx => h x (List.mem_cons_of_mem _ hx))
    exact ⟨t ++ tl, by simp only [generateRelativeSVG, ht, htl]⟩

theorem generateAbsoluteSVG_subOK : ∀ (l : List SVGpath), (∀ sp ∈ l, SubOK sp) →
    ∃ t, generateAbsoluteSVG l = Except.ok t
  | [], _ => ⟨[], rfl⟩
  | sp :: next, h => by
    obtain ⟨sx, sy, cs, -, he⟩ := h sp (List.mem_cons_self _ _)
    have ht := absSubpath_encodePath sp sx sy cs he
    obtain ⟨tl, htl⟩ := generateAbsoluteSVG_subOK next
      (fun x hx => h x (List.mem_cons_of_mem _ hx))
    exact ⟨subpathText sx sy cs ++ tl, by simp only [generateAbsoluteSVG, ht, htl]⟩

/-- One group is a code out of the six followed by `code >> 8` values. -/
theorem encode_group (c : Command) :
    ∃ g : Nat × List ℚ, c.encode = groupSlots g ∧ g.1 ∈ tags ∧ g.2.length = g.1 >>> 8 := by
  have m1 : LINETO ∈ tags := by decide
  have m2 : TQUADTO ∈ tags := by decide
  have m3 : QUADTO ∈ tags := by decide
  have m4 : SCURVETO ∈ tags := by decide
  have m5 : CURVETO ∈ tags := by decide
  have m6 : ARCTO ∈ tags := by decide
  have n1 : 2 = LINETO >>> 8 := by decide
  have n2 : 2 = TQUADTO >>> 8 := by decide
  have n3 : 4 = QUADTO >>> 8 := by decide
  have n4 : 4 = SCURVETO >>> 8 := by decide
  have n5 : 6 = CURVETO >>> 8 := by decide
  have n6 : 7 = ARCTO >>> 8 := by decide
  cases c with
  | lineTo x y => exact ⟨(LINETO, [x, y]), rfl, m1, n1⟩
  | smoothQuadTo x y => exact ⟨(TQUADTO, [x, y]), rfl, m2, n2⟩
  | quadTo x1 y1 x y => exact ⟨(QUADTO, [x1, y1, x, y]), rfl, m3, n3⟩
  | smoothCurveTo x1 y1 x y => exact ⟨(SCURVETO, [x1, y1, x, y]), rfl, m4, n4⟩
  | curveTo x1 y1 x2 y2 x y => exact ⟨(CURVETO, [x1, y1, x2, y2, x, y]), rfl, m5, n5⟩
  | arcTo rx ry rot fa fs x y => exact ⟨(ARCTO, [rx, ry, rot, fa, fs, x, y]), rfl, m6, n6⟩

theorem encodeAll_groups (cs : List Command) :
    ∃ gs : List (Nat × List ℚ), gs.length = cs.length ∧
      (∀ g ∈ gs, g.1 ∈ tags ∧ g.2.length = g.1 >>> 8) ∧
      encodeAll cs = (gs.map groupSlots).flatten ∧
      (encodeAll cs).length = (gs.map (fun g => 1 + (g.1 >>> 8))).sum := by
  induction cs with
  | nil => exact ⟨[], rfl, by simp, rfl, rfl⟩
  | cons c cs ih =>
    obtain ⟨gs, hl, hg, he, hs⟩ := ih
    obtain ⟨g, hc, ht, hv⟩ := encode_group c
    refine ⟨g :: gs, by simp [hl], ?_, ?_, ?_⟩
    · intro g1 hg1
      simp only [List.mem_cons] at hg1
      rcases hg1 with rfl | hg1
      · exact ⟨ht, hv⟩
      · exact hg g1 hg1
    · simp only [encodeAll, hc, he, List.map_cons, List.flatten_cons]
    · simp only [encodeAll, List.length_append, hs, List.map_cons, List.sum_cons, hc, groupSlots,
        List.length_cons, List.length_map, hv]
      omega

/-- A subpath made of a start point and whole groups has the structure that
the specification words. -/
theorem subOK_wellFormed (sp : SVGpath) (h : SubOK sp) : WellFormed sp := by
  obtain ⟨sx, sy, cs, hne, he⟩ := h
  obtain ⟨gs, hl, hg, hgs, hs⟩ := encodeAll_groups cs
  refine ⟨sx, sy, gs, ?_, hg, ?_, ?_⟩
  · intro hgs0
    rw [hgs0] at hl
    exact hne (List.length_eq_zero.mp hl.symm)
  · rw [he, encodePath, hgs]
  · simp only [SVGpath.size, he, encodePath, List.length_cons, hs]
    omega

theorem putItem_ne_nil (last : Nat) (it : List Char) (c : Char) (h : it ≠ [] ∨ 0 < last) :
    putItem last it c ≠ [] := by
  unfold putItem
  split
  · simp
  · rename_i hl
    rcases h with h | h
    · exact h
    · intro hit
      rw [hit] at hl
      exact hl h

theorem copyDigits_item_ne (last : Nat) (s : List Char) :
    ∀ it : List Char, it ≠ [] → (copyDigits last s it).2 ≠ [] := by
  induction s with
  | nil => intro it h; exact h
  | cons c s ih =>
    intro it h
    unfold copyDigits
    split
    · exact ih _ (putItem_ne_nil last it c (Or.inl h))
    · exact h

/-- The item of `parseNumber` is not empty when the text starts with a sign,
a point or a digit and the item has room for a character. -/
theorem parseNumber_item_ne (s : List Char) (size : Nat) (hsize : 1 < size)
    (h : deref s = '-' ∨ deref s = '+' ∨ deref s = '.' ∨ digit (deref s) = true) :
    (parseNumber s size).2 ≠ [] := by
  have hlast : 0 < size - 1 := by omega
  have hfin : ∀ r2 : List Char × List Char, r2.2 ≠ [] →
      (if (deref r2.1 = 'e' ∨ deref r2.1 = 'E') ∧
          (deref r2.1.tail ≠ 'm' ∧ deref r2.1.tail ≠ 'x') then
        copyDigits (size - 1)
          (if deref r2.1.tail = '-' ∨ deref r2.1.tail = '+' then
            (r2.1.tail.tail, putItem (size - 1) (putItem (size - 1) r2.2 (deref r2.1))
              (deref r2.1.tail))
          else (r2.1.tail, putItem (size - 1) r2.2 (deref r2.1))).1
          (if deref r2.1.tail = '-' ∨ deref r2.1.tail = '+' then
            (r2.1.tail.tail, putItem (size - 1) (putItem (size - 1) r2.2 (deref r2.1))
              (deref r2.1.tail))
          else (r2.1.tail, putItem (size - 1) r2.2 (deref r2.1))).2
      else r2).2 ≠ [] := by
    intro r2 h2
    split
    · apply copyDigits_item_ne
      split
      · exact putItem_ne_nil _ _ _ (Or.inl (putItem_ne_nil _ _ _ (Or.inl h2)))
      · exact putItem_ne_nil _ _ _ (Or.inl h2)
    · exact h2
  have hr2 : ∀ r1 : List Char × List Char, (r1.2 ≠ [] ∨ deref r1.1 = '.') →
      (if deref r1.1 = '.' then
        copyDigits (size - 1) r1.1.tail (putItem (size - 1) r1.2 (deref r1.1)) else r1).2 ≠
        [] := by
    intro r1 h1
    split
    · exact copyDigits_item_ne _ _ _ (putItem_ne_nil _ _ _ (Or.inr hlast))
    · rename_i hd
      exact h1.resolve_right hd
  have hr1 : (copyDigits (size - 1)
      (if deref s = '-' ∨ deref s = '+' then (s.tail, putItem (size - 1) [] (deref s))
        else (s, [])).1
      (if deref s = '-' ∨ deref s = '+' then (s.tail, putItem (size - 1) [] (deref s))
        else (s, [])).2).2 ≠ [] ∨
      deref (copyDigits (size - 1)
      (if deref s = '-' ∨ deref s = '+' then (s.tail, putItem (size - 1) [] (deref s))
        else (s, [])).1
      (if deref s = '-' ∨ deref s = '+' then (s.tail, putItem (size - 1) [] (deref s))
        else (s, [])).2).1 = '.' := by
    by_cases hs : deref s = '-' ∨ deref s = '+'
    · rw [if_pos hs]
      exact Or.inl (copyDigits_item_ne _ _ _ (putItem_ne_nil _ _ _ (Or.inr hlast)))
    · rw [if_neg hs]
      have h' : deref s = '.' ∨ digit (deref s) = true := by
        rcases h with h | h | h | h
        · exact absurd (Or.inl h) hs
        · exact absurd (Or.inr h) hs
        · exact Or.inl h
        · exact Or.inr h
      rcases s with _ | ⟨c, t⟩
      · exfalso
        rcases h' with h' | h' <;> revert h' <;> decide
      · have hc : deref (c :: t) = c := rfl
        rw [hc] at h'
        rcases h' with h' | h'
        · right
          subst h'
          have : copyDigits (size - 1) ('.' :: t) [] = ('.' :: t, []) := by
            rw [copyDigits, if_neg (by decide)]
          simp only [this]
          rfl
        · left
          have h0 := (digit_props h').2.2.2.2.2.2.1
          have : copyDigits (size - 1) (c :: t) [] =
              copyDigits (size - 1) t (putItem (size - 1) [] c) := by
            rw [copyDigits, if_pos ⟨h0, h'⟩]
          simp only [this]
          exact copyDigits_item_ne _ _ _ (putItem_ne_nil _ _ _ (Or.inr hlast))
  unfold parseNumber
  simp only
  exact hfin _ (hr2 _ hr1)

/-- The function `nsvg__getNextPathItem`: an empty item with the cursor at
the end of the text, or an item that is not empty with the cursor moved
forward. -/
theorem getNextPathItem_progress (s : List Char) :
    ((nsvg__getNextPathItem s).2 = [] ∧ deref (nsvg__getNextPathItem s).1 = Char.ofNat 0) ∨
    ((nsvg__getNextPathItem s).2 ≠ [] ∧ (nsvg__getNextPathItem s).1.length < s.length) := by
  have hadv := (getNextPathItem_adv s).2.2
  by_cases h0 : deref (skipSeparators s) = Char.ofNat 0
  · left
    have : nsvg__getNextPathItem s = (skipSeparators s, []) := by
      unfold nsvg__getNextPathItem
      simp only
      rw [if_pos h0]
    rw [this]
    exact ⟨rfl, h0⟩
  · right
    have hne : (nsvg__getNextPathItem s).2 ≠ [] := by
      unfold nsvg__getNextPathItem
      simp only
      rw [if_neg h0]
      by_cases hn : deref (skipSeparators s) = '-' ∨ deref (skipSeparators s) = '+' ∨
          deref (skipSeparators s) = '.' ∨ digit (deref (skipSeparators s)) = true
      · rw [if_pos hn]
        exact parseNumber_item_ne _ ITEM_SIZE (by decide) hn
      · rw [if_neg hn]
        simp
    exact ⟨hne, hadv hne⟩

/-- Every state at the top of the loop of `nsvg__parsePath` satisfies the
invariant of the loop. -/
theorem reachable_inv (p : SVGPathparser) (s : List Char) (st : PState) (cur : List Char)
    (h : Reachable p s st cur) : LoopInv p st := by
  induction h with
  | start => exact loopInv_initialState p
  | step st st1 cur _ _ _ hproc ih =>
    obtain ⟨st2, h2, hinv⟩ := processItem_inv p st (nextItem st cur).2 ih
    rw [h2] at hproc
    cases hproc
    exact hinv

/-- C22 (structure of the output): for every matrix, angle and text,
`nsvg__parsePath` on a new parser returns, and every subpath of its result is
a start point of two untagged values followed by at least one group, each
group one of the six codes `LINETO`, `TQUADTO`, `QUADTO`, `SCURVETO`,
`CURVETO`, `ARCTO` followed by exactly `code >> 8` values, the lengths of the
groups and 2 adding up to the size; so the walks of `nsvg__addPath` (inside
the parse, which reads no wrong slot), of `generateAbsoluteSVG` and of
`generateRelativeSVG` find a code at every index they visit and end at the
size. On a parser that already holds subpaths, the subpaths that the parse
adds have this structure. An array with fewer than 4 slots (nothing, or a
start point alone) is not finished: `nsvg__addPath` leaves the parser as it
is. -/
theorem output_structure :
    (∀ (m : Matrix6) (angle : ℚ) (s : List Char),
      ∃ q, nsvg__parsePath (createParser m angle) s = Except.ok q ∧
        (∀ sp ∈ q.plist, WellFormed sp) ∧
        (∃ t, generateAbsoluteSVG q.plist = Except.ok t) ∧
        (∃ t, generateRelativeSVG q.plist = Except.ok t)) ∧
    (∀ (p : SVGPathparser) (s : List Char),
      ∃ q, nsvg__parsePath p s = Except.ok q ∧ ∀ sp ∈ q.plist, sp ∈ p.plist ∨ WellFormed sp) ∧
    (∀ (p : SVGPathparser) (closed : Bool), p.size < 4 →
      nsvg__addPath p closed = Except.ok p) := by
  refine ⟨fun m angle s => ?_, fun p s => ?_, fun p closed hs => ?_⟩
  · obtain ⟨q, hq, hp⟩ := parsePath_total (createParser m angle) s
    have hsub : ∀ sp ∈ q.plist, SubOK sp := by
      intro sp hsp
      rcases hp sp hsp with h | h
      · exact absurd h (by simp [createParser])
      · exact h
    exact ⟨q, hq, fun sp hsp => subOK_wellFormed sp (hsub sp hsp),
      generateAbsoluteSVG_subOK _ hsub, generateRelativeSVG_subOK _ hsub⟩
  · obtain ⟨q, hq, hp⟩ := parsePath_total p s
    exact ⟨q, hq, fun sp hsp => (hp sp hsp).imp id (subOK_wellFormed sp)⟩
  · simp [nsvg__addPath, hs]

theorem output_structure_witness :
    (∃ q, nsvg__parsePath (createParser identityMatrix 0) "M0,0 L1,1 Z m".toList =
        Except.ok q ∧
      (∀ sp ∈ q.plist, WellFormed sp) ∧
      (∃ t, generateAbsoluteSVG q.plist = Except.ok t) ∧
      (∃ t, generateRelativeSVG q.plist = Except.ok t)) ∧
    (createParser identityMatrix 0).size < 4 ∧
    nsvg__addPath (createParser identityMatrix 0) true =
      Except.ok (createParser identityMatrix 0) :=
  ⟨output_structure.1 identityMatrix 0 _, by decide,
    output_structure.2.2 (createParser identityMatrix 0) true (by decide)⟩

/-- C28 (the fatal branch of `moveto` is not reached from the parser): for
every parser and text `nsvg__parsePath` returns without a fault, and at every
state at the top of its loop the raw array is empty while the command is `M`
or `m`, so that the `moveto` of an executed `M`/`m` is called with size 0 and
succeeds; the `moveto` after `Z`/`z` is called on the array that
`nsvg__resetPath` has just emptied; and the body of the loop returns for
every item. -/
theorem moveto_fatal_unreachable (p : SVGPathparser) (s : List Char) :
    (∃ q, nsvg__parsePath p s = Except.ok q) ∧
    (∀ (q : SVGPathparser) (x y : ℚ), (nsvg__resetPath q).size = 0 ∧
      ∃ r, moveto (nsvg__resetPath q) x y = Except.ok r) ∧
    ∀ (st : PState) (cur : List Char), Reachable p s st cur →
      ((st.cmd = 'M' ∨ st.cmd = 'm') →
        st.p.size = 0 ∧ ∀ x y : ℚ, ∃ r, moveto st.p x y = Except.ok r) ∧
      (∀ item : List Char, ∃ st1, processItem st item = Except.ok st1) := by
  refine ⟨?_, fun q x y => ⟨rfl, ?_⟩, fun st cur hreach => ?_⟩
  · obtain ⟨q, hq, -⟩ := parsePath_total p s
    exact ⟨q, hq⟩
  · obtain ⟨r, hr, -⟩ := moveto_empty (nsvg__resetPath q) x y rfl
    exact ⟨r, hr⟩
  · have hinv := reachable_inv p s st cur hreach
    refine ⟨fun hM => ?_, fun item => ?_⟩
    · have he := hinv.2.1 hM
      refine ⟨by simp [SVGPathparser.size, he], fun x y => ?_⟩
      obtain ⟨r, hr, -⟩ := moveto_empty st.p x y he
      exact ⟨r, hr⟩
    · obtain ⟨st1, h1, -⟩ := processItem_inv p st item hinv
      exact ⟨st1, h1⟩

/-- C29 (progress of the scanner and termination): `nsvg__getNextPathItem`
returns an empty item with the cursor at the end of the text, or an item that
is not empty with the cursor moved forward, and its cursor is a suffix of the
text; the cursor of `nsvg__getNextPathItemWhenArcFlag` is a suffix of the
text too, so it never moves backwards; the loop of `nsvg__parsePath` returns
within `length s` passes (fuel `length s + 1`, one more for the last test),
and `nsvg__parsePath` returns. -/
theorem scanner_progress (s : List Char) :
    (((nsvg__getNextPathItem s).2 = [] ∧ deref (nsvg__getNextPathItem s).1 = Char.ofNat 0) ∨
      ((nsvg__getNextPathItem s).2 ≠ [] ∧ (nsvg__getNextPathItem s).1.length < s.length)) ∧
    (nsvg__getNextPathItem s).1 <:+ s ∧
    (nsvg__getNextPathItemWhenArcFlag s).1 <:+ s ∧
    (nsvg__getNextPathItemWhenArcFlag s).1.length ≤ s.length ∧
    (∀ p : SVGPathparser, ∃ st, parseLoop (s.length + 1) (initialState p) s = Except.ok st) ∧
    (∀ p : SVGPathparser, ∃ q, nsvg__parsePath p s = Except.ok q) := by
  refine ⟨getNextPathItem_progress s, (getNextPathItem_adv s).1,
    (getNextPathItemWhenArcFlag_adv s).1, (getNextPathItemWhenArcFlag_adv s).1.length_le,
    fun p => ?_, fun p => ?_⟩
  · obtain ⟨st, hst, -⟩ := parseLoop_total p (s.length + 1) (initialState p) s
      (Nat.lt_succ_self _) (loopInv_initialState p)
    exact ⟨st, hst⟩
  · obtain ⟨q, hq, -⟩ := parsePath_total p s
    exact ⟨q, hq⟩

theorem moveto_fatal_unreachable_witness :
    Reachable parser0 ['M', '1', ',', '2']
      { initialState parser0 with cmd := 'M', rargs := 2 } ['1', ',', '2'] ∧
    (({ initialState parser0 with cmd := 'M', rargs := 2 } : PState).p.size = 0 ∧
      ∀ x y : ℚ, ∃ r,
        moveto ({ initialState parser0 with cmd := 'M', rargs := 2 } : PState).p x y =
          Except.ok r) :=
  have hn : nextItem (initialState parser0) ['M', '1', ',', '2'] = (['1', ',', '2'], ['M']) := by
    decide
  have hr : Reachable parser0 ['M', '1', ',', '2']
      { initialState parser0 with cmd := 'M', rargs := 2 }
      (nextItem (initialState parser0) ['M', '1', ',', '2']).1 :=
    Reachable.step (initialState parser0) _ ['M', '1', ',', '2'] Reachable.start (by decide)
      (by rw [hn]; decide) (by rw [hn]; decide)
  have hr2 : Reachable parser0 ['M', '1', ',', '2']
      { initialState parser0 with cmd := 'M', rargs := 2 } ['1', ',', '2'] := by
    rw [hn] at hr
    exact hr
  ⟨hr2, ((moveto_fatal_unreachable parser0 ['M', '1', ',', '2']).2.2 _ _ hr2).1 (Or.inl rfl)⟩

theorem shiftLeft_one (c : Int) : c <<< (1 : Int) = c * 2 := by
  have h := Int.shiftLeft_eq_mul_pow c 1
  simpa using h

/-- An integer in the range of `int` is its own 32 bit value. -/
theorem toInt32_of_range (x : Int) (h1 : -2 ^ 31 ≤ x) (h2 : x < 2 ^ 31) : toInt32 x = x := by
  unfold toInt32
  omega

theorem guarantee_capacity_spec (p : SVGPathparser) (n : Nat) (h : CapOK p)
    (hb : p.capacity < 2 ^ 30) (hn : n ≤ 8) :
    (guarantee_capacity p n).elements = p.elements ∧
    (guarantee_capacity p n).capacity =
      (if (p.size : Int) + (n : Int) ≤ p.capacity then p.capacity
        else if p.capacity = 0 then 32 else 2 * p.capacity) ∧
    (p.size : Int) + (n : Int) ≤ (guarantee_capacity p n).capacity ∧
    p.capacity ≤ (guarantee_capacity p n).capacity ∧
    ((guarantee_capacity p n).capacity = 0 ∨ 32 ≤ (guarantee_capacity p n).capacity) := by
  obtain ⟨h1, h2⟩ := h
  have hn' : (n : Int) ≤ 8 := by exact_mod_cast hn
  have hs0 : (0 : Int) ≤ (p.size : Int) := Int.natCast_nonneg _
  by_cases hc : (p.size : Int) + (n : Int) > p.capacity
  · have hle : ¬ ((p.size : Int) + (n : Int) ≤ p.capacity) := by omega
    by_cases h0 : p.capacity = 0
    · have e : guarantee_capacity p n = { p with capacity := 32 } := by
        unfold guarantee_capacity
        rw [if_pos hc, if_neg (by simpa using h0)]
      rw [e, if_neg hle, if_pos h0]
      exact ⟨rfl, rfl, by show (p.size : Int) + (n : Int) ≤ 32; omega,
        by show p.capacity ≤ 32; omega, Or.inr (le_refl _)⟩
    · have hw : toInt32 (p.capacity <<< (1 : Int)) = 2 * p.capacity := by
        rw [shiftLeft_one, toInt32_of_range _ (by omega) (by omega)]
        omega
      have e : guarantee_capacity p n = { p with capacity := 2 * p.capacity } := by
        unfold guarantee_capacity
        rw [if_pos hc, if_pos (by simpa using h0), hw]
      rw [e, if_neg hle, if_neg h0]
      exact ⟨rfl, rfl, by show (p.size : Int) + (n : Int) ≤ 2 * p.capacity; omega,
        by show p.capacity ≤ 2 * p.capacity; omega,
        Or.inr (by show 32 ≤ 2 * p.capacity; omega)⟩
  · have hle : (p.size : Int) + (n : Int) ≤ p.capacity := by omega
    have e : guarantee_capacity p n = p := by
      unfold guarantee_capacity
      rw [if_neg hc]
    rw [e, if_pos hle]
    exact ⟨rfl, rfl, hle, le_refl _, h2⟩

/-- An append of `k` slots behind `guarantee_capacity(p, k)` keeps the raw
array within its allocation and does not shrink the allocation. -/
theorem append_capOK (p : SVGPathparser) (slots : List Slot) (h : CapOK p)
    (hb : p.capacity < 2 ^ 30) (hk : slots.length ≤ 8) :
    CapOK { guarantee_capacity p slots.length with
            elements := (guarantee_capacity p slots.length).elements ++ slots } ∧
      p.capacity ≤ (guarantee_capacity p slots.length).capacity := by
  obtain ⟨a, -, c, d, e⟩ := guarantee_capacity_spec p slots.length h hb hk
  refine ⟨⟨?_, e⟩, d⟩
  simp only [SVGPathparser.size, a, List.length_append, Nat.cast_add]
  exact c

/-- C26 (amended): if `size <= capacity`, the capacity is 0 or at least 32 and
below `2^30`, and `n <= 8`, then `guarantee_capacity(p, n)` leaves the
capacity as it is when `size + n <= capacity` holds, and otherwise makes it
32 (from 0) or twice the old capacity; in every case `size + n <= capacity`
holds afterwards and the raw array is not changed. Hence, on such a parser,
each of `moveto`, `lineto`, `tquadto`, `quadto`, `scurveto`, `curveto` and
`arcto` leaves `size <= capacity` with a capacity that is 0 or at least 32,
so the slots it wrote lie below the capacity, and none of them makes the
capacity smaller. -/
theorem buffer_growth (p : SVGPathparser) (n : Nat) (h : CapOK p) (hb : p.capacity < 2 ^ 30)
    (hn : n ≤ 8) :
    ((p.size : Int) + (n : Int) ≤ p.capacity →
      (guarantee_capacity p n).capacity = p.capacity) ∧
    (¬ (p.size : Int) + (n : Int) ≤ p.capacity →
      (guarantee_capacity p n).capacity = if p.capacity = 0 then 32 else 2 * p.capacity) ∧
    (p.size : Int) + (n : Int) ≤ (guarantee_capacity p n).capacity ∧
    (guarantee_capacity p n).elements = p.elements ∧
    (∀ (x y : ℚ) (q : SVGPathparser), moveto p x y = Except.ok q →
      CapOK q ∧ p.capacity ≤ q.capacity ∧ q.size = p.size + 2) ∧
    (∀ x y : ℚ, CapOK (lineto p x y) ∧ p.capacity ≤ (lineto p x y).capacity) ∧
    (∀ x y : ℚ, CapOK (tquadto p x y) ∧ p.capacity ≤ (tquadto p x y).capacity) ∧
    (∀ a b x y : ℚ, CapOK (quadto p a b x y) ∧ p.capacity ≤ (quadto p a b x y).capacity) ∧
    (∀ a b x y : ℚ, CapOK (scurveto p a b x y) ∧ p.capacity ≤ (scurveto p a b x y).capacity) ∧
    (∀ a b c d x y : ℚ,
      CapOK (curveto p a b c d x y) ∧ p.capacity ≤ (curveto p a b c d x y).capacity) ∧
    (∀ (args : List ℚ) (x y : ℚ),
      CapOK (arcto p args x y) ∧ p.capacity ≤ (arcto p args x y).capacity) := by
  obtain ⟨g1, g2, g3, -, -⟩ := guarantee_capacity_spec p n h hb hn
  have app : ∀ slots : List Slot, slots.length ≤ 8 →
      CapOK (if p.size > 0 then
          { guarantee_capacity p slots.length with
            elements := (guarantee_capacity p slots.length).elements ++ slots }
        else p) ∧
      p.capacity ≤ (if p.size > 0 then
          { guarantee_capacity p slots.length with
            elements := (guarantee_capacity p slots.length).elements ++ slots }
        else p).capacity := by
    intro slots hk
    split
    · exact append_capOK p slots h hb hk
    · exact ⟨h, le_refl _⟩
  refine ⟨fun hle => ?_, fun hle => ?_, g3, g1, ?_, ?_, ?_, ?_, ?_, ?_, ?_⟩
  · rw [g2, if_pos hle]
  · rw [g2, if_neg hle]
  · intro x y q hq
    unfold moveto at hq
    split at hq
    · exact absurd hq (by simp)
    · simp only [Except.ok.injEq] at hq
      subst hq
      obtain ⟨a, b⟩ := append_capOK p [Slot.num x, Slot.num y] h hb (by simp)
      refine ⟨a, b, ?_⟩
      simp [SVGPathparser.size, (guarantee_capacity_spec p 2 h hb (by omega)).1]
  · intro x y
    exact app [Slot.cmd LINETO, Slot.num x, Slot.num y] (by simp)
  · intro x y
    exact app [Slot.cmd TQUADTO, Slot.num x, Slot.num y] (by simp)
  · intro a b x y
    exact app [Slot.cmd QUADTO, Slot.num a, Slot.num b, Slot.num x, Slot.num y] (by simp)
  · intro a b x y
    exact app [Slot.cmd SCURVETO, Slot.num a, Slot.num b, Slot.num x, Slot.num y] (by simp)
  · intro a b c d x y
    exact app [Slot.cmd CURVETO, Slot.num a, Slot.num b, Slot.num c, Slot.num d, Slot.num x,
      Slot.num y] (by simp)
  · intro args x y
    exact app [Slot.cmd ARCTO, Slot.num (args.getD 0 0), Slot.num (args.getD 1 0),
      Slot.num (args.getD 2 0), Slot.num (args.getD 3 0), Slot.num (args.getD 4 0),
      Slot.num x, Slot.num y] (by simp)

theorem buffer_growth_witness :
    (guarantee_capacity
        { parser0 with elements := List.replicate 30 (Slot.num 0), capacity := 32 } 3).capacity =
      (if (32 : Int) = 0 then 32 else 2 * 32) :=
  (buffer_growth { parser0 with elements := List.replicate 30 (Slot.num 0), capacity := 32 } 3
    ⟨by decide, Or.inr (by decide)⟩ (by decide) (by decide)).2.1 (by decide)

/-- C26 as stated fails from the capacity `2^30` on: with `2^30` slots in an
array of capacity `2^30`, `guarantee_capacity(p, 1)` doubles the capacity in
type `int`, which cannot hold `2^31`; the 32 bit value is `-2^31`, so the
capacity is not twice the old one, it has become smaller, and `size + n` is
above it. -/
theorem buffer_growth_counterexample :
    CapOK { parser0 with elements := List.replicate (2 ^ 30) (Slot.num 0),
                         capacity := 2 ^ 30 } ∧
    (guarantee_capacity { parser0 with elements := List.replicate (2 ^ 30) (Slot.num 0),
                                       capacity := 2 ^ 30 } 1).capacity = -2 ^ 31 ∧
    (guarantee_capacity { parser0 with elements := List.replicate (2 ^ 30) (Slot.num 0),
                                       capacity := 2 ^ 30 } 1).capacity ≠ 2 * 2 ^ 30 ∧
    (guarantee_capacity { parser0 with elements := List.replicate (2 ^ 30) (Slot.num 0),
                                       capacity := 2 ^ 30 } 1).capacity < 2 ^ 30 ∧
    ¬ ((2 ^ 30 : Int) + 1 ≤
      (guarantee_capacity { parser0 with elements := List.replicate (2 ^ 30) (Slot.num 0),
                                         capacity := 2 ^ 30 } 1).capacity) := by
  have hsz : ({ parser0 with elements := List.replicate (2 ^ 30) (Slot.num 0),
                             capacity := 2 ^ 30 } : SVGPathparser).size = 2 ^ 30 := by
    unfold SVGPathparser.size
    exact List.length_replicate _ _
  have hcap : (guarantee_capacity { parser0 with
      elements := List.replicate (2 ^ 30) (Slot.num 0), capacity := 2 ^ 30 } 1).capacity =
      -2 ^ 31 := by
    unfold guarantee_capacity
    rw [hsz]
    have hc : ((2 ^ 30 : ℕ) : Int) + ((1 : ℕ) : Int) > (2 ^ 30 : Int) := by norm_num
    rw [if_pos hc]
    have hne : (2 ^ 30 : Int) ≠ 0 := by norm_num
    show (if (2 ^ 30 : Int) ≠ 0 then toInt32 ((2 ^ 30 : Int) <<< (1 : Int)) else 32) = -2 ^ 31
    rw [if_pos hne, shiftLeft_one]
    unfold toInt32
    norm_num
  refine ⟨⟨?_, Or.inr ?_⟩, hcap, ?_, ?_, ?_⟩
  · rw [hsz]
    show ((2 ^ 30 : ℕ) : Int) ≤ (2 ^ 30 : Int)
    norm_num
  · show (32 : Int) ≤ 2 ^ 30
    norm_num
  · rw [hcap]
    norm_num
  · rw [hcap]
    norm_num
  · rw [hcap]
    norm_num

end SVGparser
